import Mathlib

/-!
Verification of the FracturedJsonJs core layout engine against its source.

The development shallowly embeds the relevant TypeScript sources:

* `FJson` — shared data model: `JsonItemType`, `JsonItem` (src/JsonItem.ts),
  `FracturedJsonOptions` (src/FracturedJsonOptions.ts), and
  `PaddedFormattingTokens` (src/PaddedFormattingTokens.ts).
* `FJson.V3` — the layout engine of src/Formatter.ts together with the
  `TableTemplate` it instantiates (the `allowReformattingNumbers : boolean`
  variant of src/TableTemplate.ts).
* `FJson.V5` — the `NumberListAlignment` variant of src/TableTemplate.ts
  (number-column normalization and its fallback).
* `FJson.V2` — the column-statistics formatter (`getPropertyStats`,
  `getArrayStats`, `ColumnStats`) with its table-similarity gating.
* `FJson.SJB` — the trailing-whitespace-trimming `StringJoinBuffer`.

JavaScript `number` string operations (`Number(s).toString()`,
`Number(s).toFixed(d)`, `NaN`/`Infinity` tests) are kept abstract: they are
passed in as function parameters, so every theorem holds for every
interpretation of those primitives, and witnesses instantiate them with
concrete executable functions.
-/

namespace FJson

/-- src/JsonItemType.ts.  The TS field named `Type` is rendered `type`
below because `Type` is a Lean keyword. -/
inductive JsonItemType where
  | Null
  | True
  | False
  | String
  | Number
  | Object
  | Array
  | BlankLine
  | LineComment
  | BlockComment
deriving DecidableEq, Repr

/-- src/BracketPaddingType.ts. -/
inductive BracketPaddingType where
  | Empty
  | Simple
  | Complex
deriving DecidableEq, Repr

/-- src/EolStyle.ts. -/
inductive EolStyle where
  | Crlf
  | Lf
deriving DecidableEq, Repr

/-- src/InputPosition.ts. -/
structure InputPosition where
  Index : Nat
  Row : Nat
  Column : Nat
deriving DecidableEq, Repr

/-- The scalar fields of src/JsonItem.ts; the recursive `Children` list
lives in `JsonItem` itself. -/
structure JsonItemData where
  type : JsonItemType
  inputPosition : InputPosition
  Complexity : Nat
  Name : String
  Value : String
  PrefixComment : String
  MiddleComment : String
  PostfixComment : String
  IsPostCommentLineStyle : Bool
  NameLength : Nat
  ValueLength : Nat
  PrefixCommentLength : Nat
  MiddleCommentLength : Nat
  PostfixCommentLength : Nat
  MinimumTotalLength : Nat
  RequiresMultipleLines : Bool
deriving DecidableEq, Repr

/-- src/JsonItem.ts: an item of the document tree. -/
inductive JsonItem where
  | mk (data : JsonItemData) (Children : List JsonItem)
deriving Repr

def JsonItem.data : JsonItem → JsonItemData
  | .mk d _ => d

def JsonItem.Children : JsonItem → List JsonItem
  | .mk _ c => c

def JsonItem.type (i : JsonItem) : JsonItemType := i.data.type

def JsonItem.Complexity (i : JsonItem) : Nat := i.data.Complexity

def JsonItem.Name (i : JsonItem) : String := i.data.Name

def JsonItem.Value (i : JsonItem) : String := i.data.Value

def JsonItem.PrefixComment (i : JsonItem) : String := i.data.PrefixComment

def JsonItem.MiddleComment (i : JsonItem) : String := i.data.MiddleComment

def JsonItem.PostfixComment (i : JsonItem) : String := i.data.PostfixComment

def JsonItem.IsPostCommentLineStyle (i : JsonItem) : Bool := i.data.IsPostCommentLineStyle

def JsonItem.NameLength (i : JsonItem) : Nat := i.data.NameLength

def JsonItem.ValueLength (i : JsonItem) : Nat := i.data.ValueLength

def JsonItem.PrefixCommentLength (i : JsonItem) : Nat := i.data.PrefixCommentLength

def JsonItem.MiddleCommentLength (i : JsonItem) : Nat := i.data.MiddleCommentLength

def JsonItem.PostfixCommentLength (i : JsonItem) : Nat := i.data.PostfixCommentLength

def JsonItem.MinimumTotalLength (i : JsonItem) : Nat := i.data.MinimumTotalLength

def JsonItem.RequiresMultipleLines (i : JsonItem) : Bool := i.data.RequiresMultipleLines

theorem JsonItem.sizeOf_children_lt (i : JsonItem) : sizeOf i.Children < sizeOf i := by
  cases i with
  | mk d c => simp [JsonItem.Children]

theorem JsonItem.sizeOf_lt_of_mem {c : JsonItem} {i : JsonItem} (h : c ∈ i.Children) :
    sizeOf c < sizeOf i :=
  lt_trans (List.sizeOf_lt_of_mem h) i.sizeOf_children_lt

/-- The options consumed by src/Formatter.ts (the `MaxInlineLength` /
`DontJustifyNumbers` generation of src/FracturedJsonOptions.ts).  Caps are
`Int` because `-1` is a meaningful setting (e.g. `AlwaysExpandDepth`). -/
structure FracturedJsonOptions where
  JsonEolStyle : EolStyle := .Lf
  MaxInlineLength : Int := 80
  MaxTotalLineLength : Int := 120
  MaxInlineComplexity : Int := 2
  MaxCompactArrayComplexity : Int := 1
  MaxTableRowComplexity : Int := 2
  MinCompactArrayRowItems : Int := 3
  AlwaysExpandDepth : Int := -1
  NestedBracketPadding : Bool := true
  SimpleBracketPadding : Bool := false
  ColonPadding : Bool := true
  CommaPadding : Bool := true
  CommentPadding : Bool := true
  IndentSpaces : Nat := 4
  UseTabToIndent : Bool := false
  PrefixString : String := ""
  DontJustifyNumbers : Bool := false
deriving Repr

/-- src/PaddedFormattingTokens.ts: every fixed textual fragment and its
measured width, precomputed from the options and the configured string
width function. -/
structure PaddedFormattingTokens where
  Comma : String
  Colon : String
  Comment : String
  EOL : String
  DummyComma : String
  CommaLen : Nat
  ColonLen : Nat
  CommentLen : Nat
  PrefixStringLen : Nat
  arrStart : BracketPaddingType → String
  arrEnd : BracketPaddingType → String
  objStart : BracketPaddingType → String
  objEnd : BracketPaddingType → String
  arrStartLen : BracketPaddingType → Nat
  arrEndLen : BracketPaddingType → Nat
  objStartLen : BracketPaddingType → Nat
  objEndLen : BracketPaddingType → Nat
  indentUnit : String
  /-- Width of the literal `null`; used only by the `V5` table template
  (`_pads.LiteralNullLen`). -/
  LiteralNullLen : Nat

namespace PaddedFormattingTokens

/-- The constructor of src/PaddedFormattingTokens.ts, as a function of the
options and the string-length function. -/
def make (opts : FracturedJsonOptions) (strLenFunc : String → Nat) : PaddedFormattingTokens :=
  let arrStart : BracketPaddingType → String := fun t =>
    match t with
    | .Empty => "["
    | .Simple => if opts.SimpleBracketPadding then "[ " else "["
    | .Complex => if opts.NestedBracketPadding then "[ " else "["
  let arrEnd : BracketPaddingType → String := fun t =>
    match t with
    | .Empty => "]"
    | .Simple => if opts.SimpleBracketPadding then " ]" else "]"
    | .Complex => if opts.NestedBracketPadding then " ]" else "]"
  let objStart : BracketPaddingType → String := fun t =>
    match t with
    | .Empty => "\x7b"
    | .Simple => if opts.SimpleBracketPadding then "\x7b " else "\x7b"
    | .Complex => if opts.NestedBracketPadding then "\x7b " else "\x7b"
  let objEnd : BracketPaddingType → String := fun t =>
    match t with
    | .Empty => "\x7d"
    | .Simple => if opts.SimpleBracketPadding then " \x7d" else "\x7d"
    | .Complex => if opts.NestedBracketPadding then " \x7d" else "\x7d"
  let comma := if opts.CommaPadding then ", " else ","
  { Comma := comma
    Colon := if opts.ColonPadding then ": " else ":"
    Comment := if opts.CommentPadding then " " else ""
    EOL := if opts.JsonEolStyle = .Crlf then "\r\n" else "\n"
    DummyComma := String.mk (List.replicate (strLenFunc comma) ' ')
    CommaLen := strLenFunc comma
    ColonLen := strLenFunc (if opts.ColonPadding then ": " else ":")
    CommentLen := strLenFunc (if opts.CommentPadding then " " else "")
    PrefixStringLen := strLenFunc opts.PrefixString
    arrStart := arrStart
    arrEnd := arrEnd
    objStart := objStart
    objEnd := objEnd
    arrStartLen := fun t => strLenFunc (arrStart t)
    arrEndLen := fun t => strLenFunc (arrEnd t)
    objStartLen := fun t => strLenFunc (objStart t)
    objEndLen := fun t => strLenFunc (objEnd t)
    indentUnit := if opts.UseTabToIndent then "\t"
      else String.mk (List.replicate opts.IndentSpaces ' ')
    LiteralNullLen := strLenFunc "null" }

/-- `PaddedFormattingTokens.Start`. -/
def Start (p : PaddedFormattingTokens) (elemType : JsonItemType) (bracketType : BracketPaddingType) :
    String :=
  if elemType = .Array then p.arrStart bracketType else p.objStart bracketType

/-- `PaddedFormattingTokens.End`. -/
def End (p : PaddedFormattingTokens) (elemType : JsonItemType) (bracketType : BracketPaddingType) :
    String :=
  if elemType = .Array then p.arrEnd bracketType else p.objEnd bracketType

/-- `PaddedFormattingTokens.StartLen`. -/
def StartLen (p : PaddedFormattingTokens) (elemType : JsonItemType)
    (bracketType : BracketPaddingType) : Nat :=
  if elemType = .Array then p.arrStartLen bracketType else p.objStartLen bracketType

/-- `PaddedFormattingTokens.EndLen`. -/
def EndLen (p : PaddedFormattingTokens) (elemType : JsonItemType)
    (bracketType : BracketPaddingType) : Nat :=
  if elemType = .Array then p.arrEndLen bracketType else p.objEndLen bracketType

/-- `PaddedFormattingTokens.Indent`: the memoized cache holds
`indentUnit.repeat level`. -/
def Indent (p : PaddedFormattingTokens) (level : Nat) : String :=
  String.join (List.replicate level p.indentUnit)

/-- `PaddedFormattingTokens.Spaces`. -/
def Spaces (_p : PaddedFormattingTokens) (count : Nat) : String :=
  String.mk (List.replicate count ' ')

end PaddedFormattingTokens

/-- `Number.MAX_VALUE` is the exact integer `(2^53 - 1) * 2^971`. -/
def jsNumberMaxValue : Nat := (2 ^ 53 - 1) * 2 ^ 971

end FJson

namespace FJson.V3

/-- `Formatter.IsCommentOrBlankLine`. -/
def isCommentOrBlankLine (t : JsonItemType) : Bool :=
  t == .BlankLine || t == .BlockComment || t == .LineComment

/-- `Formatter.GetPaddingType` (src/Formatter.ts lines 728-733). -/
def getPaddingType (arrOrObj : JsonItem) : BracketPaddingType :=
  if arrOrObj.Children.length = 0 then .Empty
  else if arrOrObj.Complexity ≥ 2 then .Complex else .Simple

/-- `Formatter.ComputeItemLengths` (src/Formatter.ts lines 119-155): the
bottom-up length-computer pre-pass.  `strLen` is the formatter's
`StringLengthFunc`.  `Math.max(0, CommaLen * (n-1))` is rendered with
truncated `Nat` subtraction, which agrees with it. -/
def computeItemLengths (pads : PaddedFormattingTokens) (strLen : String → Nat) :
    JsonItem → JsonItem
  | .mk d ch =>
    let children := ch.attach.map (fun c => computeItemLengths pads strLen c.1)
    let d1 : JsonItemData := { d with
      NameLength := strLen d.Name
      ValueLength := strLen d.Value
      PrefixCommentLength := strLen d.PrefixComment
      MiddleCommentLength := strLen d.MiddleComment
      PostfixCommentLength := strLen d.PostfixComment
      RequiresMultipleLines :=
        isCommentOrBlankLine d.type
        || children.any (fun c => c.RequiresMultipleLines || c.IsPostCommentLineStyle)
        || d.PrefixComment.contains '\n'
        || d.MiddleComment.contains '\n'
        || d.PostfixComment.contains '\n'
        || d.Value.contains '\n' }
    let d2 : JsonItemData :=
      if d.type = .Array ∨ d.type = .Object then
        let padType := getPaddingType (JsonItem.mk d1 children)
        { d1 with ValueLength :=
            pads.StartLen d.type padType
            + pads.EndLen d.type padType
            + (children.map JsonItem.MinimumTotalLength).sum
            + pads.CommaLen * (children.length - 1) }
      else d1
    let d3 : JsonItemData := { d2 with MinimumTotalLength :=
      (if d2.PrefixCommentLength > 0 then d2.PrefixCommentLength + pads.CommentLen else 0)
      + (if d2.NameLength > 0 then d2.NameLength + pads.ColonLen else 0)
      + (if d2.MiddleCommentLength > 0 then d2.MiddleCommentLength + pads.CommentLen else 0)
      + d2.ValueLength
      + (if d2.PostfixCommentLength > 0 then d2.PostfixCommentLength + pads.CommentLen else 0) }
    JsonItem.mk d3 children
termination_by i => sizeOf i
decreasing_by
  have := List.sizeOf_lt_of_mem c.2
  simp only [JsonItem.mk.sizeOf_spec]
  omega

end FJson.V3

namespace FJson

/-- All nodes of a document tree, the root included. -/
def JsonItem.allNodes (i : JsonItem) : List JsonItem :=
  i :: i.Children.attach.flatMap (fun c => JsonItem.allNodes c.1)
termination_by sizeOf i
decreasing_by
  exact JsonItem.sizeOf_lt_of_mem c.2

/-- A tree is measured when `RequiresMultipleLines` is consistent with its
children: a single-line node has only single-line children.  This is the
invariant the length-computer pre-pass establishes and the only one the
layout engine's safety depends on. -/
inductive Measured : JsonItem → Prop where
  | mk {i : JsonItem}
      (hdown : i.RequiresMultipleLines = false →
        ∀ c ∈ i.Children, c.RequiresMultipleLines = false)
      (hch : ∀ c ∈ i.Children, Measured c) : Measured i

theorem Measured.requiresMultipleLines_children {i : JsonItem} (h : Measured i)
    (hi : i.RequiresMultipleLines = false) :
    ∀ c ∈ i.Children, c.RequiresMultipleLines = false := by
  cases h with
  | mk hdown hch => exact hdown hi

theorem Measured.children {i : JsonItem} (h : Measured i) :
    ∀ c ∈ i.Children, Measured c := by
  cases h with
  | mk hdown hch => exact hch

end FJson

namespace FJson.V3

/-- The JavaScript number primitives the table template relies on, kept
abstract: `numToString s` is `Number(s).toString()` and `toFixed s d` is
`Number(s).toFixed(d)`. -/
structure JsNumberFns where
  numToString : String → String
  toFixed : String → Nat → String

/-- Scalar fields of the `TableTemplate` class instantiated by
src/Formatter.ts (the `constructor(pads, allowReformattingNumbers)`
variant of src/TableTemplate.ts). -/
structure TableTemplateData where
  LocationInParent : Option String := none
  type : JsonItemType := .Null
  IsRowDataCompatible : Bool := true
  RowCount : Nat := 0
  NameLength : Nat := 0
  SimpleValueLength : Nat := 0
  PrefixCommentLength : Nat := 0
  MiddleCommentLength : Nat := 0
  PostfixCommentLength : Nat := 0
  PadType : BracketPaddingType := .Simple
  IsFormattableNumber : Bool
  CompositeValueLength : Nat := 0
  TotalLength : Nat := 0
  allowReformattingNumbers : Bool
  maxDigitsBeforeDecimal : Nat := 0
  maxDigitsAfterDecimal : Nat := 0
  dataContainsNull : Bool := false
deriving Repr

inductive TableTemplate where
  | mk (data : TableTemplateData) (Children : List TableTemplate)
deriving Repr

def TableTemplate.data : TableTemplate → TableTemplateData
  | .mk d _ => d

def TableTemplate.Children : TableTemplate → List TableTemplate
  | .mk _ c => c

def TableTemplate.LocationInParent (t : TableTemplate) : Option String := t.data.LocationInParent

def TableTemplate.type (t : TableTemplate) : JsonItemType := t.data.type

def TableTemplate.IsRowDataCompatible (t : TableTemplate) : Bool := t.data.IsRowDataCompatible

def TableTemplate.RowCount (t : TableTemplate) : Nat := t.data.RowCount

def TableTemplate.NameLength (t : TableTemplate) : Nat := t.data.NameLength

def TableTemplate.SimpleValueLength (t : TableTemplate) : Nat := t.data.SimpleValueLength

def TableTemplate.PrefixCommentLength (t : TableTemplate) : Nat := t.data.PrefixCommentLength

def TableTemplate.MiddleCommentLength (t : TableTemplate) : Nat := t.data.MiddleCommentLength

def TableTemplate.PostfixCommentLength (t : TableTemplate) : Nat := t.data.PostfixCommentLength

def TableTemplate.PadType (t : TableTemplate) : BracketPaddingType := t.data.PadType

def TableTemplate.IsFormattableNumber (t : TableTemplate) : Bool := t.data.IsFormattableNumber

def TableTemplate.CompositeValueLength (t : TableTemplate) : Nat := t.data.CompositeValueLength

def TableTemplate.TotalLength (t : TableTemplate) : Nat := t.data.TotalLength

def TableTemplate.maxDigitsAfterDecimal (t : TableTemplate) : Nat := t.data.maxDigitsAfterDecimal

theorem TableTemplate.sizeOfV3_children_lt (t : TableTemplate) : sizeOf t.Children < sizeOf t := by
  cases t with
  | mk d c => simp [TableTemplate.Children]

theorem TableTemplate.sizeOfV3_lt_of_mem {c t : TableTemplate} (h : c ∈ t.Children) :
    sizeOf c < sizeOf t :=
  lt_trans (List.sizeOf_lt_of_mem h) t.sizeOfV3_children_lt

/-- A freshly constructed `TableTemplate` (the class initializers plus the
constructor body). -/
def newTemplate (allowReformattingNumbers : Bool) : TableTemplate :=
  .mk { IsFormattableNumber := allowReformattingNumbers
        allowReformattingNumbers := allowReformattingNumbers } []

/-- `newTemplate` with `LocationInParent` set, as done when
`MeasureRowSegment` creates a sub-template for a new object property. -/
def newTemplateAt (allowReformattingNumbers : Bool) (name : String) : TableTemplate :=
  .mk { IsFormattableNumber := allowReformattingNumbers
        allowReformattingNumbers := allowReformattingNumbers
        LocationInParent := some name } []

/-- `TableTemplate.ContainsDuplicateKeys`:
`keys.some((v, i) => keys.indexOf(v) !== i)`. -/
def containsDuplicateKeys (list : List JsonItem) : Bool :=
  let keys := list.map JsonItem.Name
  keys.enum.any (fun p => keys.indexOf p.2 != p.1)

/-- Replace the first template whose `LocationInParent` is `some name` —
the functional rendering of mutating the template found by
`this.Children.find(tt => tt.LocationInParent === rowSegChild.Name)`. -/
def replaceFirstAt : List TableTemplate → String → TableTemplate → List TableTemplate
  | [], _, _ => []
  | t :: ts, name, tnew =>
    if t.LocationInParent = some name then tnew :: ts
    else t :: replaceFirstAt ts name tnew

mutual

/-- `TableTemplate.MeasureRowSegment` of the `allowReformattingNumbers`
variant of src/TableTemplate.ts (lines 460-545 of that class). -/
def MeasureRowSegment (fns : JsNumberFns) (t : TableTemplate) (rowSegment : JsonItem) :
    TableTemplate :=
  -- Standalone comments and blank lines don't figure into template measurements.
  if isCommentOrBlankLine rowSegment.type then t
  else
    let d0 := t.data
    let d1 : TableTemplateData :=
      if rowSegment.type = .False ∨ rowSegment.type = .True then
        { d0 with
          IsRowDataCompatible := d0.IsRowDataCompatible
            && (d0.type == .True || d0.type == .Null)
          type := .True
          IsFormattableNumber := false }
      else if rowSegment.type = .Number then
        { d0 with
          IsRowDataCompatible := d0.IsRowDataCompatible
            && (d0.type == .Number || d0.type == .Null)
          type := .Number }
      else if rowSegment.type = .Null then
        { d0 with dataContainsNull := true }
      else
        { d0 with
          IsRowDataCompatible := d0.IsRowDataCompatible
            && (d0.type == rowSegment.type || d0.type == .Null)
          type := if d0.type = .Null then rowSegment.type else d0.type
          IsFormattableNumber := false }
    -- If multiple lines are necessary for a row, we can't make a table.
    let d2 : TableTemplateData := { d1 with
      IsRowDataCompatible := d1.IsRowDataCompatible && !rowSegment.RequiresMultipleLines }
    let d3 : TableTemplateData := { d2 with
      RowCount := d2.RowCount + 1
      NameLength := max d2.NameLength rowSegment.NameLength
      SimpleValueLength := max d2.SimpleValueLength rowSegment.ValueLength
      MiddleCommentLength := max d2.MiddleCommentLength rowSegment.MiddleCommentLength
      PrefixCommentLength := max d2.PrefixCommentLength rowSegment.PrefixCommentLength
      PostfixCommentLength := max d2.PostfixCommentLength rowSegment.PostfixCommentLength }
    let d4 : TableTemplateData :=
      if rowSegment.Complexity ≥ 2 then { d3 with PadType := .Complex } else d3
    if d4.IsRowDataCompatible = false then .mk d4 t.Children
    else if rowSegment.type = .Array then
      .mk d4 (MeasureArrayChildren fns d4.allowReformattingNumbers t.Children rowSegment.Children)
    else if rowSegment.type = .Object then
      if containsDuplicateKeys rowSegment.Children then
        .mk { d4 with IsRowDataCompatible := false } t.Children
      else
        .mk d4 (MeasureObjectChildren fns d4.allowReformattingNumbers t.Children rowSegment.Children)
    else if rowSegment.type = .Number ∧ d4.IsFormattableNumber then
      let normalizedVal := fns.numToString rowSegment.Value
      let indexOfDot := normalizedVal.toList.indexOf? '.'
      let d5 : TableTemplateData := { d4 with
        IsFormattableNumber := normalizedVal.length ≤ 15 && !(normalizedVal.contains 'e')
        maxDigitsBeforeDecimal := max d4.maxDigitsBeforeDecimal
          (match indexOfDot with
            | some k => k
            | none => normalizedVal.length)
        maxDigitsAfterDecimal := max d4.maxDigitsAfterDecimal
          (match indexOfDot with
            | some k => normalizedVal.length - k - 1
            | none => 0) }
      .mk d5 t.Children
    else .mk d4 t.Children
termination_by sizeOf rowSegment
decreasing_by
  all_goals simp_wf
  all_goals have := JsonItem.sizeOf_children_lt rowSegment
  all_goals omega

/-- The positional find-or-create loop for `Array` row segments. -/
def MeasureArrayChildren (fns : JsNumberFns) (ar : Bool) :
    List TableTemplate → List JsonItem → List TableTemplate
  | tch, [] => tch
  | t :: ts, s :: ss => MeasureRowSegment fns t s :: MeasureArrayChildren fns ar ts ss
  | [], s :: ss => MeasureRowSegment fns (newTemplate ar) s :: MeasureArrayChildren fns ar [] ss
termination_by _ segs => sizeOf segs
decreasing_by all_goals simp_wf <;> omega

/-- The find-or-create-by-name loop for `Object` row segments. -/
def MeasureObjectChildren (fns : JsNumberFns) (ar : Bool) (tch : List TableTemplate) :
    List JsonItem → List TableTemplate
  | [] => tch
  | s :: ss =>
    let tch' :=
      match tch.find? (fun tt => tt.LocationInParent == some s.Name) with
      | some told => replaceFirstAt tch s.Name (MeasureRowSegment fns told s)
      | none => tch ++ [MeasureRowSegment fns (newTemplateAt ar s.Name) s]
    MeasureObjectChildren fns ar tch' ss
termination_by segs => sizeOf segs
decreasing_by all_goals simp_wf <;> omega

end

/-- `TableTemplate.PruneAndRecompute` of the `allowReformattingNumbers`
variant.  Note the source uses `ArrStartLen`/`ArrEndLen` for objects too. -/
def PruneAndRecompute (pads : PaddedFormattingTokens) (t : TableTemplate)
    (maxAllowedComplexity : Int) : TableTemplate :=
  let ch0 := if maxAllowedComplexity ≤ 0 then [] else t.Children
  let ch1 := ch0.attach.map (fun c => PruneAndRecompute pads c.1 (maxAllowedComplexity - 1))
  let ch2 := if t.IsRowDataCompatible = false then [] else ch1
  let d := t.data
  let composite : Nat :=
    if ch2.length > 0 then
      (ch2.map TableTemplate.TotalLength).sum + pads.CommaLen * (ch2.length - 1)
        + pads.arrStartLen d.PadType + pads.arrEndLen d.PadType
    else if d.IsFormattableNumber then
      let c1 := d.maxDigitsBeforeDecimal + d.maxDigitsAfterDecimal
        + (if d.maxDigitsAfterDecimal > 0 then 1 else 0)
      -- Allow room for null.
      if d.dataContainsNull ∧ c1 < 4 then 4 else c1
    else d.SimpleValueLength
  let total : Nat :=
    (if d.PrefixCommentLength > 0 then d.PrefixCommentLength + pads.CommentLen else 0)
    + (if d.NameLength > 0 then d.NameLength + pads.ColonLen else 0)
    + (if d.MiddleCommentLength > 0 then d.MiddleCommentLength + pads.CommentLen else 0)
    + composite
    + (if d.PostfixCommentLength > 0 then d.PostfixCommentLength + pads.CommentLen else 0)
  .mk { d with CompositeValueLength := composite, TotalLength := total } ch2
termination_by sizeOf t
decreasing_by
  have hm : c.1 ∈ (if maxAllowedComplexity ≤ 0 then [] else t.Children) := c.2
  have : c.1 ∈ t.Children := by
    by_cases h : maxAllowedComplexity ≤ 0
    · simp [h] at hm
    · simpa [h] using hm
  exact TableTemplate.sizeOfV3_lt_of_mem this

/-- `TableTemplate.GetTemplateComplexity`.  `Math.max(...)` over a
non-empty list of naturals equals `foldl max 0`. -/
def GetTemplateComplexity (t : TableTemplate) : Nat :=
  if t.Children.length = 0 then 0
  else 1 + (t.Children.attach.map (fun c => GetTemplateComplexity c.1)).foldl max 0
termination_by sizeOf t
decreasing_by
  exact TableTemplate.sizeOfV3_lt_of_mem c.2

/-- One iteration step of the `TryToFit` loop; `fuel` only bounds the
number of iterations and is chosen large enough that the loop's own exit
condition (`complexity < 0`) always fires first. -/
def TryToFitAux (pads : PaddedFormattingTokens) (t : TableTemplate) (maximumLength : Int)
    (complexity : Int) : Nat → Bool × TableTemplate
  | 0 => (false, t)
  | fuel + 1 =>
    if complexity < 0 then (false, t)
    else if (t.TotalLength : Int) ≤ maximumLength then (true, t)
    else
      TryToFitAux pads (PruneAndRecompute pads t (complexity - 1)) maximumLength
        (complexity - 1) fuel

/-- `TableTemplate.TryToFit`, returning the success flag together with the
(possibly pruned) template the emitter will use. -/
def TryToFit (pads : PaddedFormattingTokens) (t : TableTemplate) (maximumLength : Int) :
    Bool × TableTemplate :=
  TryToFitAux pads t maximumLength (GetTemplateComplexity t) (GetTemplateComplexity t + 2)

def TableTemplate.setIsRowDataCompatible (t : TableTemplate) (b : Bool) : TableTemplate :=
  .mk { t.data with IsRowDataCompatible := b } t.Children

/-- `TableTemplate.MeasureTableRoot` (identical in both variants of
src/TableTemplate.ts, lines 97-108 of the file): measure every child as a
row, recompute, and require at least two actual data rows. -/
def MeasureTableRoot (fns : JsNumberFns) (pads : PaddedFormattingTokens) (ar : Bool)
    (tableRoot : JsonItem) : TableTemplate :=
  let t := tableRoot.Children.foldl (MeasureRowSegment fns) (newTemplate ar)
  let t := PruneAndRecompute pads t (jsNumberMaxValue : Int)
  t.setIsRowDataCompatible (t.IsRowDataCompatible && decide (t.RowCount ≥ 2))

/-- `str.padStart(n)` on JavaScript strings. -/
def padStart (s : String) (n : Nat) : String :=
  String.mk (List.replicate (n - s.length) ' ') ++ s

/-- `TableTemplate.FormatNumber` of the `allowReformattingNumbers`
variant, with its internal-logic-error throw. -/
def FormatNumber (fns : JsNumberFns) (t : TableTemplate) (originalValueString : String) :
    Except String String :=
  if t.IsFormattableNumber = false then
    .error "Logic error - attempting to format inappropriate thing as number"
  else
    .ok (padStart (fns.toFixed originalValueString t.maxDigitsAfterDecimal)
      t.CompositeValueLength)

end FJson.V3

namespace FJson

/-- The character class of the JavaScript regex `\s` (WhiteSpace and
LineTerminator productions), also the set `String.prototype.trimEnd`
removes. -/
def isJsWhitespace (c : Char) : Bool :=
  c = ' ' || c = '\t' || c = '\n' || c = '\r' || c = '\x0b' || c = '\x0c'
  || c = ' ' || c = ' '
  || (0x2000 ≤ c.toNat && c.toNat ≤ 0x200a)
  || c = ' ' || c = ' ' || c = ' ' || c = ' '
  || c = '　' || c = '﻿'

end FJson

namespace FJson.V3

/-- The `while (nonWsIdx < line.length && nonWsIdx < firstLineColumn &&
/\s/.test(line[nonWsIdx])) nonWsIdx += 1; line.substring(nonWsIdx)` loop
of `Formatter.NormalizeMultilineComment`. -/
def dropLeadingWsBounded : Nat → List Char → List Char
  | _, [] => []
  | 0, cs => cs
  | bound + 1, c :: cs => if isJsWhitespace c then dropLeadingWsBounded bound cs else c :: cs

/-- `Formatter.NormalizeMultilineComment` (src/Formatter.ts lines
739-763). -/
def NormalizeMultilineComment (comment : String) (firstLineColumn : Nat) : List String :=
  let normalized := String.mk (comment.toList.filter (fun c => c ≠ '\r'))
  let commentRows := (normalized.split (fun c => c = '\n')).filter (fun line => line.length > 0)
  match commentRows with
  | [] => []
  | r0 :: rest =>
    r0 :: rest.map (fun line => String.mk (dropLeadingWsBounded firstLineColumn line.toList))

/-- `Formatter.AvailableLineSpace` (src/Formatter.ts lines 638-641). -/
def availableLineSpace (opts : FracturedJsonOptions) (pads : PaddedFormattingTokens)
    (depth : Nat) : Int :=
  min opts.MaxInlineLength
    (opts.MaxTotalLineLength - (pads.PrefixStringLen : Int) - (opts.IndentSpaces * depth : Nat))

/-- `Formatter.IndexOfLastElement`: index of the last child that is not a
comment or blank line, `-1` if there is none. -/
def indexOfLastElement (itemList : List JsonItem) : Int :=
  itemList.enum.foldl
    (fun acc p => if isCommentOrBlankLine p.2.type then acc else (p.1 : Int)) (-1)

mutual

/-- `Formatter.InlineElement` (src/Formatter.ts lines 459-484), with its
logic-error throw rendered as `Except.error`.  The `.ok` payload is the
sequence of strings added to the buffer. -/
def InlineElement (pads : PaddedFormattingTokens) (item : JsonItem)
    (includeTrailingComma : Bool) : Except String (List String) :=
  if item.RequiresMultipleLines then .error "Logic error - trying to inline invalid element"
  else
    let pre :=
      (if item.PrefixCommentLength > 0 then [item.PrefixComment, pads.Comment] else [])
      ++ (if item.NameLength > 0 then [item.Name, pads.Colon] else [])
      ++ (if item.MiddleCommentLength > 0 then [item.MiddleComment, pads.Comment] else [])
    match InlineElementRaw pads item with
    | .error e => .error e
    | .ok mid =>
      let post :=
        (if includeTrailingComma && item.IsPostCommentLineStyle then [pads.Comma] else [])
        ++ (if item.PostfixCommentLength > 0 then [pads.Comment, item.PostfixComment] else [])
        ++ (if includeTrailingComma && !item.IsPostCommentLineStyle then [pads.Comma] else [])
      .ok (pre ++ mid ++ post)
termination_by (sizeOf item, 1)

/-- `Formatter.InlineElementRaw` (src/Formatter.ts lines 490-512). -/
def InlineElementRaw (pads : PaddedFormattingTokens) (item : JsonItem) :
    Except String (List String) :=
  if item.type = .Array then
    let padType := getPaddingType item
    match InlineChildren pads item.Children with
    | .error e => .error e
    | .ok mids => .ok ([pads.arrStart padType] ++ mids ++ [pads.arrEnd padType])
  else if item.type = .Object then
    let padType := getPaddingType item
    match InlineChildren pads item.Children with
    | .error e => .error e
    | .ok mids => .ok ([pads.objStart padType] ++ mids ++ [pads.objEnd padType])
  else .ok [item.Value]
termination_by (sizeOf item, 0)
decreasing_by
  all_goals simp_wf
  all_goals have := JsonItem.sizeOf_children_lt item
  all_goals omega

/-- The `for` loop over children in `InlineElementRaw`: every child but the
last gets a trailing comma. -/
def InlineChildren (pads : PaddedFormattingTokens) :
    List JsonItem → Except String (List String)
  | [] => .ok []
  | c :: cs =>
    match InlineElement pads c (!cs.isEmpty) with
    | .error e => .error e
    | .ok o =>
      match InlineChildren pads cs with
      | .error e => .error e
      | .ok os => .ok (o ++ os)
termination_by l => (sizeOf l, 2)
decreasing_by
  all_goals simp_wf
  all_goals omega

end

end FJson.V3

namespace FJson.V3

/-- The `MatchingChild` closure of `Formatter.InlineTableRawObject`:
`item.Children.find(ch => ch.Name == temp.LocationInParent)` (loose JS
equality of a string and `undefined` is false). -/
def MatchingChild (item : JsonItem) (temp : TableTemplate) : Option JsonItem :=
  match temp.LocationInParent with
  | some n => item.Children.find? (fun ch => ch.Name == n)
  | none => none

/-- The `lastNonNullIdx` scan of `Formatter.InlineTableRawObject`: the
last template index with a matching object member, `-1` if none. -/
def lastNonNullIdx (item : JsonItem) (tch : List TableTemplate) : Int :=
  tch.enum.foldl
    (fun acc p => if (MatchingChild item p.2).isSome then (p.1 : Int) else acc) (-1)

mutual

/-- `Formatter.InlineTableRowSegment` (src/Formatter.ts lines 517-573). -/
def InlineTableRowSegment (pads : PaddedFormattingTokens) (fns : JsNumberFns)
    (template : TableTemplate) (item : JsonItem) (includeTrailingComma isWholeRow : Bool) :
    Except String (List String) :=
  let pre :=
    (if template.PrefixCommentLength > 0 then
      [item.PrefixComment, pads.Spaces (template.PrefixCommentLength - item.PrefixCommentLength),
        pads.Comment]
     else [])
    ++ (if template.NameLength > 0 then
      [item.Name, pads.Spaces (template.NameLength - item.NameLength), pads.Colon]
     else [])
    ++ (if template.MiddleCommentLength > 0 then
      [item.MiddleComment, pads.Spaces (template.MiddleCommentLength - item.MiddleCommentLength),
        pads.Comment]
     else [])
  let valueE : Except String (List String) :=
    if template.Children.length > 0 ∧ item.type ≠ .Null then
      if template.type = .Array then InlineTableRawArray pads fns template item
      else InlineTableRawObject pads fns template item
    else if template.IsFormattableNumber ∧ item.type ≠ .Null then
      match FormatNumber fns template item.Value with
      | .error e => .error e
      | .ok s => .ok [s]
    else
      match InlineElementRaw pads item with
      | .error e => .error e
      | .ok o => .ok (o ++ [pads.Spaces (template.CompositeValueLength - item.ValueLength)])
  match valueE with
  | .error e => .error e
  | .ok val =>
    let commaGoesBeforeComment := item.IsPostCommentLineStyle || item.PostfixCommentLength == 0
    let commaOut :=
      if includeTrailingComma then [pads.Comma]
      else if isWholeRow then [pads.DummyComma]
      else []
    .ok (pre ++ val
      ++ (if commaGoesBeforeComment then commaOut else [])
      ++ (if template.PostfixCommentLength > 0 then
        [pads.Comment, item.PostfixComment,
          pads.Spaces (template.PostfixCommentLength - item.PostfixCommentLength)]
       else [])
      ++ (if !commaGoesBeforeComment then commaOut else []))
termination_by (sizeOf template, 1)

/-- `Formatter.InlineTableRawArray` (src/Formatter.ts lines 579-600). -/
def InlineTableRawArray (pads : PaddedFormattingTokens) (fns : JsNumberFns)
    (template : TableTemplate) (item : JsonItem) : Except String (List String) :=
  match RawArrayChildren pads fns template.Children item.Children with
  | .error e => .error e
  | .ok mid => .ok ([pads.arrStart template.PadType] ++ mid ++ [pads.arrEnd template.PadType])
termination_by (sizeOf template, 0)
decreasing_by
  all_goals simp_wf
  all_goals have := TableTemplate.sizeOfV3_children_lt template
  all_goals omega

/-- The loop of `InlineTableRawArray`: template columns paired with array
entries, past-the-end columns rendered as spaces, dummy commas keeping
later columns aligned. -/
def RawArrayChildren (pads : PaddedFormattingTokens) (fns : JsNumberFns) :
    List TableTemplate → List JsonItem → Except String (List String)
  | [], _ => .ok []
  | t :: ts, [] =>
    match RawArrayChildren pads fns ts [] with
    | .error e => .error e
    | .ok rest =>
      .ok ([pads.Spaces t.TotalLength] ++ (if ts.isEmpty then [] else [pads.DummyComma]) ++ rest)
  | t :: ts, x :: xs =>
    match InlineTableRowSegment pads fns t x (!xs.isEmpty) false with
    | .error e => .error e
    | .ok seg =>
      match RawArrayChildren pads fns ts xs with
      | .error e => .error e
      | .ok rest =>
        .ok (seg ++ (if xs.isEmpty ∧ !ts.isEmpty then [pads.DummyComma] else []) ++ rest)
termination_by tch _ => (sizeOf tch, 2)
decreasing_by
  all_goals simp_wf
  all_goals omega

/-- `Formatter.InlineTableRawObject` (src/Formatter.ts lines 605-636). -/
def InlineTableRawObject (pads : PaddedFormattingTokens) (fns : JsNumberFns)
    (template : TableTemplate) (item : JsonItem) : Except String (List String) :=
  match RawObjectChildren pads fns item (lastNonNullIdx item template.Children) 0
      template.Children with
  | .error e => .error e
  | .ok mid => .ok ([pads.objStart template.PadType] ++ mid ++ [pads.objEnd template.PadType])
termination_by (sizeOf template, 0)
decreasing_by
  all_goals simp_wf
  all_goals have := TableTemplate.sizeOfV3_children_lt template
  all_goals omega

/-- The loop of `InlineTableRawObject` over the template's columns. -/
def RawObjectChildren (pads : PaddedFormattingTokens) (fns : JsNumberFns) (item : JsonItem)
    (lastIdx : Int) (i : Nat) : List TableTemplate → Except String (List String)
  | [] => .ok []
  | sub :: rest =>
    let isLastInObject : Bool := (i : Int) = lastIdx
    let isLastInTemplate : Bool := rest.isEmpty
    match MatchingChild item sub with
    | some subItem =>
      match InlineTableRowSegment pads fns sub subItem (!isLastInObject) false with
      | .error e => .error e
      | .ok seg =>
        match RawObjectChildren pads fns item lastIdx (i + 1) rest with
        | .error e => .error e
        | .ok more =>
          .ok (seg ++ (if isLastInObject && !isLastInTemplate then [pads.DummyComma] else [])
            ++ more)
    | none =>
      match RawObjectChildren pads fns item lastIdx (i + 1) rest with
      | .error e => .error e
      | .ok more =>
        .ok ([pads.Spaces sub.TotalLength]
          ++ (if !isLastInTemplate then [pads.DummyComma] else []) ++ more)
termination_by tch => (sizeOf tch, 2)
decreasing_by
  all_goals simp_wf
  all_goals omega

end

end FJson.V3

namespace FJson.V3

/-- Which of the four layouts `Formatter.FormatContainer` ended up
emitting. -/
inductive ContainerFormat where
  | Inline
  | MultilineCompact
  | Table
  | Expanded
deriving DecidableEq, Repr

/-- `Formatter.StandardFormatStart` (src/Formatter.ts lines 415-442):
returns the strings added to the buffer and the depth for everything that
follows. -/
def StandardFormatStart (opts : FracturedJsonOptions) (pads : PaddedFormattingTokens)
    (item : JsonItem) (depth : Nat) : List String × Nat :=
  let l0 := [opts.PrefixString, pads.Indent depth]
    ++ (if item.PrefixCommentLength > 0 then [item.PrefixComment, pads.Comment] else [])
    ++ (if item.NameLength > 0 then [item.Name, pads.Colon] else [])
  if item.MiddleCommentLength = 0 then (l0, depth)
  else if !(item.MiddleComment.contains '\n') then
    (l0 ++ [item.MiddleComment, pads.Comment], depth)
  else
    let commentRows := NormalizeMultilineComment item.MiddleComment jsNumberMaxValue
    (l0 ++ [pads.EOL]
      ++ commentRows.flatMap (fun row => [opts.PrefixString, pads.Indent (depth + 1), row, pads.EOL])
      ++ [opts.PrefixString, pads.Indent (depth + 1)],
     depth + 1)

/-- `Formatter.StandardFormatEnd` (src/Formatter.ts lines 448-456). -/
def StandardFormatEnd (pads : PaddedFormattingTokens) (item : JsonItem)
    (includeTrailingComma : Bool) : List String :=
  (if includeTrailingComma && item.IsPostCommentLineStyle then [pads.Comma] else [])
  ++ (if item.PostfixCommentLength > 0 then [pads.Comment, item.PostfixComment] else [])
  ++ (if includeTrailingComma && !item.IsPostCommentLineStyle then [pads.Comma] else [])
  ++ [pads.EOL]

/-- `Formatter.FormatStandaloneComment`. -/
def FormatStandaloneComment (opts : FracturedJsonOptions) (pads : PaddedFormattingTokens)
    (item : JsonItem) (depth : Nat) : List String :=
  (NormalizeMultilineComment item.Value item.data.inputPosition.Column).flatMap
    (fun line => [opts.PrefixString, pads.Indent depth, line, pads.EOL])

/-- `Formatter.FormatBlankLine`. -/
def FormatBlankLine (opts : FracturedJsonOptions) (pads : PaddedFormattingTokens) :
    List String :=
  [opts.PrefixString, pads.EOL]

/-- `Formatter.FormatInlineElement`. -/
def FormatInlineElement (opts : FracturedJsonOptions) (pads : PaddedFormattingTokens)
    (item : JsonItem) (depth : Nat) (includeTrailingComma : Bool) :
    Except String (List String) :=
  match InlineElement pads item includeTrailingComma with
  | .error e => .error e
  | .ok o => .ok ([opts.PrefixString, pads.Indent depth] ++ o ++ [pads.EOL])

/-- `Formatter.FormatSplitKeyValue`. -/
def FormatSplitKeyValue (opts : FracturedJsonOptions) (pads : PaddedFormattingTokens)
    (item : JsonItem) (depth : Nat) (includeTrailingComma : Bool) : List String :=
  (StandardFormatStart opts pads item depth).1 ++ [item.Value]
    ++ StandardFormatEnd pads item includeTrailingComma

/-- `Formatter.FormatContainerInline` (src/Formatter.ts lines 214-226):
`ok none` is `return false`, `ok (some out)` is success with the strings
written. -/
def FormatContainerInline (opts : FracturedJsonOptions) (pads : PaddedFormattingTokens)
    (item : JsonItem) (depth : Nat) (includeTrailingComma : Bool) :
    Except String (Option (List String)) :=
  if item.RequiresMultipleLines then .ok none
  else
    let lengthToConsider := item.MinimumTotalLength
      + (if includeTrailingComma then pads.CommaLen else 0)
    if (item.Complexity : Int) > opts.MaxInlineComplexity
        ∨ (lengthToConsider : Int) > availableLineSpace opts pads depth then .ok none
    else
      match InlineElement pads item includeTrailingComma with
      | .error e => .error e
      | .ok o => .ok (some ([opts.PrefixString, pads.Indent depth] ++ o ++ [pads.EOL]))

/-- The per-child body of `FormatContainerCompactMultiline`: wrap to a
fresh line when the next segment no longer fits, then write the child
either as a table-row segment or as a plain inline element. -/
def CompactChildren (opts : FracturedJsonOptions) (pads : PaddedFormattingTokens)
    (fns : JsNumberFns) (template : TableTemplate) (depthAfterColon : Nat)
    (availableLineSpace' : Int) :
    List JsonItem → Int → Except String (List String)
  | [], _ => .ok []
  | child :: rest, remainingLineSpace =>
    let needsComma : Bool := !rest.isEmpty
    let spaceNeededForNext : Int := (if needsComma then (pads.CommaLen : Int) else 0)
      + (if template.IsRowDataCompatible then (template.TotalLength : Int)
         else (child.MinimumTotalLength : Int))
    let wrap : List String :=
      if remainingLineSpace < spaceNeededForNext then
        [pads.EOL, opts.PrefixString, pads.Indent (depthAfterColon + 1)]
      else []
    let remaining' : Int :=
      if remainingLineSpace < spaceNeededForNext then availableLineSpace'
      else remainingLineSpace
    match (if template.IsRowDataCompatible then
        InlineTableRowSegment pads fns template child needsComma false
      else InlineElement pads child needsComma) with
    | .error e => .error e
    | .ok seg =>
      match CompactChildren opts pads fns template depthAfterColon availableLineSpace' rest
          (remaining' - spaceNeededForNext) with
      | .error e => .error e
      | .ok more => .ok (wrap ++ seg ++ more)

/-- `Formatter.FormatContainerCompactMultiline` (src/Formatter.ts lines
234-288).  When the array is empty and the template is not row-data
compatible, the JS average-width computation is `NaN` and the `>`
rejection test is false; that case is spelled out explicitly here. -/
def FormatContainerCompactMultiline (opts : FracturedJsonOptions)
    (pads : PaddedFormattingTokens) (fns : JsNumberFns) (item : JsonItem) (depth : Nat)
    (includeTrailingComma : Bool) : Except String (Option (List String)) :=
  if item.type ≠ .Array then .ok none
  else if (item.Complexity : Int) > opts.MaxCompactArrayComplexity then .ok none
  else if item.RequiresMultipleLines then .ok none
  else
    let template := MeasureTableRoot fns pads (!opts.DontJustifyNumbers) item
    let likelyAvailableLineSpace := availableLineSpace opts pads (depth + 1)
    let rejected : Bool :=
      if template.IsRowDataCompatible then
        decide ((((pads.CommaLen : Int) + (template.TotalLength : Int) : Int) : Rat)
          * (opts.MinCompactArrayRowItems : Rat) > ((likelyAvailableLineSpace : Int) : Rat))
      else if item.Children.length = 0 then false
      else
        decide (((pads.CommaLen : Rat)
            + (((item.Children.map JsonItem.MinimumTotalLength).sum : Nat) : Rat)
              / ((item.Children.length : Nat) : Rat))
          * (opts.MinCompactArrayRowItems : Rat) > ((likelyAvailableLineSpace : Int) : Rat))
    if rejected then .ok none
    else
      let start := StandardFormatStart opts pads item depth
      let depthAfterColon := start.2
      match CompactChildren opts pads fns template depthAfterColon
          (availableLineSpace opts pads (depthAfterColon + 1)) item.Children (-1) with
      | .error e => .error e
      | .ok body =>
        .ok (some (start.1 ++ [pads.Start item.type .Empty] ++ body
          ++ [pads.EOL, opts.PrefixString, pads.Indent depthAfterColon,
              pads.End item.type .Empty]
          ++ StandardFormatEnd pads item includeTrailingComma))

/-- Per-row emission loop of `FormatContainerTable`: blank lines and
standalone comments are written standalone, data rows as padded table
rows, with a comma on every row before the last element. -/
def TableRows (opts : FracturedJsonOptions) (pads : PaddedFormattingTokens)
    (fns : JsNumberFns) (template : TableTemplate) (depthAfterColon : Nat)
    (lastElementIndex : Int) : List JsonItem → Nat → Except String (List String)
  | [], _ => .ok []
  | rowItem :: rest, i =>
    let rowE : Except String (List String) :=
      if rowItem.type = .BlankLine then .ok (FormatBlankLine opts pads)
      else if rowItem.type = .LineComment ∨ rowItem.type = .BlockComment then
        .ok (FormatStandaloneComment opts pads rowItem (depthAfterColon + 1))
      else
        match InlineTableRowSegment pads fns template rowItem
            (decide ((i : Int) < lastElementIndex)) true with
        | .error e => .error e
        | .ok seg =>
          .ok ([opts.PrefixString, pads.Indent (depthAfterColon + 1)] ++ seg ++ [pads.EOL])
    match rowE with
    | .error e => .error e
    | .ok row =>
      match TableRows opts pads fns template depthAfterColon lastElementIndex rest (i + 1) with
      | .error e => .error e
      | .ok more => .ok (row ++ more)

/-- `Formatter.FormatContainerTable` (src/Formatter.ts lines 295-358). -/
def FormatContainerTable (opts : FracturedJsonOptions) (pads : PaddedFormattingTokens)
    (fns : JsNumberFns) (item : JsonItem) (depth : Nat) (includeTrailingComma : Bool) :
    Except String (Option (List String)) :=
  if (item.Complexity : Int) > opts.MaxTableRowComplexity + 1 then .ok none
  else
    let availableSpace := availableLineSpace opts pads (depth + 1) - (pads.CommaLen : Int)
    let isChildTooLong :=
      (item.Children.filter (fun ch => !isCommentOrBlankLine ch.type)).any
        (fun ch => (ch.MinimumTotalLength : Int) > availableSpace)
    if isChildTooLong then .ok none
    else
      let template := MeasureTableRoot fns pads (!opts.DontJustifyNumbers) item
      if template.IsRowDataCompatible = false then .ok none
      else
        match TryToFit pads template availableSpace with
        | (false, _) => .ok none
        | (true, template') =>
          let start := StandardFormatStart opts pads item depth
          let depthAfterColon := start.2
          match TableRows opts pads fns template' depthAfterColon
              (indexOfLastElement item.Children) item.Children 0 with
          | .error e => .error e
          | .ok rows =>
            .ok (some (start.1 ++ [pads.Start item.type .Empty, pads.EOL] ++ rows
              ++ [opts.PrefixString, pads.Indent depthAfterColon, pads.End item.type .Empty]
              ++ StandardFormatEnd pads item includeTrailingComma))

mutual

/-- `Formatter.FormatItem` (src/Formatter.ts lines 161-181). -/
def FormatItem (opts : FracturedJsonOptions) (pads : PaddedFormattingTokens)
    (fns : JsNumberFns) (item : JsonItem) (depth : Nat) (includeTrailingComma : Bool) :
    Except String (List String) :=
  match item.type with
  | .Array | .Object =>
    match FormatContainer opts pads fns item depth includeTrailingComma with
    | .error e => .error e
    | .ok r => .ok r.2
  | .BlankLine => .ok (FormatBlankLine opts pads)
  | .BlockComment | .LineComment => .ok (FormatStandaloneComment opts pads item depth)
  | _ =>
    if item.RequiresMultipleLines then
      .ok (FormatSplitKeyValue opts pads item depth includeTrailingComma)
    else FormatInlineElement opts pads item depth includeTrailingComma
termination_by (sizeOf item, 3)

/-- `Formatter.FormatContainer` (src/Formatter.ts lines 187-206):
inline and compact-multiline are tried above `AlwaysExpandDepth`, the
table format also at it, and expanded is the fallback.  The result also
reports which layout was emitted. -/
def FormatContainer (opts : FracturedJsonOptions) (pads : PaddedFormattingTokens)
    (fns : JsNumberFns) (item : JsonItem) (depth : Nat) (includeTrailingComma : Bool) :
    Except String (ContainerFormat × List String) :=
  if (depth : Int) > opts.AlwaysExpandDepth then
    match FormatContainerInline opts pads item depth includeTrailingComma with
    | .error e => .error e
    | .ok (some o) => .ok (.Inline, o)
    | .ok none =>
      match FormatContainerCompactMultiline opts pads fns item depth includeTrailingComma with
      | .error e => .error e
      | .ok (some o) => .ok (.MultilineCompact, o)
      | .ok none => FormatContainerTableOrExpanded opts pads fns item depth includeTrailingComma
  else FormatContainerTableOrExpanded opts pads fns item depth includeTrailingComma
termination_by (sizeOf item, 2)

/-- The tail of `Formatter.FormatContainer`: try the table format when
`depth >= AlwaysExpandDepth`, otherwise (and on failure) expand. -/
def FormatContainerTableOrExpanded (opts : FracturedJsonOptions)
    (pads : PaddedFormattingTokens) (fns : JsNumberFns) (item : JsonItem) (depth : Nat)
    (includeTrailingComma : Bool) : Except String (ContainerFormat × List String) :=
  if (depth : Int) ≥ opts.AlwaysExpandDepth then
    match FormatContainerTable opts pads fns item depth includeTrailingComma with
    | .error e => .error e
    | .ok (some o) => .ok (.Table, o)
    | .ok none =>
      match FormatContainerExpanded opts pads fns item depth includeTrailingComma with
      | .error e => .error e
      | .ok o => .ok (.Expanded, o)
  else
    match FormatContainerExpanded opts pads fns item depth includeTrailingComma with
    | .error e => .error e
    | .ok o => .ok (.Expanded, o)
termination_by (sizeOf item, 1)

/-- `Formatter.FormatContainerExpanded` (src/Formatter.ts lines 364-375). -/
def FormatContainerExpanded (opts : FracturedJsonOptions) (pads : PaddedFormattingTokens)
    (fns : JsNumberFns) (item : JsonItem) (depth : Nat) (includeTrailingComma : Bool) :
    Except String (List String) :=
  let start := StandardFormatStart opts pads item depth
  let depthAfterColon := start.2
  match ExpandedChildren opts pads fns (indexOfLastElement item.Children) depthAfterColon
      item.Children 0 with
  | .error e => .error e
  | .ok body =>
    .ok (start.1 ++ [pads.Start item.type .Empty, pads.EOL] ++ body
      ++ [opts.PrefixString, pads.Indent depthAfterColon, pads.End item.type .Empty]
      ++ StandardFormatEnd pads item includeTrailingComma)
termination_by (sizeOf item, 0)
decreasing_by
  all_goals simp_wf
  all_goals have := JsonItem.sizeOf_children_lt item
  all_goals omega

/-- The child loop of `FormatContainerExpanded`: every child before the
last element gets a trailing comma. -/
def ExpandedChildren (opts : FracturedJsonOptions) (pads : PaddedFormattingTokens)
    (fns : JsNumberFns) (lastElementIndex : Int) (depthAfterColon : Nat) :
    List JsonItem → Nat → Except String (List String)
  | [], _ => .ok []
  | c :: cs, i =>
    match FormatItem opts pads fns c (depthAfterColon + 1)
        (decide ((i : Int) < lastElementIndex)) with
    | .error e => .error e
    | .ok o =>
      match ExpandedChildren opts pads fns lastElementIndex depthAfterColon cs (i + 1) with
      | .error e => .error e
      | .ok os => .ok (o ++ os)
termination_by l _ => (sizeOf l, 4)
decreasing_by
  all_goals simp_wf
  all_goals omega

end

end FJson.V3

namespace FJson.V5

/-- src/NumberListAlignment.ts. -/
inductive NumberListAlignment where
  | Left
  | Right
  | Decimal
  | Normalize
deriving DecidableEq, Repr

/-- The JavaScript double-precision primitives used by the
`NumberListAlignment` variant of src/TableTemplate.ts, abstracted over a
carrier `α` for the value of `Number(s)`: `isZero v` is `v === 0.0`,
`toString v` is `v.toString()` and `toFixed v d` is `v.toFixed(d)`. -/
structure JsNumOps (α : Type) where
  parse : String → α
  isNaN : α → Bool
  isPosInfinity : α → Bool
  isNegInfinity : α → Bool
  toString : α → String
  toFixed : α → Nat → String
  isZero : α → Bool

/-- `TableTemplate._trulyZeroValString`: the regex `^-?[0.]+([eE].*)?$`.
Greedy matching of `[0.]+` is exact because the optional tail cannot
start with `0` or `.`. -/
def trulyZeroValString (s : String) : Bool :=
  let cs := s.toList
  let cs := match cs with
    | '-' :: rest => rest
    | _ => cs
  let core := cs.takeWhile (fun c => c = '0' || c = '.')
  let rest := cs.dropWhile (fun c => c = '0' || c = '.')
  !core.isEmpty &&
    (match rest with
      | [] => true
      | c :: _ => c = 'e' || c = 'E')

/-- `value.search(TableTemplate._dotOrE)`: index of the first `.`, `e` or
`E`, if any. -/
def searchDotOrE (s : String) : Option Nat :=
  s.toList.findIdx? (fun c => c = '.' || c = 'e' || c = 'E')

/-- The safety conjunction `MeasureRowSegment` ands into
`AllowNumberNormalization` for each number row: not NaN or infinite, the
normalized form short enough and without an exponent, and not a nonzero
token that parses to zero. -/
def safeNumber {α : Type} (ops : JsNumOps α) (v : String) : Bool :=
  let parsed := ops.parse v
  let norm := ops.toString parsed
  !ops.isNaN parsed && !ops.isPosInfinity parsed && !ops.isNegInfinity parsed
    && norm.length ≤ 15 && !(norm.contains 'e')
    && (!ops.isZero parsed || trulyZeroValString v)

/-- Scalar fields of the `NumberListAlignment` variant of
src/TableTemplate.ts. -/
structure TableTemplateData where
  LocationInParent : Option String := none
  type : JsonItemType := .Null
  IsRowDataCompatible : Bool := true
  RowCount : Nat := 0
  NameLength : Nat := 0
  SimpleValueLength : Nat := 0
  PrefixCommentLength : Nat := 0
  MiddleCommentLength : Nat := 0
  PostfixCommentLength : Nat := 0
  IsAnyPostCommentLineStyle : Bool := false
  PadType : BracketPaddingType := .Simple
  AllowNumberNormalization : Bool
  IsNumberList : Bool := true
  CompositeValueLength : Nat := 0
  ShorterThanNullAdjustment : Nat := 0
  ContainsNull : Bool := false
  TotalLength : Nat := 0
  numberListAlignment : NumberListAlignment
  maxDigBeforeDecRaw : Nat := 0
  maxDigAfterDecRaw : Nat := 0
  maxDigBeforeDecNorm : Nat := 0
  maxDigAfterDecNorm : Nat := 0
deriving Repr

inductive TableTemplate where
  | mk (data : TableTemplateData) (Children : List TableTemplate)
deriving Repr

def TableTemplate.data : TableTemplate → TableTemplateData
  | .mk d _ => d

def TableTemplate.Children : TableTemplate → List TableTemplate
  | .mk _ c => c

def TableTemplate.LocationInParent (t : TableTemplate) : Option String := t.data.LocationInParent

def TableTemplate.IsRowDataCompatible (t : TableTemplate) : Bool := t.data.IsRowDataCompatible

def TableTemplate.RowCount (t : TableTemplate) : Nat := t.data.RowCount

def TableTemplate.AllowNumberNormalization (t : TableTemplate) : Bool :=
  t.data.AllowNumberNormalization

def TableTemplate.IsNumberList (t : TableTemplate) : Bool := t.data.IsNumberList

def TableTemplate.SimpleValueLength (t : TableTemplate) : Nat := t.data.SimpleValueLength

def TableTemplate.CompositeValueLength (t : TableTemplate) : Nat := t.data.CompositeValueLength

def TableTemplate.TotalLength (t : TableTemplate) : Nat := t.data.TotalLength

def TableTemplate.maxDigBeforeDecNorm (t : TableTemplate) : Nat := t.data.maxDigBeforeDecNorm

def TableTemplate.maxDigAfterDecNorm (t : TableTemplate) : Nat := t.data.maxDigAfterDecNorm

theorem TableTemplate.sizeOfV5_children_lt (t : TableTemplate) : sizeOf t.Children < sizeOf t := by
  cases t with
  | mk d c => simp [TableTemplate.Children]

/-- The constructor of the `NumberListAlignment` variant:
`AllowNumberNormalization = (numberListAlignment === Normalize)` and
`IsNumberList = true`. -/
def newTemplate (numberListAlignment : NumberListAlignment) : TableTemplate :=
  .mk { AllowNumberNormalization := numberListAlignment = .Normalize
        numberListAlignment := numberListAlignment } []

/-- `newTemplate` with `LocationInParent` set for a fresh object column. -/
def newTemplateAt (numberListAlignment : NumberListAlignment) (name : String) : TableTemplate :=
  .mk { AllowNumberNormalization := numberListAlignment = .Normalize
        numberListAlignment := numberListAlignment
        LocationInParent := some name } []

/-- `TableTemplate.ContainsDuplicateKeys` of the `NumberListAlignment`
variant (same code as the older one). -/
def containsDuplicateKeys (list : List JsonItem) : Bool :=
  let keys := list.map JsonItem.Name
  keys.enum.any (fun p => keys.indexOf p.2 != p.1)

/-- Functional in-place update of the object column found by
`this.Children.find(tt => tt.LocationInParent === rowSegChild.Name)`. -/
def replaceFirstAt : List TableTemplate → String → TableTemplate → List TableTemplate
  | [], _, _ => []
  | t :: ts, name, tnew =>
    if t.LocationInParent = some name then tnew :: ts
    else t :: replaceFirstAt ts name tnew

mutual

/-- `TableTemplate.MeasureRowSegment` of the `NumberListAlignment` variant
of src/TableTemplate.ts (lines 192-301 of the file). -/
def MeasureRowSegment {α : Type} (ops : JsNumOps α) (pads : PaddedFormattingTokens)
    (t : TableTemplate) (rowSegment : JsonItem) : TableTemplate :=
  -- Standalone comments and blank lines don't figure into template measurements.
  if V3.isCommentOrBlankLine rowSegment.type then t
  else
    let d0 := t.data
    let d1 : TableTemplateData :=
      if rowSegment.type = .False ∨ rowSegment.type = .True then
        { d0 with
          IsRowDataCompatible := d0.IsRowDataCompatible
            && (d0.type == .True || d0.type == .Null)
          type := .True
          IsNumberList := false }
      else if rowSegment.type = .Number then
        { d0 with
          IsRowDataCompatible := d0.IsRowDataCompatible
            && (d0.type == .Number || d0.type == .Null)
          type := .Number }
      else if rowSegment.type = .Null then
        { d0 with
          maxDigBeforeDecNorm := max d0.maxDigBeforeDecNorm pads.LiteralNullLen
          maxDigBeforeDecRaw := max d0.maxDigBeforeDecRaw pads.LiteralNullLen
          ContainsNull := true }
      else
        { d0 with
          IsRowDataCompatible := d0.IsRowDataCompatible
            && (d0.type == rowSegment.type || d0.type == .Null)
          type := if d0.type = .Null then rowSegment.type else d0.type
          IsNumberList := false }
    -- If multiple lines are necessary for a row, we can't make a table.
    let d2 : TableTemplateData := { d1 with
      IsRowDataCompatible := d1.IsRowDataCompatible && !rowSegment.RequiresMultipleLines }
    let d3 : TableTemplateData := { d2 with
      RowCount := d2.RowCount + 1
      NameLength := max d2.NameLength rowSegment.NameLength
      SimpleValueLength := max d2.SimpleValueLength rowSegment.ValueLength
      MiddleCommentLength := max d2.MiddleCommentLength rowSegment.MiddleCommentLength
      PrefixCommentLength := max d2.PrefixCommentLength rowSegment.PrefixCommentLength
      PostfixCommentLength := max d2.PostfixCommentLength rowSegment.PostfixCommentLength
      IsAnyPostCommentLineStyle := d2.IsAnyPostCommentLineStyle
        || rowSegment.IsPostCommentLineStyle }
    let d4 : TableTemplateData :=
      if rowSegment.Complexity ≥ 2 then { d3 with PadType := .Complex } else d3
    -- Everything after this is moot if the column doesn't have a uniform type.
    if d4.IsRowDataCompatible = false then .mk d4 t.Children
    else if rowSegment.type = .Array then
      let d5 := { d4 with AllowNumberNormalization :=
        d4.AllowNumberNormalization && d4.IsNumberList }
      .mk d5 (MeasureArrayChildren ops pads d4.numberListAlignment t.Children rowSegment.Children)
    else if rowSegment.type = .Object then
      if containsDuplicateKeys rowSegment.Children then
        .mk { d4 with IsRowDataCompatible := false } t.Children
      else
        let d5 := { d4 with AllowNumberNormalization :=
          d4.AllowNumberNormalization && d4.IsNumberList }
        .mk d5
          (MeasureObjectChildren ops pads d4.numberListAlignment t.Children rowSegment.Children)
    else if rowSegment.type = .Number ∧ d4.IsNumberList then
      let parsedVal := ops.parse rowSegment.Value
      let normalizedStr := ops.toString parsedVal
      let indexOfDotNorm := normalizedStr.toList.indexOf? '.'
      let indexOfDotRaw := searchDotOrE rowSegment.Value
      let d5 : TableTemplateData := { d4 with
        AllowNumberNormalization := d4.AllowNumberNormalization
          && !ops.isNaN parsedVal
          && !ops.isPosInfinity parsedVal && !ops.isNegInfinity parsedVal
          && normalizedStr.length ≤ 15
          && !(normalizedStr.contains 'e')
          && (!ops.isZero parsedVal || trulyZeroValString rowSegment.Value)
        maxDigBeforeDecNorm := max d4.maxDigBeforeDecNorm
          (match indexOfDotNorm with
            | some k => k
            | none => normalizedStr.length)
        maxDigAfterDecNorm := max d4.maxDigAfterDecNorm
          (match indexOfDotNorm with
            | some k => normalizedStr.length - k - 1
            | none => 0)
        maxDigBeforeDecRaw := max d4.maxDigBeforeDecRaw
          (match indexOfDotRaw with
            | some k => k
            | none => rowSegment.ValueLength)
        maxDigAfterDecRaw := max d4.maxDigAfterDecRaw
          (match indexOfDotRaw with
            | some k => rowSegment.ValueLength - k - 1
            | none => 0) }
      let d6 := { d5 with AllowNumberNormalization :=
        d5.AllowNumberNormalization && d5.IsNumberList }
      .mk d6 t.Children
    else
      let d5 := { d4 with AllowNumberNormalization :=
        d4.AllowNumberNormalization && d4.IsNumberList }
      .mk d5 t.Children
termination_by sizeOf rowSegment
decreasing_by
  all_goals simp_wf
  all_goals have := JsonItem.sizeOf_children_lt rowSegment
  all_goals omega

/-- The positional find-or-create loop for `Array` row segments. -/
def MeasureArrayChildren {α : Type} (ops : JsNumOps α) (pads : PaddedFormattingTokens)
    (al : NumberListAlignment) :
    List TableTemplate → List JsonItem → List TableTemplate
  | tch, [] => tch
  | t :: ts, s :: ss =>
    MeasureRowSegment ops pads t s :: MeasureArrayChildren ops pads al ts ss
  | [], s :: ss =>
    MeasureRowSegment ops pads (newTemplate al) s :: MeasureArrayChildren ops pads al [] ss
termination_by _ segs => sizeOf segs
decreasing_by all_goals simp_wf <;> omega

/-- The find-or-create-by-name loop for `Object` row segments. -/
def MeasureObjectChildren {α : Type} (ops : JsNumOps α) (pads : PaddedFormattingTokens)
    (al : NumberListAlignment) (tch : List TableTemplate) :
    List JsonItem → List TableTemplate
  | [] => tch
  | s :: ss =>
    let tch' :=
      match tch.find? (fun tt => tt.LocationInParent == some s.Name) with
      | some told => replaceFirstAt tch s.Name (MeasureRowSegment ops pads told s)
      | none => tch ++ [MeasureRowSegment ops pads (newTemplateAt al s.Name) s]
    MeasureObjectChildren ops pads al tch' ss
termination_by segs => sizeOf segs
decreasing_by all_goals simp_wf <;> omega

end

/-- `TableTemplate.GetNumberFieldWidth` of the `NumberListAlignment`
variant. -/
def GetNumberFieldWidth (d : TableTemplateData) : Nat :=
  if d.numberListAlignment = .Normalize ∧ d.AllowNumberNormalization then
    d.maxDigBeforeDecNorm + (if d.maxDigAfterDecNorm > 0 then 1 else 0) + d.maxDigAfterDecNorm
  else if d.numberListAlignment = .Decimal then
    d.maxDigBeforeDecRaw + (if d.maxDigAfterDecRaw > 0 then 1 else 0) + d.maxDigAfterDecRaw
  else d.SimpleValueLength

/-- `TableTemplate.PruneAndRecompute` of the `NumberListAlignment`
variant (lines 304-335): children are dropped before recursing when the
complexity budget is gone or the column is not row-data compatible. -/
def PruneAndRecompute (pads : PaddedFormattingTokens) (t : TableTemplate)
    (maxAllowedComplexity : Int) : TableTemplate :=
  let ch0 := if maxAllowedComplexity ≤ 0 ∨ t.IsRowDataCompatible = false then []
    else t.Children
  let ch1 := ch0.attach.map (fun c => PruneAndRecompute pads c.1 (maxAllowedComplexity - 1))
  let d := t.data
  let cvl : Nat × Nat :=
    if d.IsNumberList then (GetNumberFieldWidth d, d.ShorterThanNullAdjustment)
    else if ch1.length > 0 then
      let composite := (ch1.map TableTemplate.TotalLength).sum
        + pads.CommaLen * (ch1.length - 1)
        + pads.arrStartLen d.PadType + pads.arrEndLen d.PadType
      if d.ContainsNull ∧ composite < pads.LiteralNullLen then
        (pads.LiteralNullLen, pads.LiteralNullLen - composite)
      else (composite, d.ShorterThanNullAdjustment)
    else (d.SimpleValueLength, d.ShorterThanNullAdjustment)
  let total : Nat :=
    (if d.PrefixCommentLength > 0 then d.PrefixCommentLength + pads.CommentLen else 0)
    + (if d.NameLength > 0 then d.NameLength + pads.ColonLen else 0)
    + (if d.MiddleCommentLength > 0 then d.MiddleCommentLength + pads.CommentLen else 0)
    + cvl.1
    + (if d.PostfixCommentLength > 0 then d.PostfixCommentLength + pads.CommentLen else 0)
  .mk { d with
    CompositeValueLength := cvl.1
    ShorterThanNullAdjustment := cvl.2
    TotalLength := total } ch1
termination_by sizeOf t
decreasing_by
  have hm : c.1 ∈ (if maxAllowedComplexity ≤ 0 ∨ t.IsRowDataCompatible = false then []
      else t.Children) := c.2
  have : c.1 ∈ t.Children := by
    by_cases h : maxAllowedComplexity ≤ 0 ∨ t.IsRowDataCompatible = false
    · simp [h] at hm
    · simpa [h] using hm
  exact lt_trans (List.sizeOf_lt_of_mem this) t.sizeOfV5_children_lt

def TableTemplate.setIsRowDataCompatible (t : TableTemplate) (b : Bool) : TableTemplate :=
  .mk { t.data with IsRowDataCompatible := b } t.Children

/-- `TableTemplate.MeasureTableRoot` of the `NumberListAlignment` variant
(src/TableTemplate.ts lines 97-108). -/
def MeasureTableRoot {α : Type} (ops : JsNumOps α) (pads : PaddedFormattingTokens)
    (al : NumberListAlignment) (tableRoot : JsonItem) : TableTemplate :=
  let t := tableRoot.Children.foldl (MeasureRowSegment ops pads) (newTemplate al)
  let t := PruneAndRecompute pads t (jsNumberMaxValue : Int)
  t.setIsRowDataCompatible (t.IsRowDataCompatible && decide (t.RowCount ≥ 2))

/-- `TableTemplate.FormatNumber` of the `NumberListAlignment` variant
(src/TableTemplate.ts lines 124-178): the `.ok`-style payload is the list
of strings added to the buffer.  Assumes, as the source comments do, that
the segment is a number list and the item a number or null. -/
def FormatNumber {α : Type} (ops : JsNumOps α) (pads : PaddedFormattingTokens)
    (t : TableTemplate) (item : JsonItem) (commaBeforePadType : String) : List String :=
  let d := t.data
  let formatType : NumberListAlignment :=
    if d.numberListAlignment = .Normalize ∧ d.AllowNumberNormalization = false then .Left
    else d.numberListAlignment
  match formatType with
  | .Left =>
    [item.Value, commaBeforePadType, pads.Spaces (d.SimpleValueLength - item.ValueLength)]
  | .Right =>
    [pads.Spaces (d.SimpleValueLength - item.ValueLength), item.Value, commaBeforePadType]
  | other =>
    if other = .Normalize ∧ item.type = .Null then
      [pads.Spaces (d.maxDigBeforeDecNorm - item.ValueLength), item.Value, commaBeforePadType,
       pads.Spaces (d.CompositeValueLength - d.maxDigBeforeDecNorm)]
    else
      let mv : Nat × String × Nat :=
        if other = .Normalize then
          let valueStr := ops.toFixed (ops.parse item.Value) d.maxDigAfterDecNorm
          (d.maxDigBeforeDecNorm, valueStr, valueStr.length)
        else (d.maxDigBeforeDecRaw, item.Value, item.ValueLength)
      let maxDigBefore := mv.1
      let valueStr := mv.2.1
      let valueLength := mv.2.2
      let pads' : Nat × Nat :=
        match searchDotOrE valueStr with
        | some indexOfDot =>
          if indexOfDot > 0 then
            (maxDigBefore - indexOfDot,
             d.CompositeValueLength - (maxDigBefore - indexOfDot) - valueLength)
          else (maxDigBefore - valueLength, d.CompositeValueLength - maxDigBefore)
        | none => (maxDigBefore - valueLength, d.CompositeValueLength - maxDigBefore)
      [pads.Spaces pads'.1, valueStr, commaBeforePadType, pads.Spaces pads'.2]

end FJson.V5

namespace FJson.V2

/-- The `JsonValueKind` enum of the column-statistics formatter. -/
inductive JsonValueKind where
  | Undefined
  | Object
  | Array
  | String
  | Number
  | Boolean
  | Null
deriving DecidableEq, Repr

/-- The `Format` enum of the column-statistics formatter. -/
inductive Format where
  | Inline
  | InlineTabular
  | MultilineCompact
  | Expanded
deriving DecidableEq, Repr

/-- Scalar fields of `FormattedNode`; the TS field `Format` is rendered
`format` here to avoid clashing with the enum's name. -/
structure FormattedNodeData where
  Name : String := ""
  NameLength : Nat := 0
  Value : String := ""
  ValueLength : Nat := 0
  Complexity : Nat := 0
  Depth : Nat := 0
  Kind : JsonValueKind := .Undefined
  format : Format := .Inline
deriving DecidableEq, Repr

inductive FormattedNode where
  | mk (data : FormattedNodeData) (Children : List FormattedNode)
deriving Repr

def FormattedNode.data : FormattedNode → FormattedNodeData
  | .mk d _ => d

def FormattedNode.Children : FormattedNode → List FormattedNode
  | .mk _ c => c

def FormattedNode.Name (n : FormattedNode) : String := n.data.Name

def FormattedNode.NameLength (n : FormattedNode) : Nat := n.data.NameLength

def FormattedNode.Value (n : FormattedNode) : String := n.data.Value

def FormattedNode.ValueLength (n : FormattedNode) : Nat := n.data.ValueLength

def FormattedNode.Kind (n : FormattedNode) : JsonValueKind := n.data.Kind

def FormattedNode.format (n : FormattedNode) : Format := n.data.format

/-- The fields of the column-statistics `Formatter` class that its table
eligibility analysis reads. -/
structure FormatterFields where
  maxInlineLength : Int := 80
  commaPadding : Bool := true
  colonPadding : Bool := true
  tableObjectMinimumSimilarity : Rat := 75
  tableArrayMinimumSimilarity : Rat := 75
deriving Repr

/-- `this._paddedCommaStr` after `initInternals`. -/
def paddedCommaStr (f : FormatterFields) : String :=
  if f.commaPadding then ", " else ","

/-- `this._paddedColonStr` after `initInternals`. -/
def paddedColonStr (f : FormatterFields) : String :=
  if f.colonPadding then ": " else ":"

/-- `ColumnStats` of the column-statistics formatter. -/
structure ColumnStats where
  PropName : String := ""
  PropNameLength : Nat := 0
  OrderSum : Nat := 0
  Count : Nat := 0
  MaxValueSize : Nat := 0
  IsQualifiedNumeric : Bool := true
  CharsBeforeDec : Nat := 0
  CharsAfterDec : Nat := 0
deriving DecidableEq, Repr

/-- `ColumnStats.update(propNode, index)`.  `numToString` is the abstract
`Number(s).toString()`. -/
def ColumnStats.update (numToString : String → String) (cs : ColumnStats)
    (propNode : FormattedNode) (index : Nat) : ColumnStats :=
  let cs := { cs with
    OrderSum := cs.OrderSum + index
    Count := cs.Count + 1
    MaxValueSize := max cs.MaxValueSize propNode.ValueLength
    IsQualifiedNumeric := cs.IsQualifiedNumeric && (propNode.Kind == .Number) }
  if cs.IsQualifiedNumeric = false then cs
  else
    let normalizedNum := numToString propNode.Value
    let cs := { cs with
      IsQualifiedNumeric := cs.IsQualifiedNumeric
        && !(normalizedNum.contains 'e' || normalizedNum.contains 'E') }
    if cs.IsQualifiedNumeric = false then cs
    else
      match normalizedNum.toList.indexOf? '.' with
      | none => { cs with CharsBeforeDec := max cs.CharsBeforeDec normalizedNum.length }
      | some decIndex => { cs with
          CharsBeforeDec := max cs.CharsBeforeDec decIndex
          CharsAfterDec := max cs.CharsAfterDec (normalizedNum.length - decIndex - 1) }

/-- Replace the stats entry whose `PropName` is `name` (the functional
rendering of updating `props[propNode.Name]` in place). -/
def replaceStatsAt : List ColumnStats → String → ColumnStats → List ColumnStats
  | [], _, _ => []
  | c :: cs, name, cnew =>
    if c.PropName = name then cnew :: cs else c :: replaceStatsAt cs name cnew

/-- One row of `getPropertyStats`'s collection loop: walk the row's
properties with their child indices, creating or updating the per-name
stats.  The list order is first-occurrence order, which is the insertion
order of the string-keyed JS dictionary `props`. -/
def collectRow (numToString : String → String) (acc : List ColumnStats)
    (rowChildren : List FormattedNode) : List ColumnStats :=
  (rowChildren.enum).foldl
    (fun acc p =>
      let propNode := p.2
      match acc.find? (fun cs => cs.PropName == propNode.Name) with
      | some propStats =>
        replaceStatsAt acc propNode.Name (propStats.update numToString propNode p.1)
      | none =>
        acc ++ [ColumnStats.update numToString
          { PropName := propNode.Name, PropNameLength := propNode.NameLength } propNode p.1])
    acc

/-- The whole collection loop of `getPropertyStats` over all rows. -/
def collectProps (numToString : String → String) (rows : List FormattedNode) :
    List ColumnStats :=
  rows.foldl (fun acc child => collectRow numToString acc child.Children) []

/-- `OrderSum/Count`: the mean child index of a column across the rows
that contain it. -/
def statMean (cs : ColumnStats) : Rat :=
  (cs.OrderSum : Rat) / (cs.Count : Rat)

/-- The comparator `(a, b) => a.OrderSum/a.Count - b.OrderSum/b.Count`
passed to the stable `Array.prototype.sort`. -/
def meanLE (a b : ColumnStats) : Prop := statMean a ≤ statMean b

instance : DecidableRel meanLE := fun _ _ => inferInstanceAs (Decidable (_ ≤ _))

/-- `Formatter.getPropertyStats` (the column-statistics formatter, lines
830-876): collect per-property stats, order them by ascending mean child
index (stably), and reject the candidate when the similarity score or the
projected line length is out of bounds. -/
def getPropertyStats (f : FormatterFields) (numToString : String → String)
    (thisItem : FormattedNode) : Option (List ColumnStats) :=
  if thisItem.Children.length < 2 then none
  else if !(thisItem.Children.all (fun c => c.Kind == .Object && c.format == .Inline)) then
    none
  else
    let props := collectProps numToString thisItem.Children
    let orderedProps := List.insertionSort meanLE props
    let totalPropCount := (orderedProps.map ColumnStats.Count).sum
    let score : Rat := 100 * (totalPropCount : Rat)
      / ((orderedProps.length : Rat) * (thisItem.Children.length : Rat))
    if score < f.tableObjectMinimumSimilarity then none
    else
      let lineLength : Int := 4
        + ((orderedProps.map ColumnStats.PropNameLength).sum : Int)
        + ((paddedColonStr f).length : Int) * (orderedProps.length : Int)
        + ((orderedProps.map ColumnStats.MaxValueSize).sum : Int)
        + ((paddedCommaStr f).length : Int) * ((orderedProps.length : Int) - 1)
      if lineLength > f.maxInlineLength then none
      else some orderedProps

/-- The per-row, per-index update loop of `getArrayStats`. -/
def updateColsArray (numToString : String → String) :
    List ColumnStats → List FormattedNode → Nat → List ColumnStats
  | acc, [], _ => acc
  | [], _, _ => []
  | c :: cs, x :: xs, i =>
    ColumnStats.update numToString c x i :: updateColsArray numToString cs xs (i + 1)

/-- `Formatter.getArrayStats` (the column-statistics formatter, lines
884-917). -/
def getArrayStats (f : FormatterFields) (numToString : String → String)
    (thisItem : FormattedNode) : Option (List ColumnStats) :=
  if thisItem.Children.length < 2 then none
  else if !(thisItem.Children.all (fun c => c.Kind == .Array && c.format == .Inline)) then
    none
  else
    let numberOfColumns := (thisItem.Children.map (fun c => c.Children.length)).foldl max 0
    let colStatsArray := thisItem.Children.foldl
      (fun acc row => updateColsArray numToString acc row.Children 0)
      (List.replicate numberOfColumns {})
    let totalElemCount := (thisItem.Children.map (fun c => c.Children.length)).sum
    let similarity : Rat := 100 * (totalElemCount : Rat)
      / ((thisItem.Children.length : Rat) * (numberOfColumns : Rat))
    if similarity < f.tableArrayMinimumSimilarity then none
    else
      let lineLength : Int := 4
        + ((colStatsArray.map ColumnStats.MaxValueSize).sum : Int)
        + ((colStatsArray.length : Int) - 1) * ((paddedCommaStr f).length : Int)
      if lineLength > f.maxInlineLength then none
      else some colStatsArray

/-- The guard portion of `formatTableArrayObject` (lines 518-525): the
sentinel check and the eligibility analysis; `true` means the children
are reformatted as object table rows. -/
def formatTableArrayObjectQualifies (f : FormatterFields) (numToString : String → String)
    (thisItem : FormattedNode) : Bool :=
  if f.tableObjectMinimumSimilarity > (100.5 : Rat) then false
  else (getPropertyStats f numToString thisItem).isSome

/-- The guard portion of `formatTableObjectObject` (lines 676-683). -/
def formatTableObjectObjectQualifies (f : FormatterFields) (numToString : String → String)
    (thisItem : FormattedNode) : Bool :=
  if f.tableObjectMinimumSimilarity > (100.5 : Rat) then false
  else (getPropertyStats f numToString thisItem).isSome

/-- The guard portion of `formatTableArrayArray` (lines 540-547). -/
def formatTableArrayArrayQualifies (f : FormatterFields) (numToString : String → String)
    (thisItem : FormattedNode) : Bool :=
  if f.tableArrayMinimumSimilarity > (100.5 : Rat) then false
  else (getArrayStats f numToString thisItem).isSome

/-- The guard portion of `formatTableObjectArray` (lines 698-705). -/
def formatTableObjectArrayQualifies (f : FormatterFields) (numToString : String → String)
    (thisItem : FormattedNode) : Bool :=
  if f.tableArrayMinimumSimilarity > (100.5 : Rat) then false
  else (getArrayStats f numToString thisItem).isSome

end FJson.V2

namespace FJson.SJB

/-- Strings are modelled character-by-character in this component, since
the property of interest is about individual characters. -/
abbrev Str := List Char

def isSpaceOrTab (c : Char) : Bool := c = ' ' || c = '\t'

/-- The two line-terminator characters occurring in the formatter's EOL
strings (`"\n"` and `"\r\n"`). -/
def isLineTerminator (c : Char) : Bool := c = '\n' || c = '\r'

/-- `String.prototype.trimEnd`. -/
def trimEnd (s : Str) : Str := (s.reverse.dropWhile isJsWhitespace).reverse

/-- src/StringJoinBuffer.ts (the trimming variant): `_lineBuff` collects
fragments of the current line, `_docBuff` the finished lines. -/
structure StringJoinBuffer where
  lineBuff : List Str := []
  docBuff : List Str := []
deriving Repr

/-- The operations the formatter performs on its buffer. -/
inductive BufOp where
  | add (values : List Str)
  | spaces (count : Nat)
  | endLine (eolString : Str)
  | flush
deriving Repr

/-- `StringJoinBuffer.AddLineToWriter` (src/StringJoinBuffer.ts lines
76-84): join the pending fragments, trim trailing whitespace, and append
the line plus its terminator to the document. -/
def AddLineToWriter (b : StringJoinBuffer) (eolString : Str) : StringJoinBuffer :=
  if b.lineBuff.length = 0 ∧ eolString.length = 0 then b
  else
    { lineBuff := []
      docBuff := b.docBuff ++ [trimEnd b.lineBuff.flatten ++ eolString] }

/-- `Add`, `Spaces`, `EndLine` and `Flush` of src/StringJoinBuffer.ts. -/
def applyOp (b : StringJoinBuffer) : BufOp → StringJoinBuffer
  | .add values => { b with lineBuff := b.lineBuff ++ values }
  | .spaces count => { b with lineBuff := b.lineBuff ++ [List.replicate count ' '] }
  | .endLine eolString => AddLineToWriter b eolString
  | .flush => AddLineToWriter b []

def runOps (ops : List BufOp) : StringJoinBuffer := ops.foldl applyOp {}

/-- `StringJoinBuffer.AsString`: only `_docBuff` is joined. -/
def AsString (b : StringJoinBuffer) : Str := b.docBuff.flatten

/-- A space or tab is never immediately followed by a line terminator. -/
def noWsBeforeTerm (c d : Char) : Prop := isSpaceOrTab c = true → isLineTerminator d = false

instance : DecidableRel noWsBeforeTerm := fun _ _ => inferInstanceAs (Decidable (_ → _))

/-- No line of `l` ends with a space or tab immediately before its line
terminator, and `l` itself does not end with a space or tab. -/
def NoTrailingWhitespace (l : Str) : Prop :=
  List.Chain' noWsBeforeTerm l
  ∧ ∀ c : Char, l.getLast? = some c → isSpaceOrTab c = false

/-- The line discipline assumed by the amended C8 claim: fragments passed
to `Add` hold no line-terminator characters (lines are only ended through
`EndLine`), and `EndLine` receives one of the two EOL strings.  The
formatter shipped in src does not follow this discipline - it writes EOL
strings and multi-line comment fragments through `Add` - and its output
does carry trailing whitespace; see the C8 counterexample at the end of
the file. -/
def OpWellFormed : BufOp → Prop
  | .add values => ∀ s ∈ values, ∀ c ∈ s, isLineTerminator c = false
  | .spaces _ => True
  | .endLine eolString => eolString = ['\n'] ∨ eolString = ['\r', '\n']
  | .flush => True

/-- A finished document line: internally free of whitespace-then-
terminator pairs, and not ending in a space or tab. -/
def EntryOk (e : Str) : Prop :=
  List.Chain' noWsBeforeTerm e
  ∧ ∀ c : Char, e.getLast? = some c → isSpaceOrTab c = false

/-- The state invariant of the buffer: pending fragments are
terminator-free and every finished line is well formed. -/
def BufInv (b : StringJoinBuffer) : Prop :=
  (∀ s ∈ b.lineBuff, ∀ c ∈ s, isLineTerminator c = false)
  ∧ ∀ e ∈ b.docBuff, EntryOk e

end FJson.SJB

namespace FJson

/-- The children that are actual data elements, not standalone comments
or blank lines. -/
def dataChildren (i : JsonItem) : List JsonItem :=
  i.Children.filter (fun c => !V3.isCommentOrBlankLine c.type)

/-- The complexity invariant the parser (src/Parser.ts) and the
value-to-tree converter establish: a simple item, comment, or blank line
has complexity 0; an array or object has complexity
`max(0, max over data children of (child.Complexity + 1))`. -/
def complexityConsistent (i : JsonItem) : Bool :=
  (if i.type = .Array ∨ i.type = .Object then
    i.Complexity == ((dataChildren i).map (fun c => c.Complexity + 1)).foldl max 0
  else i.Complexity == 0)
  && (i.Children.attach.all (fun c => complexityConsistent c.1))
termination_by sizeOf i
decreasing_by
  exact JsonItem.sizeOf_lt_of_mem c.2

/-- A document item with every length field zeroed, as the parser
produces it (the length computer fills the measurements in). -/
def simpleItem (t : JsonItemType) (v : String) : JsonItem :=
  .mk { type := t, inputPosition := ⟨0, 0, 0⟩, Complexity := 0, Name := "", Value := v,
        PrefixComment := "", MiddleComment := "", PostfixComment := "",
        IsPostCommentLineStyle := false, NameLength := 0, ValueLength := 0,
        PrefixCommentLength := 0, MiddleCommentLength := 0, PostfixCommentLength := 0,
        MinimumTotalLength := 0, RequiresMultipleLines := false } []

/-- A named object member. -/
def namedItem (name : String) (t : JsonItemType) (v : String) : JsonItem :=
  .mk { (simpleItem t v).data with Name := name } []

/-- An array or object item with the given children and complexity. -/
def containerItem (t : JsonItemType) (children : List JsonItem) (cx : Nat) : JsonItem :=
  .mk { (simpleItem t "").data with Complexity := cx } children

/-- Default options (the v3 generation defaults). -/
def optsD : FracturedJsonOptions := {}

/-- Padded tokens for the default options and the default
`StringLengthByCharCount` width function. -/
def padsD : PaddedFormattingTokens := PaddedFormattingTokens.make optsD String.length

/-- A concrete executable interpretation of the abstract
`Number(s).toString()` / `Number(s).toFixed(d)` primitives, usable
because every theorem below is proved for every interpretation. -/
def fnsId : V3.JsNumberFns := { numToString := id, toFixed := fun s _ => s }

/-- A concrete executable interpretation of the `V5.JsNumOps` primitives
over the carrier `String`. -/
def opsId : V5.JsNumOps String :=
  { parse := id
    isNaN := fun _ => false
    isPosInfinity := fun _ => false
    isNegInfinity := fun _ => false
    toString := id
    toFixed := fun s _ => s
    isZero := fun s => s == "0" }

/-- `[[]]`: an array whose only child is an empty array, with the
complexities the parser computes (0 for the empty inner array, 1 for the
outer one). -/
def exOnlyEmptyChild : JsonItem :=
  containerItem .Array [containerItem .Array [] 0] 1

/-- `[[1, 2.1], [5, 6]]` with parser complexities, before measurement. -/
def exTwoRows : JsonItem :=
  containerItem .Array
    [containerItem .Array [simpleItem .Number "1", simpleItem .Number "2.1"] 1,
     containerItem .Array [simpleItem .Number "5", simpleItem .Number "6"] 1] 2

/-- `[1]`: an array with a single data child. -/
def exOneChild : JsonItem := containerItem .Array [simpleItem .Number "1"] 1

end FJson

namespace FJson.V2

/-- The per-property step of `getPropertyStats`'s collection loop, taken
verbatim from the fold in `collectRow`. -/
def collectStep (nts : String → String) (acc : List ColumnStats) (p : Nat × FormattedNode) :
    List ColumnStats :=
  let propNode := p.2
  match acc.find? (fun cs => cs.PropName == propNode.Name) with
  | some propStats =>
    replaceStatsAt acc propNode.Name (propStats.update nts propNode p.1)
  | none =>
    acc ++ [ColumnStats.update nts
      { PropName := propNode.Name, PropNameLength := propNode.NameLength } propNode p.1]

/-- Options with both similarity thresholds set to the disabling sentinel
value 101. -/
def fSentinel : FormatterFields :=
  { tableObjectMinimumSimilarity := 101, tableArrayMinimumSimilarity := 101 }

/-- `[{"a": 1, "b": 2}, {"a": 3, "b": 4}]` as the column-statistics
formatter sees it after its children were inlined. -/
def exV2Objs : FormattedNode :=
  .mk { Kind := .Array }
    [.mk { Kind := .Object, format := .Inline }
       [.mk { Name := "a", Value := "x", Kind := .String } [],
        .mk { Name := "b", Value := "y", Kind := .String } []],
     .mk { Kind := .Object, format := .Inline }
       [.mk { Name := "a", Value := "z", Kind := .String } [],
        .mk { Name := "b", Value := "w", Kind := .String } []]]

/-- The positions (child indices) at which the property named `n` occurs
across the rows — the claim's "child index across the rows" whose mean
orders the columns. -/
def namePositions (rows : List FormattedNode) (n : String) : List Nat :=
  (rows.map (fun r => ((r.Children.enum.filter (fun p => p.2.Name == n)).map Prod.fst))).flatten

/-- The `Count` of an optional stats entry, zero when absent. -/
def optCount : Option ColumnStats → Nat
  | none => 0
  | some cs => cs.Count

/-- The `OrderSum` of an optional stats entry, zero when absent. -/
def optOrderSum : Option ColumnStats → Nat
  | none => 0
  | some cs => cs.OrderSum

instance : IsTotal ColumnStats meanLE := ⟨fun a b => le_total (statMean a) (statMean b)⟩

instance : IsTrans ColumnStats meanLE := ⟨fun _ _ _ hab hbc => le_trans hab hbc⟩

end FJson.V2

namespace FJson.V3

/-- `[1, 2]` with the complexity the parser computes, before measurement. -/
def exNumPair : JsonItem :=
  FJson.containerItem .Array [FJson.simpleItem .Number "1", FJson.simpleItem .Number "2"] 1

/-- Options that disable the inline and compact-multiline layouts, so that
a qualifying array is emitted as a table. -/
def optsTbl : FracturedJsonOptions :=
  { MaxInlineComplexity := -1, MaxCompactArrayComplexity := -1 }

/-- The first child of `exNumPair` as `ComputeItemLengths` measures it. -/
def twsChild1 : JsonItem :=
  .mk { (FJson.simpleItem .Number "1").data with
        ValueLength := 1
        MinimumTotalLength := 1 } []

/-- The second child of `exNumPair` as `ComputeItemLengths` measures it. -/
def twsChild2 : JsonItem :=
  .mk { (FJson.simpleItem .Number "2").data with
        ValueLength := 1
        MinimumTotalLength := 1 } []

/-- `exNumPair` as `ComputeItemLengths` measures it. -/
def twsRoot : JsonItem :=
  .mk { (FJson.simpleItem .Array "").data with
        Complexity := 1
        ValueLength := 6
        MinimumTotalLength := 6 } [twsChild1, twsChild2]

/-- The table template after measuring the first row of `twsRoot`. -/
def twsT1 : TableTemplate :=
  .mk { (newTemplate true).data with
        type := .Number
        RowCount := 1
        SimpleValueLength := 1
        maxDigitsBeforeDecimal := 1 } []

/-- The table template after measuring both rows of `twsRoot`. -/
def twsT2 : TableTemplate :=
  .mk { twsT1.data with RowCount := 2 } []

/-- The root table template of `twsRoot` after `PruneAndRecompute`. -/
def twsT : TableTemplate :=
  .mk { twsT2.data with
        CompositeValueLength := 1
        TotalLength := 1 } []

/-- The strings the table layout writes to the buffer for `twsRoot`: each
data row ends with `", "` or with alignment spaces `"  "` right before
the `"\n"`. -/
def twsOut : List String :=
  ["", "", "[", "\n", "", "    ", "1", ", ", "\n", "", "    ", "2", "  ", "\n", "", "", "]", "\n"]

end FJson.V3

namespace FJson

@[simp] theorem JsonItem.data_mk (d : JsonItemData) (ch : List JsonItem) :
    (JsonItem.mk d ch).data = d := rfl

@[simp] theorem JsonItem.Children_mk (d : JsonItemData) (ch : List JsonItem) :
    (JsonItem.mk d ch).Children = ch := rfl

@[simp] theorem JsonItem.type_mk (d : JsonItemData) (ch : List JsonItem) :
    (JsonItem.mk d ch).type = d.type := rfl

@[simp] theorem JsonItem.Complexity_mk (d : JsonItemData) (ch : List JsonItem) :
    (JsonItem.mk d ch).Complexity = d.Complexity := rfl

@[simp] theorem JsonItem.Name_mk (d : JsonItemData) (ch : List JsonItem) :
    (JsonItem.mk d ch).Name = d.Name := rfl

@[simp] theorem JsonItem.Value_mk (d : JsonItemData) (ch : List JsonItem) :
    (JsonItem.mk d ch).Value = d.Value := rfl

@[simp] theorem JsonItem.PrefixComment_mk (d : JsonItemData) (ch : List JsonItem) :
    (JsonItem.mk d ch).PrefixComment = d.PrefixComment := rfl

@[simp] theorem JsonItem.MiddleComment_mk (d : JsonItemData) (ch : List JsonItem) :
    (JsonItem.mk d ch).MiddleComment = d.MiddleComment := rfl

@[simp] theorem JsonItem.PostfixComment_mk (d : JsonItemData) (ch : List JsonItem) :
    (JsonItem.mk d ch).PostfixComment = d.PostfixComment := rfl

@[simp] theorem JsonItem.IsPostCommentLineStyle_mk (d : JsonItemData) (ch : List JsonItem) :
    (JsonItem.mk d ch).IsPostCommentLineStyle = d.IsPostCommentLineStyle := rfl

@[simp] theorem JsonItem.NameLength_mk (d : JsonItemData) (ch : List JsonItem) :
    (JsonItem.mk d ch).NameLength = d.NameLength := rfl

@[simp] theorem JsonItem.ValueLength_mk (d : JsonItemData) (ch : List JsonItem) :
    (JsonItem.mk d ch).ValueLength = d.ValueLength := rfl

@[simp] theorem JsonItem.PrefixCommentLength_mk (d : JsonItemData) (ch : List JsonItem) :
    (JsonItem.mk d ch).PrefixCommentLength = d.PrefixCommentLength := rfl

@[simp] theorem JsonItem.MiddleCommentLength_mk (d : JsonItemData) (ch : List JsonItem) :
    (JsonItem.mk d ch).MiddleCommentLength = d.MiddleCommentLength := rfl

@[simp] theorem JsonItem.PostfixCommentLength_mk (d : JsonItemData) (ch : List JsonItem) :
    (JsonItem.mk d ch).PostfixCommentLength = d.PostfixCommentLength := rfl

@[simp] theorem JsonItem.MinimumTotalLength_mk (d : JsonItemData) (ch : List JsonItem) :
    (JsonItem.mk d ch).MinimumTotalLength = d.MinimumTotalLength := rfl

@[simp] theorem JsonItem.RequiresMultipleLines_mk (d : JsonItemData) (ch : List JsonItem) :
    (JsonItem.mk d ch).RequiresMultipleLines = d.RequiresMultipleLines := rfl

theorem foldl_max_eq (a : Nat) (l : List Nat) : l.foldl max a = max a (l.foldl max 0) := by
  induction l generalizing a with
  | nil => simp
  | cons x xs ih =>
    simp only [List.foldl_cons]
    rw [ih (max a x), ih (max 0 x)]
    omega

theorem le_foldl_max_of_mem {x : Nat} {l : List Nat} (h : x ∈ l) : x ≤ l.foldl max 0 := by
  induction l with
  | nil => cases h
  | cons y ys ih =>
    simp only [List.foldl_cons]
    rw [foldl_max_eq]
    rcases List.mem_cons.mp h with rfl | hm
    · omega
    · have := ih hm
      omega

theorem le_foldl_max_iff_exists {k : Nat} (hk : 1 ≤ k) (l : List Nat) :
    k ≤ l.foldl max 0 ↔ ∃ x ∈ l, k ≤ x := by
  induction l with
  | nil => simp; omega
  | cons y ys ih =>
    simp only [List.foldl_cons]
    rw [foldl_max_eq]
    constructor
    · intro h
      simp only [Nat.zero_max] at h
      by_cases hy : k ≤ y
      · exact ⟨y, List.mem_cons_self _ _, hy⟩
      · have : k ≤ ys.foldl max 0 := by omega
        obtain ⟨x, hx, hkx⟩ := ih.mp this
        exact ⟨x, List.mem_cons_of_mem _ hx, hkx⟩
    · rintro ⟨x, hx, hkx⟩
      rcases List.mem_cons.mp hx with rfl | hm
      · omega
      · have := le_foldl_max_of_mem hm
        omega

theorem all_attach_eq {α : Type} (l : List α) (p : α → Bool) :
    (l.attach.all fun x => p x.1) = l.all p := by
  rw [Bool.eq_iff_iff, List.all_eq_true, List.all_eq_true]
  constructor
  · intro h x hx
    exact h ⟨x, hx⟩ (List.mem_attach _ _)
  · intro h x _
    exact h x.1 x.2

theorem complexityConsistent_eq (i : JsonItem) :
    complexityConsistent i =
      ((if i.type = .Array ∨ i.type = .Object then
          i.Complexity == ((dataChildren i).map (fun c => c.Complexity + 1)).foldl max 0
        else i.Complexity == 0)
       && i.Children.all (fun c => complexityConsistent c)) := by
  conv_lhs => rw [complexityConsistent]
  rw [all_attach_eq]

theorem complexityConsistent_root (i : JsonItem) (h : complexityConsistent i = true) :
    (if i.type = .Array ∨ i.type = .Object then
      i.Complexity = ((dataChildren i).map (fun c => c.Complexity + 1)).foldl max 0
    else i.Complexity = 0) := by
  rw [complexityConsistent] at h
  simp only [Bool.and_eq_true] at h
  split
  case isTrue hcase => simpa [hcase] using h.1
  case isFalse hcase => simpa [hcase] using h.1

theorem complexityConsistent_children (i : JsonItem) (h : complexityConsistent i = true) :
    ∀ c ∈ i.Children, complexityConsistent c = true := by
  rw [complexityConsistent] at h
  simp only [Bool.and_eq_true, List.all_eq_true] at h
  intro c hc
  exact h.2 ⟨c, hc⟩ (List.mem_attach _ _)

end FJson

namespace FJson

theorem dataChildren_subset {c i : JsonItem} (h : c ∈ dataChildren i) : c ∈ i.Children :=
  List.mem_of_mem_filter h

theorem complexity_pos_iff {c : JsonItem} (hcc : complexityConsistent c = true) :
    1 ≤ c.Complexity ↔ ((c.type = .Array ∨ c.type = .Object) ∧ dataChildren c ≠ []) := by
  have hroot := complexityConsistent_root c hcc
  by_cases hc : c.type = .Array ∨ c.type = .Object
  · simp only [hc, if_pos] at hroot
    constructor
    · intro h1
      refine ⟨hc, ?_⟩
      intro hnil
      rw [hroot, hnil] at h1
      simp at h1
    · rintro ⟨-, hne⟩
      obtain ⟨c0, hc0⟩ := List.exists_mem_of_ne_nil _ hne
      have : c0.Complexity + 1 ∈ (dataChildren c).map (fun x => x.Complexity + 1) :=
        List.mem_map_of_mem _ hc0
      have := le_foldl_max_of_mem this
      omega
  · simp only [hc, if_neg, if_false] at hroot
    simp [hroot, hc]

/-- C4: the claim's rule "`Complex` when the container has any child
array/object" does not match the code.  `GetPaddingType` tests
`Complexity >= 2`, and a container whose only container children are
empty arrays/objects has complexity 1: `[[]]` receives the `Simple` pad
type, not `Complex`.  (`complexityConsistent` certifies the input carries
the complexities the parser would compute.) -/
theorem exOnlyEmptyChild_complexityConsistent :
    complexityConsistent exOnlyEmptyChild = true := by
  rw [complexityConsistent_eq, Bool.and_eq_true]
  refine ⟨?_, ?_⟩
  · simp [exOnlyEmptyChild, containerItem, simpleItem, dataChildren, V3.isCommentOrBlankLine]
  · rw [List.all_eq_true]
    intro c hc
    simp only [exOnlyEmptyChild, containerItem, simpleItem, JsonItem.Children_mk] at hc
    have hce := List.mem_singleton.mp hc
    subst hce
    rw [complexityConsistent_eq]
    simp [dataChildren, V3.isCommentOrBlankLine]

theorem getPaddingType_only_empty_child_simple :
    V3.getPaddingType exOnlyEmptyChild = .Simple
    ∧ exOnlyEmptyChild.Children.any (fun c => c.type == .Array || c.type == .Object) = true
    ∧ exOnlyEmptyChild.Children ≠ []
    ∧ complexityConsistent exOnlyEmptyChild = true := by
  refine ⟨rfl, rfl, by simp [exOnlyEmptyChild, containerItem, simpleItem],
    exOnlyEmptyChild_complexityConsistent⟩

/-- C4 (amended): for a parser-consistent array/object, the bracket pad
type is `Empty` when it has no children, `Complex` when some non-comment
child is an array/object with at least one non-comment child of its own
(equivalently, when `Complexity >= 2`), and `Simple` otherwise; the
`Complex` brackets are governed by `NestedBracketPadding` and the
`Simple` ones by `SimpleBracketPadding`. -/
theorem getPaddingType_spec (i : JsonItem) (hcc : complexityConsistent i = true)
    (hc : i.type = .Array ∨ i.type = .Object) :
    V3.getPaddingType i =
      (if i.Children.isEmpty then .Empty
       else if (dataChildren i).any
           (fun c => (c.type == .Array || c.type == .Object) && !(dataChildren c).isEmpty) then
         .Complex
       else .Simple)
    ∧ ∀ (opts : FracturedJsonOptions) (strLen : String → Nat),
        (PaddedFormattingTokens.make opts strLen).arrStart .Complex
          = (if opts.NestedBracketPadding then "[ " else "[")
        ∧ (PaddedFormattingTokens.make opts strLen).objStart .Complex
          = (if opts.NestedBracketPadding then "\x7b " else "\x7b")
        ∧ (PaddedFormattingTokens.make opts strLen).arrStart .Simple
          = (if opts.SimpleBracketPadding then "[ " else "[")
        ∧ (PaddedFormattingTokens.make opts strLen).objStart .Simple
          = (if opts.SimpleBracketPadding then "\x7b " else "\x7b") := by
  constructor
  · have hroot := complexityConsistent_root i hcc
    simp only [hc, if_pos] at hroot
    rw [V3.getPaddingType]
    by_cases hnil : i.Children = []
    · simp [hnil]
    · rw [if_neg (show ¬ i.Children.length = 0 from by
          simpa [List.length_eq_zero] using hnil),
        if_neg (show ¬ i.Children.isEmpty = true from by
          simpa [List.isEmpty_iff] using hnil)]
      have hiff : 2 ≤ i.Complexity ↔ (dataChildren i).any
          (fun c => (c.type == .Array || c.type == .Object) && !(dataChildren c).isEmpty)
            = true := by
        rw [hroot, le_foldl_max_iff_exists (by omega)]
        rw [List.any_eq_true]
        constructor
        · rintro ⟨x, hx, hkx⟩
          obtain ⟨c, hcmem, rfl⟩ := List.mem_map.mp hx
          have hccC := complexityConsistent_children i hcc c (dataChildren_subset hcmem)
          have h1 : 1 ≤ c.Complexity := by omega
          obtain ⟨ht, hne⟩ := (complexity_pos_iff hccC).mp h1
          refine ⟨c, hcmem, ?_⟩
          simp only [Bool.and_eq_true, Bool.or_eq_true, beq_iff_eq, Bool.not_eq_true',
            List.isEmpty_eq_false_iff_exists_mem]
          obtain ⟨c0, hc0⟩ := List.exists_mem_of_ne_nil _ hne
          exact ⟨by rcases ht with h | h <;> simp [h], ⟨c0, hc0⟩⟩
        · rintro ⟨c, hcmem, hcond⟩
          have hccC := complexityConsistent_children i hcc c (dataChildren_subset hcmem)
          simp only [Bool.and_eq_true, Bool.or_eq_true, beq_iff_eq, Bool.not_eq_true',
            List.isEmpty_eq_false_iff_exists_mem] at hcond
          have h1 : 1 ≤ c.Complexity := by
            apply (complexity_pos_iff hccC).mpr
            refine ⟨hcond.1, ?_⟩
            obtain ⟨c0, hc0⟩ := hcond.2
            exact List.ne_nil_of_mem hc0
          refine ⟨c.Complexity + 1, List.mem_map_of_mem _ hcmem, by omega⟩
      by_cases h2 : 2 ≤ i.Complexity
      · rw [if_pos h2, if_pos (hiff.mp h2)]
      · rw [if_neg h2, if_neg ?_]
        intro hany
        exact h2 (hiff.mpr hany)
  · intro opts strLen
    refine ⟨?_, ?_, ?_, ?_⟩ <;> simp [PaddedFormattingTokens.make]

end FJson

namespace FJson

theorem map_attach_eq {α β : Type} (l : List α) (f : α → β) :
    (l.attach.map fun x => f x.1) = l.map f := by
  induction l with
  | nil => rfl
  | cons x xs ih =>
    rw [List.attach_cons]
    simp only [List.map_cons, List.map_map]
    exact congrArg (List.cons (f x)) ih

theorem flatMap_attach_eq {α β : Type} (l : List α) (f : α → List β) :
    (l.attach.flatMap fun x => f x.1) = l.flatMap f := by
  induction l with
  | nil => rfl
  | cons x xs ih =>
    rw [List.attach_cons]
    simp only [List.flatMap_cons, List.flatMap_map]
    rw [show (xs.attach.flatMap fun x => f x.1) = xs.flatMap f from ih]

theorem allNodes_eq (i : JsonItem) :
    i.allNodes = i :: i.Children.flatMap JsonItem.allNodes := by
  conv_lhs => rw [JsonItem.allNodes]
  rw [flatMap_attach_eq]

end FJson

namespace FJson.V3

/-- The length-computer pass written out once: the measured fields of a
node in terms of its input fields and its measured children. -/
theorem computeItemLengths_mk (pads : PaddedFormattingTokens) (f : String → Nat)
    (d : JsonItemData) (ch : List JsonItem) :
    computeItemLengths pads f (.mk d ch) =
      (let children := ch.map (computeItemLengths pads f)
       let rml := isCommentOrBlankLine d.type
         || children.any (fun c => c.RequiresMultipleLines || c.IsPostCommentLineStyle)
         || d.PrefixComment.contains '\n' || d.MiddleComment.contains '\n'
         || d.PostfixComment.contains '\n' || d.Value.contains '\n'
       let padType : BracketPaddingType :=
         if children.length = 0 then .Empty
         else if d.Complexity ≥ 2 then .Complex else .Simple
       let vlen := if d.type = .Array ∨ d.type = .Object then
           pads.StartLen d.type padType + pads.EndLen d.type padType
             + (children.map JsonItem.MinimumTotalLength).sum
             + pads.CommaLen * (children.length - 1)
         else f d.Value
       JsonItem.mk { d with
         NameLength := f d.Name
         ValueLength := vlen
         PrefixCommentLength := f d.PrefixComment
         MiddleCommentLength := f d.MiddleComment
         PostfixCommentLength := f d.PostfixComment
         RequiresMultipleLines := rml
         MinimumTotalLength :=
           (if 0 < f d.PrefixComment then f d.PrefixComment + pads.CommentLen else 0)
           + (if 0 < f d.Name then f d.Name + pads.ColonLen else 0)
           + (if 0 < f d.MiddleComment then f d.MiddleComment + pads.CommentLen else 0)
           + vlen
           + (if 0 < f d.PostfixComment then f d.PostfixComment + pads.CommentLen else 0) }
        children) := by
  conv_lhs => rw [computeItemLengths]
  rw [map_attach_eq]
  simp only [getPaddingType, JsonItem.Children_mk, JsonItem.Complexity_mk,
    JsonItem.MinimumTotalLength_mk, JsonItem.RequiresMultipleLines_mk,
    JsonItem.IsPostCommentLineStyle_mk]
  by_cases hc : d.type = .Array ∨ d.type = .Object <;> simp [hc]

/-- Every node of a measured tree is itself the measurement of a
subtree. -/
theorem allNodes_compute (pads : PaddedFormattingTokens) (f : String → Nat) (i : JsonItem) :
    ∀ n ∈ (computeItemLengths pads f i).allNodes, ∃ i0, n = computeItemLengths pads f i0 := by
  cases i with
  | mk d ch =>
    intro n hn
    rw [computeItemLengths_mk, allNodes_eq] at hn
    simp only [JsonItem.Children_mk, List.mem_cons, List.mem_flatMap, List.mem_map] at hn
    rcases hn with rfl | ⟨c', ⟨c, hc, rfl⟩, hn'⟩
    · exact ⟨.mk d ch, (computeItemLengths_mk pads f d ch).symm⟩
    · exact allNodes_compute pads f c n hn'
termination_by sizeOf i
decreasing_by
  have := List.sizeOf_lt_of_mem hc
  simp only [JsonItem.mk.sizeOf_spec]
  omega

end FJson.V3

namespace FJson.V3

theorem string_length_eq_zero_iff (s : String) : s.length = 0 ↔ s = "" := by
  constructor
  · intro h
    cases s with
    | mk l =>
      simp [String.length] at h
      simp [h]
  · intro h
    simp [h]

/-- C2: after the length-computer pre-pass (`ComputeItemLengths`), every
Array/Object node's `ValueLength` is start-bracket width + end-bracket
width + the sum of the children's `MinimumTotalLength` + comma width
times (child count − 1, floored at 0); and every node's
`MinimumTotalLength` adds to `ValueLength`, for each of prefix comment,
name, middle comment and postfix comment that is non-empty, that
component's width plus the comment-pad or colon width.  `hlen` says the
configured width function vanishes exactly on the empty string, which
holds for both shipped width functions. -/
theorem computeItemLengths_length_formulas (pads : PaddedFormattingTokens)
    (f : String → Nat) (hlen : ∀ s : String, f s = 0 ↔ s = "") (i : JsonItem) :
    ∀ n ∈ (computeItemLengths pads f i).allNodes,
      ((n.type = .Array ∨ n.type = .Object) →
        n.ValueLength = pads.StartLen n.type (getPaddingType n)
          + pads.EndLen n.type (getPaddingType n)
          + (n.Children.map JsonItem.MinimumTotalLength).sum
          + pads.CommaLen * (n.Children.length - 1))
      ∧ n.MinimumTotalLength =
          (if n.PrefixComment ≠ "" then n.PrefixCommentLength + pads.CommentLen else 0)
          + (if n.Name ≠ "" then n.NameLength + pads.ColonLen else 0)
          + (if n.MiddleComment ≠ "" then n.MiddleCommentLength + pads.CommentLen else 0)
          + n.ValueLength
          + (if n.PostfixComment ≠ "" then n.PostfixCommentLength + pads.CommentLen else 0) := by
  have hpos : ∀ s : String, (0 < f s) ↔ ¬(s = "") := by
    intro s
    rw [Nat.pos_iff_ne_zero]
    exact not_congr (hlen s)
  intro n hn
  obtain ⟨i0, rfl⟩ := allNodes_compute pads f i n hn
  cases i0 with
  | mk d ch =>
    rw [computeItemLengths_mk]
    constructor
    · intro hcont
      simp only [JsonItem.type_mk] at hcont
      simp [getPaddingType, hcont]
    · simp [hpos]

/-- C2 witness: the formulas hold at the measured root of `[1]` with the
default options and character-count width function. -/
theorem computeItemLengths_length_formulas_witness :
    (((computeItemLengths padsD String.length exOneChild).type = .Array
        ∨ (computeItemLengths padsD String.length exOneChild).type = .Object) →
      (computeItemLengths padsD String.length exOneChild).ValueLength =
        padsD.StartLen (computeItemLengths padsD String.length exOneChild).type
            (getPaddingType (computeItemLengths padsD String.length exOneChild))
          + padsD.EndLen (computeItemLengths padsD String.length exOneChild).type
            (getPaddingType (computeItemLengths padsD String.length exOneChild))
          + ((computeItemLengths padsD String.length exOneChild).Children.map
              JsonItem.MinimumTotalLength).sum
          + padsD.CommaLen
            * ((computeItemLengths padsD String.length exOneChild).Children.length - 1))
    ∧ (computeItemLengths padsD String.length exOneChild).MinimumTotalLength =
        (if (computeItemLengths padsD String.length exOneChild).PrefixComment ≠ "" then
          (computeItemLengths padsD String.length exOneChild).PrefixCommentLength
            + padsD.CommentLen else 0)
        + (if (computeItemLengths padsD String.length exOneChild).Name ≠ "" then
          (computeItemLengths padsD String.length exOneChild).NameLength + padsD.ColonLen
          else 0)
        + (if (computeItemLengths padsD String.length exOneChild).MiddleComment ≠ "" then
          (computeItemLengths padsD String.length exOneChild).MiddleCommentLength
            + padsD.CommentLen else 0)
        + (computeItemLengths padsD String.length exOneChild).ValueLength
        + (if (computeItemLengths padsD String.length exOneChild).PostfixComment ≠ "" then
          (computeItemLengths padsD String.length exOneChild).PostfixCommentLength
            + padsD.CommentLen else 0) :=
  computeItemLengths_length_formulas padsD String.length
    string_length_eq_zero_iff exOneChild
    (computeItemLengths padsD String.length exOneChild)
    (by rw [allNodes_eq]; exact List.mem_cons_self _ _)

/-- C3: after the length-computer pre-pass, a node requires multiple
lines iff it is itself a blank line or comment, one of its comments
contains a newline, some child requires multiple lines or carries a
line-style postfix comment, or its value contains a newline; hence the
flag propagates upward from children to every enclosing container. -/
theorem computeItemLengths_requiresMultipleLines (pads : PaddedFormattingTokens)
    (f : String → Nat) (i : JsonItem) :
    ∀ n ∈ (computeItemLengths pads f i).allNodes,
      (n.RequiresMultipleLines = true ↔
        (isCommentOrBlankLine n.type = true
          ∨ n.PrefixComment.contains '\n' = true
          ∨ n.MiddleComment.contains '\n' = true
          ∨ n.PostfixComment.contains '\n' = true
          ∨ (∃ c ∈ n.Children,
              c.RequiresMultipleLines = true ∨ c.IsPostCommentLineStyle = true)
          ∨ n.Value.contains '\n' = true))
      ∧ ∀ c ∈ n.Children, c.RequiresMultipleLines = true →
          n.RequiresMultipleLines = true := by
  intro n hn
  obtain ⟨i0, rfl⟩ := allNodes_compute pads f i n hn
  cases i0 with
  | mk d ch =>
    rw [computeItemLengths_mk]
    have hmain : (JsonItem.RequiresMultipleLines (computeItemLengths pads f (.mk d ch)) = true ↔
        (isCommentOrBlankLine d.type = true
          ∨ d.PrefixComment.contains '\n' = true
          ∨ d.MiddleComment.contains '\n' = true
          ∨ d.PostfixComment.contains '\n' = true
          ∨ (∃ c ∈ ch.map (computeItemLengths pads f),
              c.RequiresMultipleLines = true ∨ c.IsPostCommentLineStyle = true)
          ∨ d.Value.contains '\n' = true)) := by
      rw [computeItemLengths_mk]
      simp only [JsonItem.RequiresMultipleLines_mk, Bool.or_eq_true, List.any_eq_true]
      constructor
      · rintro (((((h | h) | h) | h) | h) | h)
        · exact Or.inl h
        · exact Or.inr (Or.inr (Or.inr (Or.inr (Or.inl h))))
        · exact Or.inr (Or.inl h)
        · exact Or.inr (Or.inr (Or.inl h))
        · exact Or.inr (Or.inr (Or.inr (Or.inl h)))
        · exact Or.inr (Or.inr (Or.inr (Or.inr (Or.inr h))))
      · rintro (h | h | h | h | h | h)
        · exact Or.inl (Or.inl (Or.inl (Or.inl (Or.inl h))))
        · exact Or.inl (Or.inl (Or.inl (Or.inr h)))
        · exact Or.inl (Or.inl (Or.inr h))
        · exact Or.inl (Or.inr h)
        · exact Or.inl (Or.inl (Or.inl (Or.inl (Or.inr h))))
        · exact Or.inr h
    rw [computeItemLengths_mk] at hmain
    constructor
    · simpa using hmain
    · intro c hc hcr
      simp only [JsonItem.Children_mk] at hc
      exact hmain.mpr (Or.inr (Or.inr (Or.inr (Or.inr (Or.inl ⟨c, hc, Or.inl hcr⟩)))))

/-- C3 witness: the characterization at the measured root of `[1]`. -/
theorem computeItemLengths_requiresMultipleLines_witness :
    ((computeItemLengths padsD String.length exOneChild).RequiresMultipleLines = true ↔
      (isCommentOrBlankLine (computeItemLengths padsD String.length exOneChild).type = true
        ∨ (computeItemLengths padsD String.length exOneChild).PrefixComment.contains '\n' = true
        ∨ (computeItemLengths padsD String.length exOneChild).MiddleComment.contains '\n' = true
        ∨ (computeItemLengths padsD String.length exOneChild).PostfixComment.contains '\n' = true
        ∨ (∃ c ∈ (computeItemLengths padsD String.length exOneChild).Children,
            c.RequiresMultipleLines = true ∨ c.IsPostCommentLineStyle = true)
        ∨ (computeItemLengths padsD String.length exOneChild).Value.contains '\n' = true))
    ∧ ∀ c ∈ (computeItemLengths padsD String.length exOneChild).Children,
        c.RequiresMultipleLines = true →
        (computeItemLengths padsD String.length exOneChild).RequiresMultipleLines = true :=
  computeItemLengths_requiresMultipleLines padsD String.length exOneChild
    (computeItemLengths padsD String.length exOneChild)
    (by rw [allNodes_eq]; exact List.mem_cons_self _ _)

end FJson.V3

namespace FJson

/-- C4 witness for the amended rule, at the concrete input `[[]]`. -/
theorem getPaddingType_spec_witness :
    V3.getPaddingType exOnlyEmptyChild =
      (if exOnlyEmptyChild.Children.isEmpty then .Empty
       else if (dataChildren exOnlyEmptyChild).any
           (fun c => (c.type == .Array || c.type == .Object) && !(dataChildren c).isEmpty) then
         .Complex
       else .Simple) :=
  (getPaddingType_spec exOnlyEmptyChild exOnlyEmptyChild_complexityConsistent
    (Or.inl rfl)).1

end FJson

namespace FJson.SJB

theorem mem_of_mem_trimEnd {c : Char} {s : Str} (h : c ∈ trimEnd s) : c ∈ s := by
  have h1 : c ∈ s.reverse.dropWhile isJsWhitespace := by
    simpa [trimEnd] using h
  have h2 := List.dropWhile_sublist (p := isJsWhitespace) (l := s.reverse)
  exact List.mem_reverse.mp (h2.subset h1)

theorem head_dropWhile_false {p : Char → Bool} {c : Char} :
    ∀ l : Str, (l.dropWhile p).head? = some c → p c = false := by
  intro l
  induction l with
  | nil => intro h; simp [List.dropWhile] at h
  | cons x xs ih =>
    intro h
    rw [List.dropWhile_cons] at h
    by_cases hx : p x = true
    · exact ih (by simpa [hx] using h)
    · rw [Bool.not_eq_true] at hx
      rw [hx] at h
      simp only [Bool.false_eq_true, if_false, List.head?_cons, Option.some.injEq] at h
      rw [← h]
      exact hx

theorem trimEnd_getLast_not_ws {s : Str} {c : Char} (h : (trimEnd s).getLast? = some c) :
    isJsWhitespace c = false := by
  rw [trimEnd, List.getLast?_reverse] at h
  exact head_dropWhile_false _ h

theorem spaceOrTab_isJsWhitespace {c : Char} (h : isSpaceOrTab c = true) :
    isJsWhitespace c = true := by
  rcases Bool.or_eq_true _ _ |>.mp h with h1 | h1 <;>
    simp only [decide_eq_true_eq] at h1 <;> subst h1 <;> rfl

theorem chain'_of_term_free {l : Str} (h : ∀ c ∈ l, isLineTerminator c = false) :
    List.Chain' noWsBeforeTerm l := by
  induction l with
  | nil => simp
  | cons x xs ih =>
    cases xs with
    | nil => simp
    | cons y ys =>
      rw [List.chain'_cons]
      refine ⟨?_, ih ?_⟩
      · intro _
        exact h y (List.mem_cons_of_mem _ (List.mem_cons_self _ _))
      · intro c hc
        exact h c (List.mem_cons_of_mem _ hc)

theorem entryOk_line (lineChars : Str) (eol : Str)
    (hline : ∀ c ∈ lineChars, isLineTerminator c = false)
    (heol : eol = [] ∨ eol = ['\n'] ∨ eol = ['\r', '\n']) :
    EntryOk (trimEnd lineChars ++ eol) := by
  have htfree : ∀ c ∈ trimEnd lineChars, isLineTerminator c = false :=
    fun c hc => hline c (mem_of_mem_trimEnd hc)
  have hlast : ∀ c : Char, (trimEnd lineChars).getLast? = some c → isSpaceOrTab c = false := by
    intro c hc
    have hj := trimEnd_getLast_not_ws hc
    cases hsc : isSpaceOrTab c
    · rfl
    · rw [spaceOrTab_isJsWhitespace hsc] at hj
      cases hj
  have hbound : ∀ x ∈ (trimEnd lineChars).getLast?, ∀ y ∈ eol.head?, noWsBeforeTerm x y := by
    intro x hx y _ hsp
    rw [hlast x hx] at hsp
    cases hsp
  constructor
  · rw [List.chain'_append]
    refine ⟨chain'_of_term_free htfree, ?_, hbound⟩
    rcases heol with rfl | rfl | rfl
    · simp
    · simp
    · rw [List.chain'_cons]
      refine ⟨?_, List.chain'_singleton _⟩
      intro hsp
      exact absurd hsp (by decide)
  · intro c hc
    rcases heol with rfl | rfl | rfl
    · rw [List.append_nil] at hc
      exact hlast c hc
    · rw [List.getLast?_concat] at hc
      cases hc
      rfl
    · rw [show trimEnd lineChars ++ ['\r', '\n']
          = (trimEnd lineChars ++ ['\r']) ++ ['\n'] by simp] at hc
      rw [List.getLast?_concat] at hc
      cases hc
      rfl

theorem bufInv_applyOp {b : StringJoinBuffer} {op : BufOp} (hb : BufInv b)
    (hop : OpWellFormed op) : BufInv (applyOp b op) := by
  have hentry : ∀ (eol : Str), eol = [] ∨ eol = ['\n'] ∨ eol = ['\r', '\n'] →
      BufInv (AddLineToWriter b eol) := by
    intro eol heol
    rw [AddLineToWriter]
    split
    · exact hb
    · refine ⟨by simp, ?_⟩
      intro e he
      simp only [List.mem_append, List.mem_singleton] at he
      rcases he with he | rfl
      · exact hb.2 e he
      · refine entryOk_line _ _ ?_ heol
        intro c hc
        obtain ⟨s, hs, hcs⟩ := List.mem_flatten.mp hc
        exact hb.1 s hs c hcs
  cases op with
  | add values =>
    refine ⟨?_, hb.2⟩
    intro s hs
    simp only [applyOp] at hs
    rcases List.mem_append.mp hs with hs | hs
    · exact hb.1 s hs
    · exact hop s hs
  | spaces count =>
    refine ⟨?_, hb.2⟩
    intro s hs
    simp only [applyOp] at hs
    rcases List.mem_append.mp hs with hs | hs
    · exact hb.1 s hs
    · intro c hc
      rw [List.mem_singleton.mp hs] at hc
      rw [List.eq_of_mem_replicate hc]
      rfl
  | endLine eolString => exact hentry eolString (Or.inr hop)
  | flush => exact hentry [] (Or.inl rfl)

theorem bufInv_foldl : ∀ (ops : List BufOp) (b : StringJoinBuffer),
    (∀ op ∈ ops, OpWellFormed op) → BufInv b → BufInv (ops.foldl applyOp b) := by
  intro ops
  induction ops with
  | nil => intro b _ hb; exact hb
  | cons op rest ih =>
    intro b h hb
    rw [List.foldl_cons]
    exact ih _ (fun o ho => h o (List.mem_cons_of_mem _ ho))
      (bufInv_applyOp hb (h op (List.mem_cons_self _ _)))

theorem noTrailWs_flatten : ∀ es : List Str, (∀ e ∈ es, EntryOk e) →
    NoTrailingWhitespace es.flatten := by
  intro es
  induction es with
  | nil =>
    intro _
    exact ⟨by simp, by simp⟩
  | cons e rest ih =>
    intro h
    have he := h e (List.mem_cons_self _ _)
    have hrest := ih (fun x hx => h x (List.mem_cons_of_mem _ hx))
    rw [List.flatten_cons]
    constructor
    · rw [List.chain'_append]
      refine ⟨he.1, hrest.1, ?_⟩
      intro x hx y _ hsp
      rw [he.2 x hx] at hsp
      cases hsp
    · intro c hc
      by_cases hr : rest.flatten = []
      · rw [hr, List.append_nil] at hc
        exact he.2 c hc
      · rw [List.getLast?_append_of_ne_nil _ hr] at hc
        exact hrest.2 c hc

/-- C8 (amended): the trimming `StringJoinBuffer` strips trailing
whitespace from every line it produces: for any sequence of buffer
operations whose `Add` fragments carry no line-terminator characters and
whose `EndLine`s receive the LF or CRLF terminator, the buffer's output
never has a space or tab immediately before a line terminator or at the
end of the string, because `AddLineToWriter` trims every produced line
before appending the terminator.  The original claim - the same property
for every input document and every combination of options of the shipped
formatter - is false: the formatter writes rows through the non-trimming
`Add`, and its table layout pads rows with a trailing comma-space or with
alignment spaces before the EOL (see the C8 counterexample
`V3.formatter_emits_trailing_whitespace`). -/
theorem stringJoinBuffer_no_trailing_whitespace (ops : List BufOp)
    (h : ∀ op ∈ ops, OpWellFormed op) :
    NoTrailingWhitespace (AsString (runOps ops)) := by
  have hinv : BufInv (runOps ops) :=
    bufInv_foldl ops {} h ⟨by simp, by simp⟩
  exact noTrailWs_flatten _ hinv.2

/-- C8 witness: a concrete run — a fragment ending in spaces, an LF line
end, then a flush — produces output free of trailing whitespace. -/
theorem stringJoinBuffer_no_trailing_whitespace_witness :
    NoTrailingWhitespace (AsString (runOps
      [BufOp.add [['x'], [' ', ' ']], BufOp.endLine ['\n'],
       BufOp.spaces 2, BufOp.add [['y']], BufOp.flush])) :=
  stringJoinBuffer_no_trailing_whitespace _ (by
    intro op hop
    simp only [List.mem_cons, List.not_mem_nil, or_false] at hop
    rcases hop with rfl | rfl | rfl | rfl | rfl <;>
      simp [OpWellFormed, isLineTerminator])

end FJson.SJB

namespace FJson.V3

theorem TableTemplate.RowCount_mk (d : TableTemplateData) (c : List TableTemplate) :
    (TableTemplate.mk d c).RowCount = d.RowCount := rfl

/-- Measuring one row segment increments the row count exactly when the
segment is a data element (not a standalone comment or blank line). -/
theorem MeasureRowSegment_RowCount (fns : JsNumberFns) (t : TableTemplate) (s : JsonItem) :
    (MeasureRowSegment fns t s).RowCount =
      if isCommentOrBlankLine s.type then t.RowCount else t.RowCount + 1 := by
  rw [MeasureRowSegment]
  by_cases h : isCommentOrBlankLine s.type
  · simp [h]
  · simp only [h, Bool.false_eq_true, if_false]
    simp only [apply_ite TableTemplate.RowCount, TableTemplate.RowCount_mk,
      apply_ite TableTemplateData.RowCount, ite_self]
    simp [TableTemplate.RowCount]

/-- After folding a child list through `MeasureRowSegment`, the row count
is the number of data children. -/
theorem RowCount_foldl (fns : JsNumberFns) :
    ∀ (l : List JsonItem) (t : TableTemplate),
      (l.foldl (MeasureRowSegment fns) t).RowCount
        = t.RowCount + (l.filter (fun s => !isCommentOrBlankLine s.type)).length
  | [], t => by simp
  | s :: ss, t => by
    simp only [List.foldl_cons, List.filter_cons]
    rw [RowCount_foldl fns ss (MeasureRowSegment fns t s), MeasureRowSegment_RowCount]
    by_cases h : isCommentOrBlankLine s.type
    · simp [h]
    · simp [h]
      omega

/-- `PruneAndRecompute` only recomputes lengths; the row count is kept. -/
theorem PruneAndRecompute_RowCount (pads : PaddedFormattingTokens) (t : TableTemplate)
    (m : Int) : (PruneAndRecompute pads t m).RowCount = t.RowCount := by
  rw [PruneAndRecompute]
  simp [TableTemplate.RowCount, TableTemplate.data]

/-- `MeasureTableRoot` forces the compatibility flag off when there are
fewer than two data rows. -/
theorem MeasureTableRoot_not_compat (fns : JsNumberFns) (pads : PaddedFormattingTokens)
    (ar : Bool) (item : JsonItem) (h : (dataChildren item).length < 2) :
    (MeasureTableRoot fns pads ar item).IsRowDataCompatible = false := by
  unfold MeasureTableRoot
  have hrc : (PruneAndRecompute pads
      (item.Children.foldl (MeasureRowSegment fns) (newTemplate ar))
      (jsNumberMaxValue : Int)).RowCount = (dataChildren item).length := by
    rw [PruneAndRecompute_RowCount, RowCount_foldl]
    simp [newTemplate, TableTemplate.RowCount, TableTemplate.data, dataChildren]
  simp only [TableTemplate.setIsRowDataCompatible, TableTemplate.IsRowDataCompatible,
    TableTemplate.data, hrc]
  have : ¬ ((dataChildren item).length ≥ 2) := by omega
  simp [this]

/-- With fewer than two data children every branch of
`FormatContainerTable` declines (returns no output lines). -/
theorem FormatContainerTable_none (opts : FracturedJsonOptions)
    (pads : PaddedFormattingTokens) (fns : JsNumberFns) (item : JsonItem) (depth : Nat)
    (tc : Bool) (h : (dataChildren item).length < 2) :
    FormatContainerTable opts pads fns item depth tc = .ok none := by
  unfold FormatContainerTable
  by_cases h1 : (item.Complexity : Int) > opts.MaxTableRowComplexity + 1
  · simp [h1]
  · simp only [h1, if_false]
    by_cases h2 : (item.Children.filter (fun ch => !isCommentOrBlankLine ch.type)).any
        (fun ch => (ch.MinimumTotalLength : Int) >
          availableLineSpace opts pads (depth + 1) - (pads.CommaLen : Int))
    · simp [h2]
    · simp [h2, MeasureTableRoot_not_compat fns pads (!opts.DontJustifyNumbers) item h]

/-- C10: a container with fewer than two data children (children that are
not standalone comments or blank lines) is never formatted as a table:
`MeasureTableRoot` counts the data rows and forces the row-data-compatible
flag to false when the total is below 2, so `FormatContainerTable`
declines and `FormatContainer` never selects the Table layout for it. -/
theorem fewDataChildren_never_table (opts : FracturedJsonOptions)
    (pads : PaddedFormattingTokens) (fns : JsNumberFns) (item : JsonItem) (depth : Nat)
    (tc : Bool) (h : (dataChildren item).length < 2) :
    (MeasureTableRoot fns pads (!opts.DontJustifyNumbers) item).IsRowDataCompatible = false
    ∧ FormatContainerTable opts pads fns item depth tc = .ok none
    ∧ ∀ fmt out, FormatContainer opts pads fns item depth tc = .ok (fmt, out) →
        fmt ≠ .Table := by
  refine ⟨MeasureTableRoot_not_compat fns pads (!opts.DontJustifyNumbers) item h,
    FormatContainerTable_none opts pads fns item depth tc h, ?_⟩
  have htoe : ∀ fmt out,
      FormatContainerTableOrExpanded opts pads fns item depth tc = .ok (fmt, out) →
        fmt ≠ .Table := by
    intro fmt out he
    rw [FormatContainerTableOrExpanded] at he
    by_cases hd : (depth : Int) ≥ opts.AlwaysExpandDepth
    · rw [if_pos hd, FormatContainerTable_none opts pads fns item depth tc h] at he
      cases hx : FormatContainerExpanded opts pads fns item depth tc with
      | error e => rw [hx] at he; cases he
      | ok o => rw [hx] at he; cases he; simp
    · rw [if_neg hd] at he
      cases hx : FormatContainerExpanded opts pads fns item depth tc with
      | error e => rw [hx] at he; cases he
      | ok o => rw [hx] at he; cases he; simp
  intro fmt out he
  rw [FormatContainer] at he
  by_cases hd : (depth : Int) > opts.AlwaysExpandDepth
  · rw [if_pos hd] at he
    cases hI : FormatContainerInline opts pads item depth tc with
    | error e => rw [hI] at he; cases he
    | ok oI =>
      rw [hI] at he
      cases oI with
      | some o => cases he; simp
      | none =>
        cases hC : FormatContainerCompactMultiline opts pads fns item depth tc with
        | error e => rw [hC] at he; cases he
        | ok oC =>
          rw [hC] at he
          cases oC with
          | some o => cases he; simp
          | none => exact htoe fmt out he
  · rw [if_neg hd] at he
    exact htoe fmt out he

/-- C10 witness: `[1]` has a single data child, and the table formatter
declines it under the default options. -/
theorem fewDataChildren_never_table_witness :
    (dataChildren exOneChild).length < 2 ∧
    FormatContainerTable optsD padsD fnsId exOneChild 0 false = .ok none :=
  ⟨by decide,
   (fewDataChildren_never_table optsD padsD fnsId exOneChild 0 false (by decide)).2.1⟩

end FJson.V3

namespace FJson.V2

theorem ColumnStats.update_Count (nts : String → String) (cs : ColumnStats)
    (node : FormattedNode) (i : Nat) :
    (ColumnStats.update nts cs node i).Count = cs.Count + 1 := by
  unfold ColumnStats.update
  dsimp only
  repeat' split
  all_goals rfl

theorem ColumnStats.update_PropName (nts : String → String) (cs : ColumnStats)
    (node : FormattedNode) (i : Nat) :
    (ColumnStats.update nts cs node i).PropName = cs.PropName := by
  unfold ColumnStats.update
  dsimp only
  repeat' split
  all_goals rfl

/-- Replacing the found entry by its update changes the total count by
exactly the update's increment. -/
theorem replaceStatsAt_sum (name : String) (cnew : ColumnStats) :
    ∀ (acc : List ColumnStats) (cold : ColumnStats),
      acc.find? (fun cs => cs.PropName == name) = some cold →
      ((replaceStatsAt acc name cnew).map ColumnStats.Count).sum + cold.Count
        = (acc.map ColumnStats.Count).sum + cnew.Count
  | [], cold => by
    intro h
    simp at h
  | c :: cs, cold => by
    intro h
    by_cases hc : c.PropName = name
    · rw [List.find?_cons_of_pos _ (by simpa using hc)] at h
      cases h
      rw [replaceStatsAt, if_pos hc]
      simp
      omega
    · rw [List.find?_cons_of_neg _ (by simpa using hc)] at h
      rw [replaceStatsAt, if_neg hc]
      have := replaceStatsAt_sum name cnew cs cold h
      simp only [List.map_cons, List.sum_cons]
      omega

theorem collectRow_eq (nts : String → String) (acc : List ColumnStats)
    (ch : List FormattedNode) :
    collectRow nts acc ch = ch.enum.foldl (collectStep nts) acc := rfl

/-- Each property processed adds exactly one to the total of the
`Count` fields. -/
theorem collectStep_sum (nts : String → String) (acc : List ColumnStats)
    (p : Nat × FormattedNode) :
    ((collectStep nts acc p).map ColumnStats.Count).sum
      = (acc.map ColumnStats.Count).sum + 1 := by
  unfold collectStep
  dsimp only
  cases hf : acc.find? (fun cs => cs.PropName == p.2.Name) with
  | some cold =>
    dsimp only
    have h := replaceStatsAt_sum p.2.Name (cold.update nts p.2 p.1) acc cold hf
    rw [ColumnStats.update_Count] at h
    omega
  | none => simp [ColumnStats.update_Count]

theorem namesOf_replaceStatsAt (name : String) (cnew : ColumnStats)
    (hcp : cnew.PropName = name) :
    ∀ acc : List ColumnStats,
      (replaceStatsAt acc name cnew).map ColumnStats.PropName
        = acc.map ColumnStats.PropName
  | [] => rfl
  | c :: cs => by
    rw [replaceStatsAt]
    by_cases hc : c.PropName = name
    · rw [if_pos hc]
      simp [hcp, hc]
    · rw [if_neg hc]
      simp [namesOf_replaceStatsAt name cnew hcp cs]

theorem collectStep_names_subset (nts : String → String) (acc : List ColumnStats)
    (p : Nat × FormattedNode) :
    acc.map ColumnStats.PropName ⊆ (collectStep nts acc p).map ColumnStats.PropName := by
  unfold collectStep
  dsimp only
  cases hf : acc.find? (fun cs => cs.PropName == p.2.Name) with
  | some cold =>
    dsimp only
    have hcp : cold.PropName = p.2.Name := by simpa using List.find?_some hf
    rw [namesOf_replaceStatsAt p.2.Name _ (by rw [ColumnStats.update_PropName]; exact hcp)]
    exact fun x hx => hx
  | none => simp [List.subset_append_left]

theorem collectStep_name_mem (nts : String → String) (acc : List ColumnStats)
    (p : Nat × FormattedNode) :
    p.2.Name ∈ (collectStep nts acc p).map ColumnStats.PropName := by
  unfold collectStep
  dsimp only
  cases hf : acc.find? (fun cs => cs.PropName == p.2.Name) with
  | some cold =>
    dsimp only
    have hcp : cold.PropName = p.2.Name := by simpa using List.find?_some hf
    rw [namesOf_replaceStatsAt p.2.Name _ (by rw [ColumnStats.update_PropName]; exact hcp)]
    have hmem := List.mem_of_find?_eq_some hf
    rw [← hcp]
    exact List.mem_map_of_mem _ hmem
  | none =>
    simp [ColumnStats.update_PropName]

theorem foldl_collectStep_sum (nts : String → String) :
    ∀ (ps : List (Nat × FormattedNode)) (acc : List ColumnStats),
      (((ps.foldl (collectStep nts) acc)).map ColumnStats.Count).sum
        = (acc.map ColumnStats.Count).sum + ps.length
  | [], acc => by simp
  | p :: ps, acc => by
    rw [List.foldl_cons, foldl_collectStep_sum nts ps (collectStep nts acc p),
      collectStep_sum]
    simp
    omega

theorem foldl_collectStep_names_subset (nts : String → String) :
    ∀ (ps : List (Nat × FormattedNode)) (acc : List ColumnStats),
      acc.map ColumnStats.PropName ⊆ (ps.foldl (collectStep nts) acc).map ColumnStats.PropName
  | [], acc => fun x hx => hx
  | p :: ps, acc => by
    rw [List.foldl_cons]
    exact fun x hx => foldl_collectStep_names_subset nts ps (collectStep nts acc p)
      (collectStep_names_subset nts acc p hx)

theorem foldl_collectStep_name_mem (nts : String → String) :
    ∀ (ps : List (Nat × FormattedNode)) (acc : List ColumnStats) (p : Nat × FormattedNode),
      p ∈ ps → p.2.Name ∈ (ps.foldl (collectStep nts) acc).map ColumnStats.PropName
  | [], _, _, h => by simp at h
  | q :: ps, acc, p, h => by
    rw [List.foldl_cons]
    rcases List.mem_cons.mp h with rfl | hmem
    · exact foldl_collectStep_names_subset nts ps _ (collectStep_name_mem nts acc p)
    · exact foldl_collectStep_name_mem nts ps _ p hmem

theorem collectRow_sum (nts : String → String) (acc : List ColumnStats)
    (ch : List FormattedNode) :
    ((collectRow nts acc ch).map ColumnStats.Count).sum
      = (acc.map ColumnStats.Count).sum + ch.length := by
  rw [collectRow_eq, foldl_collectStep_sum]
  simp

theorem collectRow_names_subset (nts : String → String) (acc : List ColumnStats)
    (ch : List FormattedNode) :
    acc.map ColumnStats.PropName ⊆ (collectRow nts acc ch).map ColumnStats.PropName := by
  rw [collectRow_eq]
  exact foldl_collectStep_names_subset nts ch.enum acc

theorem collectRow_name_mem (nts : String → String) (acc : List ColumnStats)
    (ch : List FormattedNode) (c : FormattedNode) (hc : c ∈ ch) :
    c.Name ∈ (collectRow nts acc ch).map ColumnStats.PropName := by
  rw [collectRow_eq]
  have : c ∈ ch.enum.map Prod.snd := by
    rw [List.enum_map_snd]
    exact hc
  rcases List.mem_map.mp this with ⟨p, hp, hpc⟩
  rw [← hpc]
  exact foldl_collectStep_name_mem nts ch.enum acc p hp

theorem collectProps_foldl_sum (nts : String → String) :
    ∀ (rows : List FormattedNode) (acc : List ColumnStats),
      ((rows.foldl (fun a child => collectRow nts a child.Children) acc).map
          ColumnStats.Count).sum
        = (acc.map ColumnStats.Count).sum
          + (rows.map (fun r => r.Children.length)).sum
  | [], acc => by simp
  | r :: rows, acc => by
    rw [List.foldl_cons, collectProps_foldl_sum nts rows _, collectRow_sum]
    simp
    omega

/-- The total of the per-column counts is the total number of properties
across all rows. -/
theorem collectProps_sum (nts : String → String) (rows : List FormattedNode) :
    ((collectProps nts rows).map ColumnStats.Count).sum
      = (rows.map (fun r => r.Children.length)).sum := by
  rw [collectProps, collectProps_foldl_sum]
  simp

theorem collectProps_foldl_name_mem (nts : String → String) :
    ∀ (rows : List FormattedNode) (acc : List ColumnStats) (r : FormattedNode)
      (c : FormattedNode), r ∈ rows → c ∈ r.Children →
      c.Name ∈ ((rows.foldl (fun a child => collectRow nts a child.Children) acc).map
        ColumnStats.PropName)
  | [], _, _, _, hr, _ => by simp at hr
  | q :: rows, acc, r, c, hr, hc => by
    rw [List.foldl_cons]
    rcases List.mem_cons.mp hr with rfl | hmem
    · have h1 := collectRow_name_mem nts acc r.Children c hc
      have : ∀ (rs : List FormattedNode) (a : List ColumnStats),
          a.map ColumnStats.PropName ⊆
            (rs.foldl (fun a child => collectRow nts a child.Children) a).map
              ColumnStats.PropName := by
        intro rs
        induction rs with
        | nil => exact fun a x hx => hx
        | cons q rs ih =>
          intro a x hx
          rw [List.foldl_cons]
          exact ih _ (collectRow_names_subset nts a q.Children hx)
      exact this rows _ h1
    · exact collectProps_foldl_name_mem nts rows _ r c hmem hc

theorem collectProps_name_mem (nts : String → String) (rows : List FormattedNode)
    (r c : FormattedNode) (hr : r ∈ rows) (hc : c ∈ r.Children) :
    c.Name ∈ (collectProps nts rows).map ColumnStats.PropName :=
  collectProps_foldl_name_mem nts rows [] r c hr hc

/-- With distinct property names in a row, the row is no wider than the
number of distinct columns collected over all rows. -/
theorem row_length_le_cols (nts : String → String) (rows : List FormattedNode)
    (r : FormattedNode) (hr : r ∈ rows)
    (hnodup : (r.Children.map FormattedNode.Name).Nodup) :
    r.Children.length ≤ (collectProps nts rows).length := by
  have hsub : (r.Children.map FormattedNode.Name) ⊆
      (collectProps nts rows).map ColumnStats.PropName := by
    intro n hn
    rcases List.mem_map.mp hn with ⟨c, hc, rfl⟩
    exact collectProps_name_mem nts rows r c hr hc
  have h1 : (r.Children.map FormattedNode.Name).length
      ≤ ((collectProps nts rows).map ColumnStats.PropName).length := by
    rw [← List.toFinset_card_of_nodup hnodup]
    calc (r.Children.map FormattedNode.Name).toFinset.card
        ≤ ((collectProps nts rows).map ColumnStats.PropName).toFinset.card := by
          apply Finset.card_le_card
          intro x hx
          rw [List.mem_toFinset] at hx ⊢
          exact hsub hx
      _ ≤ _ := List.toFinset_card_le _
  simpa using h1

/-- A percentage of the form 100 S / (C R) with S ≤ C·R never exceeds
100. -/
theorem score_le_100 (S C R : Nat) (hS : S ≤ C * R) :
    100 * (S : Rat) / ((C : Rat) * (R : Rat)) ≤ 100 := by
  rcases Nat.eq_zero_or_pos (C * R) with h0 | hpos
  · have hS0 : S = 0 := by omega
    subst hS0
    rcases Nat.mul_eq_zero.mp h0 with h | h <;> simp [h]
  · have hCR : (0 : Rat) < (C : Rat) * (R : Rat) := by
      have : ((C * R : Nat) : Rat) > 0 := by exact_mod_cast hpos
      push_cast at this
      linarith
    rw [div_le_iff₀ hCR]
    have hcast : (S : Rat) ≤ (C : Rat) * (R : Rat) := by exact_mod_cast hS
    linarith

theorem getPropertyStats_score (f : FormatterFields) (nts : String → String)
    (thisItem : FormattedNode) (stats : List ColumnStats)
    (h : getPropertyStats f nts thisItem = some stats) :
    f.tableObjectMinimumSimilarity ≤
      100 * (((stats.map ColumnStats.Count).sum : Nat) : Rat)
        / ((stats.length : Rat) * (thisItem.Children.length : Rat)) := by
  unfold getPropertyStats at h
  split at h
  · simp at h
  · split at h
    · simp at h
    · dsimp only at h
      split at h
      · simp at h
      · split at h
        · simp at h
        · rename_i hscore hline
          rw [Option.some.injEq] at h
          rw [← h]
          exact not_lt.mp hscore

theorem getPropertyStats_none_of_gt100 (f : FormatterFields) (nts : String → String)
    (thisItem : FormattedNode)
    (hnodup : ∀ r ∈ thisItem.Children, r.Kind = .Object →
      (r.Children.map FormattedNode.Name).Nodup)
    (hthr : (100 : Rat) < f.tableObjectMinimumSimilarity) :
    getPropertyStats f nts thisItem = none := by
  unfold getPropertyStats
  split
  · rfl
  · split
    · rfl
    · dsimp only
      split
      · rfl
      · rename_i hnot2 hall hnotlt
        exfalso
        apply hnotlt
        apply lt_of_le_of_lt _ hthr
        have hperm := List.perm_insertionSort meanLE (collectProps nts thisItem.Children)
        have hsum : ((List.insertionSort meanLE
              (collectProps nts thisItem.Children)).map ColumnStats.Count).sum
            = ((collectProps nts thisItem.Children).map ColumnStats.Count).sum :=
          (hperm.map _).sum_eq
        have hlen : (List.insertionSort meanLE (collectProps nts thisItem.Children)).length
            = (collectProps nts thisItem.Children).length := hperm.length_eq
        rw [hsum, hlen, collectProps_sum]
        have hallP : ∀ r ∈ thisItem.Children, r.Kind = .Object := by
          intro r hr
          have hall2 : thisItem.Children.all
              (fun c => c.Kind == JsonValueKind.Object && c.format == Format.Inline)
                = true := by
            simpa using hall
          have := List.all_eq_true.mp hall2 r hr
          simp only [Bool.and_eq_true, beq_iff_eq] at this
          exact this.1
        have hbound : ((thisItem.Children.map (fun r => r.Children.length)).sum : Nat)
            ≤ (collectProps nts thisItem.Children).length * thisItem.Children.length := by
          have h1 : ∀ x ∈ thisItem.Children.map (fun r => r.Children.length),
              x ≤ (collectProps nts thisItem.Children).length := by
            intro x hx
            rcases List.mem_map.mp hx with ⟨r, hr, rfl⟩
            exact row_length_le_cols nts thisItem.Children r hr
              (hnodup r hr (hallP r hr))
          have h2 := List.sum_le_card_nsmul _ _ h1
          simpa [smul_eq_mul, Nat.mul_comm] using h2
        exact score_le_100 _ _ _ hbound

theorem updateColsArray_length (nts : String → String) :
    ∀ (acc : List ColumnStats) (ch : List FormattedNode) (i : Nat),
      (updateColsArray nts acc ch i).length = acc.length
  | acc, [], i => by simp [updateColsArray]
  | [], x :: xs, i => by simp [updateColsArray]
  | c :: cs, x :: xs, i => by
    simp only [updateColsArray, List.length_cons]
    rw [updateColsArray_length nts cs xs (i + 1)]

theorem colStats_foldl_length (nts : String → String) :
    ∀ (rows : List FormattedNode) (acc : List ColumnStats),
      (rows.foldl (fun a row => updateColsArray nts a row.Children 0) acc).length
        = acc.length
  | [], acc => rfl
  | r :: rows, acc => by
    rw [List.foldl_cons, colStats_foldl_length nts rows _, updateColsArray_length]

theorem getArrayStats_score (f : FormatterFields) (nts : String → String)
    (thisItem : FormattedNode) (stats : List ColumnStats)
    (h : getArrayStats f nts thisItem = some stats) :
    f.tableArrayMinimumSimilarity ≤
      100 * (((thisItem.Children.map (fun c => c.Children.length)).sum : Nat) : Rat)
        / ((thisItem.Children.length : Rat) * (stats.length : Rat)) := by
  unfold getArrayStats at h
  split at h
  · simp at h
  · split at h
    · simp at h
    · dsimp only at h
      split at h
      · simp at h
      · split at h
        · simp at h
        · rename_i hscore hline
          rw [Option.some.injEq] at h
          have hlenst : stats.length
              = (thisItem.Children.map (fun c => c.Children.length)).foldl max 0 := by
            rw [← h, colStats_foldl_length, List.length_replicate]
          have hcast : (((thisItem.Children.map (fun c => c.Children.length)).sum : Nat) : Rat)
              = (thisItem.Children.map (fun c => (c.Children.length : Rat))).sum := by
            rw [Nat.cast_list_sum, List.map_map]
            rfl
          rw [hlenst, hcast]
          exact not_lt.mp hscore

theorem getArrayStats_none_of_gt100 (f : FormatterFields) (nts : String → String)
    (thisItem : FormattedNode)
    (hthr : (100 : Rat) < f.tableArrayMinimumSimilarity) :
    getArrayStats f nts thisItem = none := by
  unfold getArrayStats
  split
  · rfl
  · split
    · rfl
    · dsimp only
      split
      · rfl
      · rename_i hnot2 hall hnotlt
        exfalso
        apply hnotlt
        apply lt_of_le_of_lt _ hthr
        have hcast : (((thisItem.Children.map (fun c => c.Children.length)).sum : Nat) : Rat)
            = (thisItem.Children.map (fun c => (c.Children.length : Rat))).sum := by
          rw [Nat.cast_list_sum, List.map_map]
          rfl
        rw [← hcast]
        have hbound : ((thisItem.Children.map (fun c => c.Children.length)).sum : Nat)
            ≤ thisItem.Children.length
              * ((thisItem.Children.map (fun c => c.Children.length)).foldl max 0) := by
          have h1 : ∀ x ∈ thisItem.Children.map (fun c => c.Children.length),
              x ≤ (thisItem.Children.map (fun c => c.Children.length)).foldl max 0 :=
            fun x hx => le_foldl_max_of_mem hx
          have h2 := List.sum_le_card_nsmul _ _ h1
          simpa [smul_eq_mul] using h2
        exact score_le_100 _ _ _ hbound

/-- C5: the table analyses reject a candidate whose similarity ratio —
100 times the number of present children across rows divided by (column
count times row count) — is below the configured minimum, and a
threshold above 100 disables the table formats outright (the guards use
the sentinel check at 100.5, and for thresholds in (100, 100.5] the
analysis itself rejects because the ratio never exceeds 100; for object
rows this uses that a JavaScript object's property names are distinct
within a row). -/
theorem similarity_gating (f : FormatterFields) (nts : String → String)
    (item : FormattedNode)
    (hnodup : ∀ r ∈ item.Children, r.Kind = .Object →
      (r.Children.map FormattedNode.Name).Nodup) :
    (∀ stats, getPropertyStats f nts item = some stats →
      f.tableObjectMinimumSimilarity ≤
        100 * (((stats.map ColumnStats.Count).sum : Nat) : Rat)
          / ((stats.length : Rat) * (item.Children.length : Rat)))
    ∧ (∀ stats, getArrayStats f nts item = some stats →
      f.tableArrayMinimumSimilarity ≤
        100 * (((item.Children.map (fun c => c.Children.length)).sum : Nat) : Rat)
          / ((item.Children.length : Rat) * (stats.length : Rat)))
    ∧ ((100 : Rat) < f.tableObjectMinimumSimilarity →
      formatTableArrayObjectQualifies f nts item = false
      ∧ formatTableObjectObjectQualifies f nts item = false)
    ∧ ((100 : Rat) < f.tableArrayMinimumSimilarity →
      formatTableArrayArrayQualifies f nts item = false
      ∧ formatTableObjectArrayQualifies f nts item = false) := by
  refine ⟨fun stats h => getPropertyStats_score f nts item stats h,
    fun stats h => getArrayStats_score f nts item stats h, fun hthr => ?_, fun hthr => ?_⟩
  · have hnone := getPropertyStats_none_of_gt100 f nts item hnodup hthr
    constructor
    · unfold formatTableArrayObjectQualifies
      split
      · rfl
      · rw [hnone]
        rfl
    · unfold formatTableObjectObjectQualifies
      split
      · rfl
      · rw [hnone]
        rfl
  · have hnone := getArrayStats_none_of_gt100 f nts item hthr
    constructor
    · unfold formatTableArrayArrayQualifies
      split
      · rfl
      · rw [hnone]
        rfl
    · unfold formatTableObjectArrayQualifies
      split
      · rfl
      · rw [hnone]
        rfl

/-- C5 witness: with both thresholds at the sentinel 101 the object and
array table formats are both rejected for a concrete two-row object
table. -/
theorem similarity_gating_witness :
    formatTableArrayObjectQualifies fSentinel id exV2Objs = false ∧
    formatTableArrayArrayQualifies fSentinel id exV2Objs = false :=
  ⟨((similarity_gating fSentinel id exV2Objs (by decide)).2.2.1
      (by norm_num [fSentinel])).1,
   ((similarity_gating fSentinel id exV2Objs (by decide)).2.2.2
      (by norm_num [fSentinel])).1⟩

end FJson.V2

namespace FJson.V2

theorem ColumnStats.update_OrderSum (nts : String → String) (cs : ColumnStats)
    (node : FormattedNode) (i : Nat) :
    (ColumnStats.update nts cs node i).OrderSum = cs.OrderSum + i := by
  unfold ColumnStats.update
  dsimp only
  repeat' split
  all_goals rfl

/-- Replacing an entry by one with the looked-up name leaves lookups of
other names unchanged. -/
theorem find?_replaceStatsAt_ne (name n : String) (hne : name ≠ n) (cnew : ColumnStats)
    (hcp : cnew.PropName = name) :
    ∀ acc : List ColumnStats,
      (replaceStatsAt acc name cnew).find? (fun cs => cs.PropName == n)
        = acc.find? (fun cs => cs.PropName == n)
  | [] => rfl
  | c :: cs => by
    rw [replaceStatsAt]
    by_cases hc : c.PropName = name
    · rw [if_pos hc]
      rw [List.find?_cons_of_neg _ (by simp [hcp, hne]),
        List.find?_cons_of_neg _ (by simp [hc, hne])]
    · rw [if_neg hc]
      by_cases hcn : c.PropName = n
      · rw [List.find?_cons_of_pos _ (by simp [hcn]),
          List.find?_cons_of_pos _ (by simp [hcn])]
      · rw [List.find?_cons_of_neg _ (by simp [hcn]),
          List.find?_cons_of_neg _ (by simp [hcn])]
        exact find?_replaceStatsAt_ne name n hne cnew hcp cs

theorem find?_replaceStatsAt_eq (name : String) (cnew : ColumnStats)
    (hcp : cnew.PropName = name) :
    ∀ (acc : List ColumnStats) (cold : ColumnStats),
      acc.find? (fun cs => cs.PropName == name) = some cold →
      (replaceStatsAt acc name cnew).find? (fun cs => cs.PropName == name) = some cnew
  | [], cold => by
    intro h
    simp at h
  | c :: cs, cold => by
    intro h
    by_cases hc : c.PropName = name
    · rw [replaceStatsAt, if_pos hc]
      exact List.find?_cons_of_pos _ (by simp [hcp])
    · rw [replaceStatsAt, if_neg hc]
      rw [List.find?_cons_of_neg _ (by simpa using hc)] at h
      rw [List.find?_cons_of_neg _ (by simpa using hc)]
      exact find?_replaceStatsAt_eq name cnew hcp cs cold h

theorem collectStep_find?_ne (nts : String → String) (acc : List ColumnStats)
    (p : Nat × FormattedNode) (n : String) (hne : p.2.Name ≠ n) :
    (collectStep nts acc p).find? (fun cs => cs.PropName == n)
      = acc.find? (fun cs => cs.PropName == n) := by
  unfold collectStep
  dsimp only
  cases hf : acc.find? (fun cs => cs.PropName == p.2.Name) with
  | some cold =>
    dsimp only
    have hcp : cold.PropName = p.2.Name := by simpa using List.find?_some hf
    exact find?_replaceStatsAt_ne p.2.Name n hne _
      (by rw [ColumnStats.update_PropName]; exact hcp) acc
  | none =>
    dsimp only
    rw [List.find?_append]
    have hsingle : ([ColumnStats.update nts
        { PropName := p.2.Name, PropNameLength := p.2.NameLength } p.2 p.1]).find?
          (fun cs => cs.PropName == n) = none := by
      rw [List.find?_cons_of_neg _ (by simp [ColumnStats.update_PropName, hne])]
      rfl
    rw [hsingle]
    cases acc.find? (fun cs => cs.PropName == n) <;> rfl

/-- Processing a property finds (or creates) the column of its name and
applies `ColumnStats.update` to it. -/
theorem collectStep_find?_eq (nts : String → String) (acc : List ColumnStats)
    (p : Nat × FormattedNode) :
    (collectStep nts acc p).find? (fun cs => cs.PropName == p.2.Name)
      = some (match acc.find? (fun cs => cs.PropName == p.2.Name) with
          | some cold => cold.update nts p.2 p.1
          | none => ColumnStats.update nts
              { PropName := p.2.Name, PropNameLength := p.2.NameLength } p.2 p.1) := by
  unfold collectStep
  dsimp only
  cases hf : acc.find? (fun cs => cs.PropName == p.2.Name) with
  | some cold =>
    dsimp only
    have hcp : cold.PropName = p.2.Name := by simpa using List.find?_some hf
    exact find?_replaceStatsAt_eq p.2.Name _
      (by rw [ColumnStats.update_PropName]; exact hcp) acc cold hf
  | none =>
    dsimp only
    rw [List.find?_append, hf]
    rw [List.find?_cons_of_pos _ (by simp [ColumnStats.update_PropName])]
    rfl

theorem collectStep_optCount (nts : String → String) (acc : List ColumnStats)
    (p : Nat × FormattedNode) (n : String) :
    optCount ((collectStep nts acc p).find? (fun cs => cs.PropName == n))
      = optCount (acc.find? (fun cs => cs.PropName == n))
        + (if p.2.Name = n then 1 else 0) := by
  by_cases h : p.2.Name = n
  · subst h
    rw [collectStep_find?_eq]
    cases hf : acc.find? (fun cs => cs.PropName == p.2.Name) <;>
      simp [optCount, ColumnStats.update_Count]
  · rw [collectStep_find?_ne nts acc p n h]
    simp [h]

theorem collectStep_optOrderSum (nts : String → String) (acc : List ColumnStats)
    (p : Nat × FormattedNode) (n : String) :
    optOrderSum ((collectStep nts acc p).find? (fun cs => cs.PropName == n))
      = optOrderSum (acc.find? (fun cs => cs.PropName == n))
        + (if p.2.Name = n then p.1 else 0) := by
  by_cases h : p.2.Name = n
  · subst h
    rw [collectStep_find?_eq]
    cases hf : acc.find? (fun cs => cs.PropName == p.2.Name) <;>
      simp [optOrderSum, ColumnStats.update_OrderSum]
  · rw [collectStep_find?_ne nts acc p n h]
    simp [h]

theorem foldl_collectStep_optCount (nts : String → String) (n : String) :
    ∀ (ps : List (Nat × FormattedNode)) (acc : List ColumnStats),
      optCount ((ps.foldl (collectStep nts) acc).find? (fun cs => cs.PropName == n))
        = optCount (acc.find? (fun cs => cs.PropName == n))
          + (ps.filter (fun p => p.2.Name == n)).length
  | [], acc => by simp
  | p :: ps, acc => by
    rw [List.foldl_cons, foldl_collectStep_optCount nts n ps _, collectStep_optCount]
    by_cases h : p.2.Name = n <;> simp [List.filter_cons, h] <;> omega

theorem foldl_collectStep_optOrderSum (nts : String → String) (n : String) :
    ∀ (ps : List (Nat × FormattedNode)) (acc : List ColumnStats),
      optOrderSum ((ps.foldl (collectStep nts) acc).find? (fun cs => cs.PropName == n))
        = optOrderSum (acc.find? (fun cs => cs.PropName == n))
          + ((ps.filter (fun p => p.2.Name == n)).map Prod.fst).sum
  | [], acc => by simp
  | p :: ps, acc => by
    rw [List.foldl_cons, foldl_collectStep_optOrderSum nts n ps _, collectStep_optOrderSum]
    by_cases h : p.2.Name = n <;> simp [List.filter_cons, h] <;> omega

theorem collectProps_foldl_optCount (nts : String → String) (n : String) :
    ∀ (rows : List FormattedNode) (acc : List ColumnStats),
      optCount ((rows.foldl (fun a r => collectRow nts a r.Children) acc).find?
          (fun cs => cs.PropName == n))
        = optCount (acc.find? (fun cs => cs.PropName == n)) + (namePositions rows n).length
  | [], acc => by simp [namePositions]
  | r :: rows, acc => by
    rw [List.foldl_cons, collectProps_foldl_optCount nts n rows _, collectRow_eq,
      foldl_collectStep_optCount]
    simp [namePositions]
    omega

theorem collectProps_foldl_optOrderSum (nts : String → String) (n : String) :
    ∀ (rows : List FormattedNode) (acc : List ColumnStats),
      optOrderSum ((rows.foldl (fun a r => collectRow nts a r.Children) acc).find?
          (fun cs => cs.PropName == n))
        = optOrderSum (acc.find? (fun cs => cs.PropName == n))
          + (namePositions rows n).sum
  | [], acc => by simp [namePositions]
  | r :: rows, acc => by
    rw [List.foldl_cons, collectProps_foldl_optOrderSum nts n rows _, collectRow_eq,
      foldl_collectStep_optOrderSum]
    simp [namePositions]
    omega

/-- A column's `Count` is the number of occurrences of its name. -/
theorem collectProps_optCount (nts : String → String) (rows : List FormattedNode)
    (n : String) :
    optCount ((collectProps nts rows).find? (fun cs => cs.PropName == n))
      = (namePositions rows n).length := by
  rw [collectProps, collectProps_foldl_optCount]
  simp [optCount]

/-- A column's `OrderSum` is the sum of the child indices of its name. -/
theorem collectProps_optOrderSum (nts : String → String) (rows : List FormattedNode)
    (n : String) :
    optOrderSum ((collectProps nts rows).find? (fun cs => cs.PropName == n))
      = (namePositions rows n).sum := by
  rw [collectProps, collectProps_foldl_optOrderSum]
  simp [optOrderSum]

theorem namesOf_collectStep_nodup (nts : String → String) (acc : List ColumnStats)
    (p : Nat × FormattedNode) (h : (acc.map ColumnStats.PropName).Nodup) :
    ((collectStep nts acc p).map ColumnStats.PropName).Nodup := by
  unfold collectStep
  dsimp only
  cases hf : acc.find? (fun cs => cs.PropName == p.2.Name) with
  | some cold =>
    dsimp only
    have hcp : cold.PropName = p.2.Name := by simpa using List.find?_some hf
    rw [namesOf_replaceStatsAt p.2.Name _ (by rw [ColumnStats.update_PropName]; exact hcp)]
    exact h
  | none =>
    dsimp only
    have hnot : p.2.Name ∉ acc.map ColumnStats.PropName := by
      intro hmem
      rcases List.mem_map.mp hmem with ⟨cs, hcs, hname⟩
      have hn := List.find?_eq_none.mp hf cs hcs
      simp [hname] at hn
    simp [List.nodup_append, h, hnot, ColumnStats.update_PropName]

theorem namesOf_foldl_collectStep_nodup (nts : String → String) :
    ∀ (ps : List (Nat × FormattedNode)) (acc : List ColumnStats),
      (acc.map ColumnStats.PropName).Nodup →
      ((ps.foldl (collectStep nts) acc).map ColumnStats.PropName).Nodup
  | [], _, h => h
  | p :: ps, acc, h => by
    rw [List.foldl_cons]
    exact namesOf_foldl_collectStep_nodup nts ps _ (namesOf_collectStep_nodup nts acc p h)

/-- Every collected column carries a distinct property name. -/
theorem namesOf_collectProps_nodup (nts : String → String) (rows : List FormattedNode) :
    ((collectProps nts rows).map ColumnStats.PropName).Nodup := by
  rw [collectProps]
  have main : ∀ (rs : List FormattedNode) (acc : List ColumnStats),
      (acc.map ColumnStats.PropName).Nodup →
      ((rs.foldl (fun a r => collectRow nts a r.Children) acc).map
        ColumnStats.PropName).Nodup := by
    intro rs
    induction rs with
    | nil => exact fun _ h => h
    | cons r rs ih =>
      intro acc h
      rw [List.foldl_cons]
      exact ih _ (by rw [collectRow_eq]; exact namesOf_foldl_collectStep_nodup nts _ acc h)
  exact main rows [] (by simp)

theorem find?_of_mem_nodup :
    ∀ (acc : List ColumnStats), (acc.map ColumnStats.PropName).Nodup →
      ∀ cs ∈ acc, acc.find? (fun c => c.PropName == cs.PropName) = some cs
  | [], _, cs, h => by simp at h
  | c :: rest, hnd, cs, hmem => by
    rcases List.mem_cons.mp hmem with rfl | hmem2
    · exact List.find?_cons_of_pos _ (by simp)
    · rw [List.map_cons, List.nodup_cons] at hnd
      have hne : c.PropName ≠ cs.PropName := by
        intro heq
        exact hnd.1 (heq ▸ List.mem_map_of_mem _ hmem2)
      rw [List.find?_cons_of_neg _ (by simpa using hne)]
      exact find?_of_mem_nodup rest hnd.2 cs hmem2

/-- Each collected column aggregates exactly the positions at which its
property name occurs. -/
theorem collectProps_entry_char (nts : String → String) (rows : List FormattedNode)
    (cs : ColumnStats) (hmem : cs ∈ collectProps nts rows) :
    cs.Count = (namePositions rows cs.PropName).length
    ∧ cs.OrderSum = (namePositions rows cs.PropName).sum := by
  have hf := find?_of_mem_nodup _ (namesOf_collectProps_nodup nts rows) cs hmem
  constructor
  · have h1 := collectProps_optCount nts rows cs.PropName
    rw [hf] at h1
    exact h1
  · have h2 := collectProps_optOrderSum nts rows cs.PropName
    rw [hf] at h2
    exact h2

theorem getPropertyStats_eq_sorted (f : FormatterFields) (nts : String → String)
    (thisItem : FormattedNode) (stats : List ColumnStats)
    (h : getPropertyStats f nts thisItem = some stats) :
    stats = List.insertionSort meanLE (collectProps nts thisItem.Children) := by
  unfold getPropertyStats at h
  split at h
  · simp at h
  · split at h
    · simp at h
    · dsimp only at h
      split at h
      · simp at h
      · split at h
        · simp at h
        · rw [Option.some.injEq] at h
          exact h.symm

/-- C6: for object-row tables the columns returned by `getPropertyStats`
are the per-name statistics entries (one distinct property name each,
covering every property of every row, each aggregating the positions at
which its name occurs), listed in ascending order of mean child index
`OrderSum/Count`, and the stable sort keeps columns with equal mean in
their first-occurrence collection order. -/
theorem object_column_order (f : FormatterFields) (nts : String → String)
    (item : FormattedNode) (stats : List ColumnStats)
    (h : getPropertyStats f nts item = some stats) :
    List.Sorted meanLE stats
    ∧ stats.Perm (collectProps nts item.Children)
    ∧ (stats.map ColumnStats.PropName).Nodup
    ∧ (∀ r ∈ item.Children, ∀ c ∈ r.Children, c.Name ∈ stats.map ColumnStats.PropName)
    ∧ (∀ cs ∈ stats,
        cs.Count = (namePositions item.Children cs.PropName).length
        ∧ cs.OrderSum = (namePositions item.Children cs.PropName).sum)
    ∧ (∀ m : Rat, stats.filter (fun cs => decide (statMean cs = m))
        = (collectProps nts item.Children).filter (fun cs => decide (statMean cs = m))) := by
  have heq := getPropertyStats_eq_sorted f nts item stats h
  subst heq
  have hperm := List.perm_insertionSort meanLE (collectProps nts item.Children)
  refine ⟨List.sorted_insertionSort meanLE _, hperm, ?_, ?_, ?_, ?_⟩
  · exact ((hperm.map ColumnStats.PropName).nodup_iff).mpr
      (namesOf_collectProps_nodup nts item.Children)
  · intro r hr c hc
    have := collectProps_name_mem nts item.Children r c hr hc
    exact (hperm.map ColumnStats.PropName).mem_iff.mpr this
  · intro cs hcs
    exact collectProps_entry_char nts item.Children cs (hperm.mem_iff.mp hcs)
  · intro m
    set p : ColumnStats → Bool := fun cs => decide (statMean cs = m) with hp
    have hpair : (List.filter p (collectProps nts item.Children)).Pairwise meanLE := by
      apply List.pairwise_of_forall_mem_list
      intro a ha b hb
      have hma : statMean a = m := by
        have := List.of_mem_filter ha
        simpa [hp] using this
      have hmb : statMean b = m := by
        have := List.of_mem_filter hb
        simpa [hp] using this
      unfold meanLE
      rw [hma, hmb]
    have hsub : List.Sublist (List.filter p (collectProps nts item.Children))
        (List.insertionSort meanLE (collectProps nts item.Children)) :=
      List.sublist_insertionSort hpair (List.filter_sublist _)
    have hsub2 : List.Sublist ((List.filter p (collectProps nts item.Children)).filter p)
        ((List.insertionSort meanLE (collectProps nts item.Children)).filter p) :=
      hsub.filter p
    rw [List.filter_filter] at hsub2
    have hff : (List.filter (fun a => p a && p a) (collectProps nts item.Children))
        = List.filter p (collectProps nts item.Children) := by
      apply List.filter_congr
      intro x hx
      cases hpx : p x <;> simp
    rw [hff] at hsub2
    have hpermf := hperm.filter p
    exact (hsub2.eq_of_length (hpermf.length_eq.symm ▸ rfl)).symm

/-- The property analysis of the concrete two-row document, evaluated. -/
theorem getPropertyStats_exV2Objs : getPropertyStats {} id exV2Objs =
    some [{ PropName := "a", OrderSum := 0, Count := 2, IsQualifiedNumeric := false },
          { PropName := "b", OrderSum := 2, Count := 2, IsQualifiedNumeric := false }] := by
  have hprops : collectProps id exV2Objs.Children
      = [{ PropName := "a", OrderSum := 0, Count := 2, IsQualifiedNumeric := false },
         { PropName := "b", OrderSum := 2, Count := 2, IsQualifiedNumeric := false }] := by
    decide
  have hab : meanLE { PropName := "a", OrderSum := 0, Count := 2, IsQualifiedNumeric := false }
      { PropName := "b", OrderSum := 2, Count := 2, IsQualifiedNumeric := false } := by
    unfold meanLE statMean
    norm_num
  unfold getPropertyStats
  rw [if_neg (by decide)]
  rw [if_neg (by decide)]
  dsimp only
  rw [hprops]
  simp only [List.insertionSort, List.orderedInsert]
  rw [if_pos hab]
  have hlen2 : exV2Objs.Children.length = 2 := by decide
  rw [if_neg (by rw [hlen2]; norm_num)]
  rw [if_neg (by decide)]

/-- C6 witness: the columns computed for the concrete two-row document
come out sorted by ascending mean child index. -/
theorem object_column_order_witness :
    List.Sorted meanLE
      [{ PropName := "a", OrderSum := 0, Count := 2, IsQualifiedNumeric := false },
       { PropName := "b", OrderSum := 2, Count := 2, IsQualifiedNumeric := false }] :=
  (object_column_order {} id exV2Objs _ getPropertyStats_exV2Objs).1

end FJson.V2

namespace FJson.V5

theorem TableTemplate.dataV5_mk (d : TableTemplateData) (c : List TableTemplate) :
    (TableTemplate.mk d c).data = d := rfl

/-- Measuring a single-line number row into a compatible number column:
the type stays `Number`, compatibility and number-list status persist,
the alignment is untouched, and the normalization flag picks up exactly
the row's safety conjunction. -/
theorem MeasureRowSegment_number {α : Type} (ops : JsNumOps α)
    (pads : PaddedFormattingTokens) (t : TableTemplate) (s : JsonItem)
    (hs : s.type = .Number) (hrml : s.RequiresMultipleLines = false)
    (htype : t.data.type = .Number ∨ t.data.type = .Null)
    (hcompat : t.data.IsRowDataCompatible = true)
    (hnum : t.data.IsNumberList = true) :
    (MeasureRowSegment ops pads t s).data.type = .Number
    ∧ (MeasureRowSegment ops pads t s).data.IsRowDataCompatible = true
    ∧ (MeasureRowSegment ops pads t s).data.IsNumberList = true
    ∧ (MeasureRowSegment ops pads t s).data.numberListAlignment
        = t.data.numberListAlignment
    ∧ (MeasureRowSegment ops pads t s).data.AllowNumberNormalization
        = (t.data.AllowNumberNormalization && safeNumber ops s.Value) := by
  rw [MeasureRowSegment]
  have hcbl : V3.isCommentOrBlankLine s.type = false := by
    rw [hs]
    rfl
  have hOr : (t.data.type == JsonItemType.Number || t.data.type == JsonItemType.Null)
      = true := by
    rcases htype with h | h <;> simp [h]
  simp only [hcbl, Bool.false_eq_true, if_false, hs, hrml]
  simp only [apply_ite TableTemplate.data, TableTemplate.dataV5_mk,
    apply_ite TableTemplateData.type, apply_ite TableTemplateData.IsRowDataCompatible,
    apply_ite TableTemplateData.IsNumberList, apply_ite TableTemplateData.numberListAlignment,
    apply_ite TableTemplateData.AllowNumberNormalization, ite_self]
  have hcbl2 : V3.isCommentOrBlankLine JsonItemType.Number = false := by decide
  simp [hcompat, hOr, hnum, safeNumber, Bool.and_assoc, hcbl2]

/-- Folding a column of single-line number rows: `AllowNumberNormalization`
ends up true exactly when every row's value is safe to reformat. -/
theorem foldl_number_column {α : Type} (ops : JsNumOps α) (pads : PaddedFormattingTokens) :
    ∀ (ss : List JsonItem) (t : TableTemplate),
      (∀ s ∈ ss, s.type = .Number ∧ s.RequiresMultipleLines = false) →
      (t.data.type = .Number ∨ t.data.type = .Null) →
      t.data.IsRowDataCompatible = true →
      t.data.IsNumberList = true →
      (ss.foldl (MeasureRowSegment ops pads) t).data.AllowNumberNormalization
        = (t.data.AllowNumberNormalization && ss.all (fun s => safeNumber ops s.Value))
      ∧ (ss.foldl (MeasureRowSegment ops pads) t).data.numberListAlignment
        = t.data.numberListAlignment
  | [], t, _, _, _, _ => by simp
  | s :: ss, t, hall, htype, hcompat, hnum => by
    have hsS := hall s (by simp)
    have hstep := MeasureRowSegment_number ops pads t s hsS.1 hsS.2 htype hcompat hnum
    rw [List.foldl_cons]
    have hrec := foldl_number_column ops pads ss (MeasureRowSegment ops pads t s)
      (fun x hx => hall x (by simp [hx])) (Or.inl hstep.1) hstep.2.1 hstep.2.2.1
    rw [hrec.1, hrec.2, hstep.2.2.2.1, hstep.2.2.2.2]
    simp [Bool.and_assoc]

/-- Under Normalize with normalization disallowed, a number cell is
emitted left-aligned with its source token unchanged. -/
theorem FormatNumber_left {α : Type} (ops : JsNumOps α) (pads : PaddedFormattingTokens)
    (t : TableTemplate) (item : JsonItem) (c : String)
    (hal : t.data.numberListAlignment = .Normalize)
    (hflag : t.data.AllowNumberNormalization = false) :
    FormatNumber ops pads t item c
      = [item.Value, c, pads.Spaces (t.data.SimpleValueLength - item.ValueLength)] := by
  unfold FormatNumber
  dsimp only
  rw [if_pos ⟨hal, hflag⟩]

/-- Under Normalize with normalization allowed, a non-null number cell is
emitted as `toFixed` of the parsed value at the column's common number of
digits after the decimal point. -/
theorem FormatNumber_normalize {α : Type} (ops : JsNumOps α) (pads : PaddedFormattingTokens)
    (t : TableTemplate) (item : JsonItem) (c : String)
    (hal : t.data.numberListAlignment = .Normalize)
    (hflag : t.data.AllowNumberNormalization = true)
    (hitem : item.type ≠ .Null) :
    ∃ p1 p2, FormatNumber ops pads t item c
      = [pads.Spaces p1, ops.toFixed (ops.parse item.Value) t.data.maxDigAfterDecNorm, c,
         pads.Spaces p2] := by
  unfold FormatNumber
  dsimp only
  rw [if_neg (by simp [hflag])]
  rw [hal]
  dsimp only
  rw [if_neg (by simp [hitem])]
  rw [if_pos rfl]
  dsimp only
  exact ⟨_, _, rfl⟩

/-- C7: for a column of single-line number rows under the Normalize
alignment, the measured template allows normalization exactly when every
row's value is safe to reformat (not NaN or infinite, normalized form at
most 15 characters and without an exponent, and not a nonzero token
parsing to zero); when any value is unsafe every cell is emitted
left-aligned with its source token preserved exactly, and when all are
safe each non-null cell is rewritten by `toFixed` at the column's common
number of digits after the decimal point. -/
theorem normalize_fallback {α : Type} (ops : JsNumOps α) (pads : PaddedFormattingTokens)
    (ss : List JsonItem)
    (hall : ∀ s ∈ ss, s.type = .Number ∧ s.RequiresMultipleLines = false) :
    ((ss.foldl (MeasureRowSegment ops pads)
        (newTemplate .Normalize)).data.AllowNumberNormalization
      = ss.all (fun s => safeNumber ops s.Value))
    ∧ (∀ item c, ss.all (fun s => safeNumber ops s.Value) = false →
        FormatNumber ops pads (ss.foldl (MeasureRowSegment ops pads) (newTemplate .Normalize))
            item c
          = [item.Value, c, pads.Spaces
              ((ss.foldl (MeasureRowSegment ops pads)
                (newTemplate .Normalize)).data.SimpleValueLength - item.ValueLength)])
    ∧ (∀ item c, ss.all (fun s => safeNumber ops s.Value) = true → item.type ≠ .Null →
        ∃ p1 p2, FormatNumber ops pads
            (ss.foldl (MeasureRowSegment ops pads) (newTemplate .Normalize)) item c
          = [pads.Spaces p1, ops.toFixed (ops.parse item.Value)
              ((ss.foldl (MeasureRowSegment ops pads)
                (newTemplate .Normalize)).data.maxDigAfterDecNorm), c, pads.Spaces p2]) := by
  have hf := foldl_number_column ops pads ss (newTemplate .Normalize) hall
    (Or.inr rfl) rfl rfl
  have hAllow : (ss.foldl (MeasureRowSegment ops pads)
      (newTemplate .Normalize)).data.AllowNumberNormalization
        = ss.all (fun s => safeNumber ops s.Value) := by
    rw [hf.1]
    have hbase : (newTemplate NumberListAlignment.Normalize).data.AllowNumberNormalization
        = true := rfl
    rw [hbase, Bool.true_and]
  have hAlign : (ss.foldl (MeasureRowSegment ops pads)
      (newTemplate .Normalize)).data.numberListAlignment = .Normalize := by
    rw [hf.2]
    rfl
  exact ⟨hAllow,
    fun item c hfalse => FormatNumber_left ops pads _ item c hAlign
      (by rw [hAllow, hfalse]),
    fun item c htrue hnn => FormatNumber_normalize ops pads _ item c hAlign
      (by rw [hAllow, htrue]) hnn⟩

/-- C7 witness: a concrete two-number column, with the abstract number
primitives instantiated by the identity-based interpretation. -/
theorem normalize_fallback_witness :
    (([FJson.simpleItem .Number "1.5", FJson.simpleItem .Number "2"].foldl
        (MeasureRowSegment FJson.opsId FJson.padsD)
        (newTemplate .Normalize)).data.AllowNumberNormalization
      = [FJson.simpleItem .Number "1.5", FJson.simpleItem .Number "2"].all
          (fun s => safeNumber FJson.opsId s.Value)) :=
  (normalize_fallback FJson.opsId FJson.padsD
    [FJson.simpleItem .Number "1.5", FJson.simpleItem .Number "2"] (by decide)).1

end FJson.V5

namespace FJson.V3

/-- The length-computer pre-pass always yields a measured tree: a
single-line node only has single-line children, recursively. -/
theorem computeItemLengths_measured (pads : PaddedFormattingTokens) (f : String → Nat) :
    ∀ (x : JsonItem), Measured (computeItemLengths pads f x)
  | .mk d ch => by
    rw [computeItemLengths_mk]
    dsimp only
    constructor
    · intro hrml c hc
      simp only [JsonItem.Children_mk] at hc
      rcases List.mem_map.mp hc with ⟨c0, hc0, rfl⟩
      simp only [JsonItem.RequiresMultipleLines_mk] at hrml
      simp only [Bool.or_eq_false_iff, List.any_eq_false] at hrml
      have h1 := hrml.1.1.1.1.2 _ (List.mem_map_of_mem _ hc0)
      simp only [Bool.or_eq_true, not_or, Bool.not_eq_true] at h1
      exact h1.1
    · intro c hc
      simp only [JsonItem.Children_mk] at hc
      rcases List.mem_map.mp hc with ⟨c0, hc0, rfl⟩
      exact computeItemLengths_measured pads f c0
termination_by x => sizeOf x
decreasing_by
  have := List.sizeOf_lt_of_mem hc0
  simp only [JsonItem.mk.sizeOf_spec]
  omega

end FJson.V3

namespace FJson.V3

/-- On a measured single-line item, `InlineElementRaw` and `InlineElement`
always succeed: the logic-error throw fires only on multi-line input, and
single-line-ness propagates to every descendant. -/
theorem inline_ok (pads : PaddedFormattingTokens) (item : JsonItem) (hm : Measured item)
    (hrml : item.RequiresMultipleLines = false) :
    (∃ o, InlineElementRaw pads item = .ok o)
    ∧ (∀ tc, ∃ o, InlineElement pads item tc = .ok o) := by
  have hchok : ∀ l : List JsonItem, (∀ c ∈ l, c ∈ item.Children) →
      ∃ o, InlineChildren pads l = .ok o := by
    intro l
    induction l with
    | nil => exact fun _ => ⟨[], by rw [InlineChildren]⟩
    | cons c cs ih =>
      intro hsub
      have hcmem : c ∈ item.Children := hsub c (by simp)
      have hcm : Measured c := hm.children c hcmem
      have hcr : c.RequiresMultipleLines = false :=
        hm.requiresMultipleLines_children hrml c hcmem
      have hlt : sizeOf c < sizeOf item := JsonItem.sizeOf_lt_of_mem hcmem
      obtain ⟨o, ho⟩ := (inline_ok pads c hcm hcr).2 (!cs.isEmpty)
      obtain ⟨os, hos⟩ := ih (fun x hx => hsub x (by simp [hx]))
      refine ⟨o ++ os, ?_⟩
      rw [InlineChildren, ho, hos]
  have hraw : ∃ o, InlineElementRaw pads item = .ok o := by
    by_cases hA : item.type = .Array
    · obtain ⟨os, hos⟩ := hchok item.Children (fun _ h => h)
      refine ⟨[pads.arrStart (getPaddingType item)] ++ os
        ++ [pads.arrEnd (getPaddingType item)], ?_⟩
      rw [InlineElementRaw, if_pos hA, hos]
    · by_cases hO : item.type = .Object
      · obtain ⟨os, hos⟩ := hchok item.Children (fun _ h => h)
        refine ⟨[pads.objStart (getPaddingType item)] ++ os
          ++ [pads.objEnd (getPaddingType item)], ?_⟩
        rw [InlineElementRaw, if_neg hA, if_pos hO, hos]
      · exact ⟨[item.Value], by rw [InlineElementRaw, if_neg hA, if_neg hO]⟩
  refine ⟨hraw, fun tc => ?_⟩
  obtain ⟨mid, hmid⟩ := hraw
  exact ⟨_, by rw [InlineElement, if_neg (by simp [hrml]), hmid]⟩
termination_by sizeOf item

end FJson.V3

namespace FJson.V3

theorem TableTemplate.IsRowDataCompatible_mk (d : TableTemplateData) (c : List TableTemplate) :
    (TableTemplate.mk d c).IsRowDataCompatible = d.IsRowDataCompatible := rfl

/-- Once a column is marked incompatible, measuring further rows keeps it
incompatible. -/
theorem MeasureRowSegment_compat_false (fns : JsNumberFns) (t : TableTemplate) (s : JsonItem)
    (hc : t.IsRowDataCompatible = false) :
    (MeasureRowSegment fns t s).IsRowDataCompatible = false := by
  rw [MeasureRowSegment]
  by_cases h : isCommentOrBlankLine s.type
  · simp [h, hc]
  · simp only [h, Bool.false_eq_true, if_false]
    simp only [apply_ite TableTemplate.IsRowDataCompatible, TableTemplate.IsRowDataCompatible_mk,
      apply_ite TableTemplateData.IsRowDataCompatible, ite_self]
    simp only [TableTemplate.IsRowDataCompatible, TableTemplate.data] at hc
    cases t with
    | mk d c =>
      simp at hc
      simp [TableTemplate.data, hc]

/-- A multi-line data row forces the column incompatible. -/
theorem MeasureRowSegment_compat_multiline (fns : JsNumberFns) (t : TableTemplate)
    (s : JsonItem) (h1 : isCommentOrBlankLine s.type = false)
    (h2 : s.RequiresMultipleLines = true) :
    (MeasureRowSegment fns t s).IsRowDataCompatible = false := by
  rw [MeasureRowSegment]
  simp only [h1, Bool.false_eq_true, if_false]
  simp only [apply_ite TableTemplate.IsRowDataCompatible, TableTemplate.IsRowDataCompatible_mk,
    apply_ite TableTemplateData.IsRowDataCompatible, ite_self]
  simp [h2]

/-- If the fold over the rows ends compatible, every data row was
single-line. -/
theorem foldl_compat_rows (fns : JsNumberFns) :
    ∀ (ss : List JsonItem) (t : TableTemplate),
      (ss.foldl (MeasureRowSegment fns) t).IsRowDataCompatible = true →
      ∀ s ∈ ss, isCommentOrBlankLine s.type = false → s.RequiresMultipleLines = false
  | [], _, _ => by simp
  | s :: ss, t, h => by
    rw [List.foldl_cons] at h
    intro x hx hxc
    rcases List.mem_cons.mp hx with rfl | hmem
    · by_contra hrml
      rw [Bool.not_eq_false] at hrml
      have hstep := MeasureRowSegment_compat_multiline fns t x hxc hrml
      have : ∀ (l : List JsonItem) (u : TableTemplate), u.IsRowDataCompatible = false →
          (l.foldl (MeasureRowSegment fns) u).IsRowDataCompatible = false := by
        intro l
        induction l with
        | nil => exact fun u hu => hu
        | cons y ys ih =>
          intro u hu
          rw [List.foldl_cons]
          exact ih _ (MeasureRowSegment_compat_false fns u y hu)
      rw [this ss _ hstep] at h
      cases h
    · exact foldl_compat_rows fns ss _ h x hmem hxc

theorem PruneAndRecompute_compat (pads : PaddedFormattingTokens) (t : TableTemplate)
    (m : Int) : (PruneAndRecompute pads t m).IsRowDataCompatible = t.IsRowDataCompatible := by
  rw [PruneAndRecompute]
  simp [TableTemplate.IsRowDataCompatible, TableTemplate.data]

/-- A row-data-compatible measured table root certifies that every data
row is single-line. -/
theorem MeasureTableRoot_compat_rows (fns : JsNumberFns) (pads : PaddedFormattingTokens)
    (ar : Bool) (item : JsonItem)
    (h : (MeasureTableRoot fns pads ar item).IsRowDataCompatible = true) :
    ∀ c ∈ item.Children, isCommentOrBlankLine c.type = false →
      c.RequiresMultipleLines = false := by
  unfold MeasureTableRoot at h
  simp only [TableTemplate.setIsRowDataCompatible, TableTemplate.IsRowDataCompatible,
    TableTemplate.data, Bool.and_eq_true] at h
  have hpr := h.1
  cases hp : PruneAndRecompute pads
      (item.Children.foldl (MeasureRowSegment fns) (newTemplate ar)) (jsNumberMaxValue : Int) with
  | mk d c =>
    have hcompat : (item.Children.foldl (MeasureRowSegment fns)
        (newTemplate ar)).IsRowDataCompatible = true := by
      rw [← PruneAndRecompute_compat pads _ (jsNumberMaxValue : Int), hp]
      rw [hp] at hpr
      exact hpr
    exact foldl_compat_rows fns item.Children _ hcompat
end FJson.V3

namespace FJson.V3

theorem MatchingChild_mem {item : JsonItem} {temp : TableTemplate} {si : JsonItem}
    (h : MatchingChild item temp = some si) : si ∈ item.Children := by
  unfold MatchingChild at h
  cases hl : temp.LocationInParent with
  | none => rw [hl] at h; cases h
  | some n =>
    rw [hl] at h
    exact List.mem_of_find?_eq_some h

/-- A measured single-line item can always be rendered as a table-row
segment, whatever the template: every error path is guarded away. -/
theorem rowSegment_ok (pads : PaddedFormattingTokens) (fns : JsNumberFns)
    (template : TableTemplate) (item : JsonItem) (hm : Measured item)
    (hrml : item.RequiresMultipleLines = false) (a b : Bool) :
    ∃ o, InlineTableRowSegment pads fns template item a b = .ok o := by
  have harr : ∀ (ts : List TableTemplate), (∀ u ∈ ts, u ∈ template.Children) →
      ∀ (xs : List JsonItem), (∀ x ∈ xs, x ∈ item.Children) →
      ∃ o, RawArrayChildren pads fns ts xs = .ok o := by
    intro ts
    induction ts with
    | nil =>
      intro _ xs _
      exact ⟨[], by rw [RawArrayChildren]⟩
    | cons u ts ih =>
      intro hts xs hxs
      have hum : u ∈ template.Children := hts u (by simp)
      have hlt : sizeOf u < sizeOf template := TableTemplate.sizeOfV3_lt_of_mem hum
      cases xs with
      | nil =>
        obtain ⟨o, ho⟩ := ih (fun y hy => hts y (by simp [hy])) [] (by simp)
        exact ⟨_, by rw [RawArrayChildren, ho]⟩
      | cons x xs =>
        have hxm : x ∈ item.Children := hxs x (by simp)
        obtain ⟨seg, hseg⟩ := rowSegment_ok pads fns u x (hm.children x hxm)
          (hm.requiresMultipleLines_children hrml x hxm) (!xs.isEmpty) false
        obtain ⟨rest, hrest⟩ := ih (fun y hy => hts y (by simp [hy])) xs
          (fun y hy => hxs y (by simp [hy]))
        exact ⟨_, by rw [RawArrayChildren, hseg, hrest]⟩
  have hobj : ∀ (tch : List TableTemplate), (∀ u ∈ tch, u ∈ template.Children) →
      ∀ (i : Nat) (lastIdx : Int),
      ∃ o, RawObjectChildren pads fns item lastIdx i tch = .ok o := by
    intro tch
    induction tch with
    | nil =>
      intro _ i lastIdx
      exact ⟨[], by rw [RawObjectChildren]⟩
    | cons sub rest ih =>
      intro hts i lastIdx
      have hum : sub ∈ template.Children := hts sub (by simp)
      have hlt : sizeOf sub < sizeOf template := TableTemplate.sizeOfV3_lt_of_mem hum
      cases hmc : MatchingChild item sub with
      | some subItem =>
        have hxm : subItem ∈ item.Children := MatchingChild_mem hmc
        obtain ⟨seg, hseg⟩ := rowSegment_ok pads fns sub subItem (hm.children _ hxm)
          (hm.requiresMultipleLines_children hrml _ hxm) (!(decide ((i : Int) = lastIdx)))
          false
        obtain ⟨more, hmore⟩ := ih (fun y hy => hts y (by simp [hy])) (i + 1) lastIdx
        exact ⟨_, by rw [RawObjectChildren, hmc]; dsimp only; rw [hseg, hmore]⟩
      | none =>
        obtain ⟨more, hmore⟩ := ih (fun y hy => hts y (by simp [hy])) (i + 1) lastIdx
        exact ⟨_, by rw [RawObjectChildren, hmc]; dsimp only; rw [hmore]⟩
  rw [InlineTableRowSegment]
  dsimp only
  by_cases h1 : template.Children.length > 0 ∧ item.type ≠ .Null
  · rw [if_pos h1]
    by_cases h2 : template.type = .Array
    · rw [if_pos h2]
      obtain ⟨mid, hmid⟩ := harr template.Children (fun _ h => h) item.Children (fun _ h => h)
      rw [InlineTableRawArray, hmid]
      exact ⟨_, rfl⟩
    · rw [if_neg h2]
      obtain ⟨mid, hmid⟩ := hobj template.Children (fun _ h => h) 0
        (lastNonNullIdx item template.Children)
      rw [InlineTableRawObject, hmid]
      exact ⟨_, rfl⟩
  · rw [if_neg h1]
    by_cases h3 : template.IsFormattableNumber ∧ item.type ≠ .Null
    · rw [if_pos h3]
      have hfn : FormatNumber fns template item.Value
          = .ok (padStart (fns.toFixed item.Value template.maxDigitsAfterDecimal)
              template.CompositeValueLength) := by
        rw [FormatNumber, if_neg (by simp [h3.1])]
      rw [hfn]
      exact ⟨_, rfl⟩
    · rw [if_neg h3]
      obtain ⟨mid, hmid⟩ := (inline_ok pads item hm hrml).1
      rw [hmid]
      exact ⟨_, rfl⟩
termination_by sizeOf template
decreasing_by
  all_goals assumption

end FJson.V3

namespace FJson.V3

theorem FormatContainerInline_ok (opts : FracturedJsonOptions) (pads : PaddedFormattingTokens)
    (item : JsonItem) (depth : Nat) (tc : Bool) (hm : Measured item) :
    ∃ r, FormatContainerInline opts pads item depth tc = .ok r := by
  rw [FormatContainerInline]
  by_cases h1 : item.RequiresMultipleLines = true
  · exact ⟨none, by rw [if_pos h1]⟩
  · rw [if_neg h1]
    dsimp only
    by_cases h2 : (item.Complexity : Int) > opts.MaxInlineComplexity
        ∨ ((item.MinimumTotalLength + (if tc then pads.CommaLen else 0) : Nat) : Int)
          > availableLineSpace opts pads depth
    · exact ⟨none, by rw [if_pos h2]⟩
    · rw [if_neg h2]
      obtain ⟨o, ho⟩ := (inline_ok pads item hm (by simpa using h1)).2 tc
      rw [ho]
      exact ⟨_, rfl⟩

theorem CompactChildren_ok (opts : FracturedJsonOptions) (pads : PaddedFormattingTokens)
    (fns : JsNumberFns) (template : TableTemplate) (dac : Nat) (als : Int)
    (item : JsonItem) (hm : Measured item)
    (hrml : item.RequiresMultipleLines = false) :
    ∀ (l : List JsonItem), (∀ c ∈ l, c ∈ item.Children) → ∀ (rem : Int),
      ∃ o, CompactChildren opts pads fns template dac als l rem = .ok o
  | [], _, rem => ⟨[], by rw [CompactChildren]⟩
  | child :: rest, hsub, rem => by
    have hcm : child ∈ item.Children := hsub child (by simp)
    have hmc : Measured child := hm.children child hcm
    have hrc : child.RequiresMultipleLines = false :=
      hm.requiresMultipleLines_children hrml child hcm
    have hseg : ∃ seg, (if template.IsRowDataCompatible then
        InlineTableRowSegment pads fns template child (!rest.isEmpty) false
      else InlineElement pads child (!rest.isEmpty)) = .ok seg := by
      by_cases hc : template.IsRowDataCompatible = true
      · rw [if_pos hc]
        exact rowSegment_ok pads fns template child hmc hrc (!rest.isEmpty) false
      · rw [if_neg hc]
        exact (inline_ok pads child hmc hrc).2 (!rest.isEmpty)
    obtain ⟨seg, hsegE⟩ := hseg
    rw [CompactChildren]
    rw [hsegE]
    dsimp only
    split
    · rename_i e heq
      obtain ⟨o, ho⟩ := CompactChildren_ok opts pads fns template dac als item hm hrml
        rest (fun x hx => hsub x (by simp [hx])) _
      rw [ho] at heq
      cases heq
    · exact ⟨_, rfl⟩

theorem FormatContainerCompactMultiline_ok (opts : FracturedJsonOptions)
    (pads : PaddedFormattingTokens) (fns : JsNumberFns) (item : JsonItem) (depth : Nat)
    (tc : Bool) (hm : Measured item) :
    ∃ r, FormatContainerCompactMultiline opts pads fns item depth tc = .ok r := by
  rw [FormatContainerCompactMultiline]
  by_cases h1 : item.type ≠ .Array
  · exact ⟨none, by rw [if_pos h1]⟩
  · rw [if_neg h1]
    by_cases h2 : (item.Complexity : Int) > opts.MaxCompactArrayComplexity
    · exact ⟨none, by rw [if_pos h2]⟩
    · rw [if_neg h2]
      by_cases h3 : item.RequiresMultipleLines = true
      · exact ⟨none, by rw [if_pos h3]⟩
      · rw [if_neg h3]
        dsimp only
        obtain ⟨body, hbody⟩ := CompactChildren_ok opts pads fns
          (MeasureTableRoot fns pads (!opts.DontJustifyNumbers) item)
          (StandardFormatStart opts pads item depth).2
          (availableLineSpace opts pads ((StandardFormatStart opts pads item depth).2 + 1))
          item hm (by simpa using h3) item.Children (fun _ h => h) (-1)
        rw [hbody]
        dsimp only
        repeat' split
        all_goals exact ⟨_, rfl⟩

end FJson.V3

namespace FJson.V3

theorem TableRows_ok (opts : FracturedJsonOptions) (pads : PaddedFormattingTokens)
    (fns : JsNumberFns) (template : TableTemplate) (dac : Nat) (lastIdx : Int)
    (item : JsonItem) (hm : Measured item) :
    ∀ (l : List JsonItem), (∀ r ∈ l, r ∈ item.Children) →
      (∀ r ∈ l, isCommentOrBlankLine r.type = false → r.RequiresMultipleLines = false) →
      ∀ (i : Nat), ∃ o, TableRows opts pads fns template dac lastIdx l i = .ok o
  | [], _, _, i => ⟨[], by rw [TableRows]⟩
  | r :: rest, hsub, hrows, i => by
    have hrm : r ∈ item.Children := hsub r (by simp)
    have hrowE : ∃ row, (if r.type = .BlankLine then
          Except.ok (FormatBlankLine opts pads)
        else if r.type = .LineComment ∨ r.type = .BlockComment then
          Except.ok (FormatStandaloneComment opts pads r (dac + 1))
        else
          match InlineTableRowSegment pads fns template r
              (decide ((i : Int) < lastIdx)) true with
          | .error e => .error e
          | .ok seg =>
            .ok ([opts.PrefixString, pads.Indent (dac + 1)] ++ seg ++ [pads.EOL]))
        = Except.ok row := by
      by_cases hb : r.type = .BlankLine
      · exact ⟨_, by rw [if_pos hb]⟩
      · by_cases hcm : r.type = .LineComment ∨ r.type = .BlockComment
        · exact ⟨_, by rw [if_neg hb, if_pos hcm]⟩
        · push_neg at hcm
          have hncb : isCommentOrBlankLine r.type = false := by
            simp [isCommentOrBlankLine, hb, hcm.1, hcm.2]
          have hrml2 : r.RequiresMultipleLines = false := hrows r (by simp) hncb
          obtain ⟨seg, hseg⟩ := rowSegment_ok pads fns template r (hm.children r hrm) hrml2
            (decide ((i : Int) < lastIdx)) true
          exact ⟨_, by rw [if_neg hb, if_neg (by push_neg; exact hcm), hseg]⟩
    obtain ⟨row, hrow⟩ := hrowE
    obtain ⟨more, hmore⟩ := TableRows_ok opts pads fns template dac lastIdx item hm rest
      (fun x hx => hsub x (by simp [hx])) (fun x hx h => hrows x (by simp [hx]) h) (i + 1)
    exact ⟨_, by rw [TableRows]; rw [hrow, hmore]⟩

theorem FormatContainerTable_ok (opts : FracturedJsonOptions)
    (pads : PaddedFormattingTokens) (fns : JsNumberFns) (item : JsonItem) (depth : Nat)
    (tc : Bool) (hm : Measured item) :
    ∃ r, FormatContainerTable opts pads fns item depth tc = .ok r := by
  unfold FormatContainerTable
  by_cases h1 : (item.Complexity : Int) > opts.MaxTableRowComplexity + 1
  · exact ⟨none, by rw [if_pos h1]⟩
  · rw [if_neg h1]
    dsimp only
    by_cases h2 : (item.Children.filter (fun ch => !isCommentOrBlankLine ch.type)).any
        (fun ch => (ch.MinimumTotalLength : Int)
          > availableLineSpace opts pads (depth + 1) - (pads.CommaLen : Int)) = true
    · exact ⟨none, by rw [if_pos h2]⟩
    · rw [if_neg h2]
      by_cases h3 : (MeasureTableRoot fns pads (!opts.DontJustifyNumbers)
          item).IsRowDataCompatible = false
      · exact ⟨none, by rw [if_pos h3]⟩
      · rw [if_neg h3]
        have hcompat : (MeasureTableRoot fns pads (!opts.DontJustifyNumbers)
            item).IsRowDataCompatible = true := by
          simpa using h3
        have hrows := MeasureTableRoot_compat_rows fns pads (!opts.DontJustifyNumbers)
          item hcompat
        cases htf : TryToFit pads (MeasureTableRoot fns pads (!opts.DontJustifyNumbers) item)
            (availableLineSpace opts pads (depth + 1) - (pads.CommaLen : Int)) with
        | mk flag t2 =>
          cases flag with
          | false => exact ⟨none, rfl⟩
          | true =>
            obtain ⟨rows, hrowsE⟩ := TableRows_ok opts pads fns t2
              (StandardFormatStart opts pads item depth).2 (indexOfLastElement item.Children)
              item hm item.Children (fun _ h => h) hrows 0
            exact ⟨_, by dsimp only; rw [hrowsE]⟩

end FJson.V3

namespace FJson.V3

/-- On a measured tree, `FormatItem` never returns an error, whatever
layout is chosen. -/
theorem FormatItem_ok (opts : FracturedJsonOptions) (pads : PaddedFormattingTokens)
    (fns : JsNumberFns) (item : JsonItem) (hm : Measured item) (depth : Nat) (tc : Bool) :
    ∃ o, FormatItem opts pads fns item depth tc = .ok o := by
  have hexp : ∀ (l : List JsonItem), (∀ c ∈ l, c ∈ item.Children) →
      ∀ (li : Int) (dac : Nat) (i : Nat),
      ∃ o, ExpandedChildren opts pads fns li dac l i = .ok o := by
    intro l
    induction l with
    | nil =>
      intro _ li dac i
      exact ⟨[], by rw [ExpandedChildren]⟩
    | cons c cs ih =>
      intro hsub li dac i
      have hcmem : c ∈ item.Children := hsub c (by simp)
      have hlt : sizeOf c < sizeOf item := JsonItem.sizeOf_lt_of_mem hcmem
      obtain ⟨o, ho⟩ := FormatItem_ok opts pads fns c (hm.children c hcmem) (dac + 1)
        (decide ((i : Int) < li))
      obtain ⟨os, hos⟩ := ih (fun x hx => hsub x (by simp [hx])) li dac (i + 1)
      exact ⟨_, by rw [ExpandedChildren]; rw [ho, hos]⟩
  have hfce : ∀ (d2 : Nat) (t2 : Bool),
      ∃ o, FormatContainerExpanded opts pads fns item d2 t2 = .ok o := by
    intro d2 t2
    obtain ⟨body, hbody⟩ := hexp item.Children (fun _ h => h)
      (indexOfLastElement item.Children) (StandardFormatStart opts pads item d2).2 0
    exact ⟨_, by rw [FormatContainerExpanded]; rw [hbody]⟩
  have htoe : ∃ r, FormatContainerTableOrExpanded opts pads fns item depth tc = .ok r := by
    rw [FormatContainerTableOrExpanded]
    by_cases hd : (depth : Int) ≥ opts.AlwaysExpandDepth
    · rw [if_pos hd]
      obtain ⟨r, hr⟩ := FormatContainerTable_ok opts pads fns item depth tc hm
      cases r with
      | none =>
        obtain ⟨o, ho⟩ := hfce depth tc
        exact ⟨_, by rw [hr]; dsimp only; rw [ho]⟩
      | some o => exact ⟨_, by rw [hr]⟩
    · rw [if_neg hd]
      obtain ⟨o, ho⟩ := hfce depth tc
      exact ⟨_, by rw [ho]⟩
  have hfc : ∃ r, FormatContainer opts pads fns item depth tc = .ok r := by
    rw [FormatContainer]
    by_cases hd : (depth : Int) > opts.AlwaysExpandDepth
    · rw [if_pos hd]
      obtain ⟨r1, hr1⟩ := FormatContainerInline_ok opts pads item depth tc hm
      cases r1 with
      | some o => exact ⟨_, by rw [hr1]⟩
      | none =>
        obtain ⟨r2, hr2⟩ := FormatContainerCompactMultiline_ok opts pads fns item depth tc hm
        cases r2 with
        | some o => exact ⟨_, by rw [hr1]; dsimp only; rw [hr2]⟩
        | none =>
          obtain ⟨r3, hr3⟩ := htoe
          exact ⟨_, by rw [hr1]; dsimp only; rw [hr2]; dsimp only; rw [hr3]⟩
    · rw [if_neg hd]
      obtain ⟨r3, hr3⟩ := htoe
      exact ⟨_, by rw [hr3]⟩
  rw [FormatItem]
  cases ht : item.type with
  | Array =>
    obtain ⟨r, hr⟩ := hfc
    exact ⟨_, by dsimp only; rw [hr]⟩
  | Object =>
    obtain ⟨r, hr⟩ := hfc
    exact ⟨_, by dsimp only; rw [hr]⟩
  | BlankLine => exact ⟨_, rfl⟩
  | BlockComment => exact ⟨_, rfl⟩
  | LineComment => exact ⟨_, rfl⟩
  | Null =>
    by_cases hrml : item.RequiresMultipleLines = true
    · exact ⟨_, by dsimp only; rw [if_pos hrml]⟩
    · obtain ⟨o, ho⟩ := (inline_ok pads item hm (by simpa using hrml)).2 tc
      exact ⟨_, by dsimp only; rw [if_neg hrml, FormatInlineElement, ho]⟩
  | False =>
    by_cases hrml : item.RequiresMultipleLines = true
    · exact ⟨_, by dsimp only; rw [if_pos hrml]⟩
    · obtain ⟨o, ho⟩ := (inline_ok pads item hm (by simpa using hrml)).2 tc
      exact ⟨_, by dsimp only; rw [if_neg hrml, FormatInlineElement, ho]⟩
  | True =>
    by_cases hrml : item.RequiresMultipleLines = true
    · exact ⟨_, by dsimp only; rw [if_pos hrml]⟩
    · obtain ⟨o, ho⟩ := (inline_ok pads item hm (by simpa using hrml)).2 tc
      exact ⟨_, by dsimp only; rw [if_neg hrml, FormatInlineElement, ho]⟩
  | String =>
    by_cases hrml : item.RequiresMultipleLines = true
    · exact ⟨_, by dsimp only; rw [if_pos hrml]⟩
    · obtain ⟨o, ho⟩ := (inline_ok pads item hm (by simpa using hrml)).2 tc
      exact ⟨_, by dsimp only; rw [if_neg hrml, FormatInlineElement, ho]⟩
  | Number =>
    by_cases hrml : item.RequiresMultipleLines = true
    · exact ⟨_, by dsimp only; rw [if_pos hrml]⟩
    · obtain ⟨o, ho⟩ := (inline_ok pads item hm (by simpa using hrml)).2 tc
      exact ⟨_, by dsimp only; rw [if_neg hrml, FormatInlineElement, ho]⟩
termination_by sizeOf item
decreasing_by
  all_goals assumption

end FJson.V3

namespace FJson.V3

/-- C9: the layout engine raises no user-facing error on any tree
produced by the length-computer pre-pass: `FormatItem` succeeds for every
input, option set and depth, and in particular the logic-error throw in
`InlineElement` is unreachable on single-line items — every call path
into it (inline classification, compact-multiline, and table rows, via
the row-data-compatible flag) first establishes that the item does not
require multiple lines. -/
theorem layout_engine_no_errors (opts : FracturedJsonOptions)
    (pads : PaddedFormattingTokens) (fns : JsNumberFns) (f : String → Nat) (x : JsonItem)
    (depth : Nat) (tc : Bool) :
    (∃ o, FormatItem opts pads fns (computeItemLengths pads f x) depth tc = .ok o)
    ∧ ((computeItemLengths pads f x).RequiresMultipleLines = false →
        ∃ o, InlineElement pads (computeItemLengths pads f x) tc = .ok o) :=
  ⟨FormatItem_ok opts pads fns _ (computeItemLengths_measured pads f x) depth tc,
   fun h => (inline_ok pads _ (computeItemLengths_measured pads f x) h).2 tc⟩

/-- C9 witness: a concrete measured number renders without error. -/
theorem layout_engine_no_errors_witness :
    (computeItemLengths padsD String.length (simpleItem .Number "1")).RequiresMultipleLines
      = false
    ∧ ∃ o, InlineElement padsD (computeItemLengths padsD String.length (simpleItem .Number "1"))
        false = .ok o := by
  have hrml : (computeItemLengths padsD String.length
      (simpleItem .Number "1")).RequiresMultipleLines = false := by
    rw [simpleItem, computeItemLengths_mk]
    simp [isCommentOrBlankLine, String.contains, String.any_eq]
  exact ⟨hrml, (layout_engine_no_errors optsD padsD fnsId String.length
    (simpleItem .Number "1") 0 false).2 hrml⟩

end FJson.V3

namespace FJson.V3

/-- The container formatter evaluated on `[]` at depth 0 with
`AlwaysExpandDepth = 5`: the expanded fallback fires. -/
theorem fc_empty_eval : FormatContainer { AlwaysExpandDepth := 5 } FJson.padsD FJson.fnsId
    (FJson.containerItem .Array [] 0) 0 false
    = .ok (.Expanded, ["", "", "[", "\n", "", "", "]", "\n"]) := by
  rw [FormatContainer]
  rw [if_neg (by norm_num)]
  rw [FormatContainerTableOrExpanded]
  rw [if_neg (by norm_num)]
  rw [FormatContainerExpanded]
  simp only [FJson.containerItem, FJson.simpleItem, FJson.JsonItem.Children_mk]
  rw [ExpandedChildren]
  rfl

end FJson.V3

namespace FJson.V3

theorem FCCM_some_array (opts : FracturedJsonOptions) (pads : PaddedFormattingTokens)
    (fns : JsNumberFns) (item : JsonItem) (depth : Nat) (tc : Bool) (o : List String)
    (h : FormatContainerCompactMultiline opts pads fns item depth tc = .ok (some o)) :
    item.type = .Array := by
  by_cases ha : item.type = .Array
  · exact ha
  · rw [FormatContainerCompactMultiline, if_pos ha] at h
    simp at h

theorem FCT_some_guards (opts : FracturedJsonOptions) (pads : PaddedFormattingTokens)
    (fns : JsNumberFns) (item : JsonItem) (depth : Nat) (tc : Bool) (o : List String)
    (h : FormatContainerTable opts pads fns item depth tc = .ok (some o)) :
    ¬((item.Complexity : Int) > opts.MaxTableRowComplexity + 1)
    ∧ (∀ ch ∈ item.Children, isCommentOrBlankLine ch.type = false →
        (ch.MinimumTotalLength : Int)
          ≤ availableLineSpace opts pads (depth + 1) - (pads.CommaLen : Int))
    ∧ (MeasureTableRoot fns pads (!opts.DontJustifyNumbers) item).IsRowDataCompatible = true
    ∧ (TryToFit pads (MeasureTableRoot fns pads (!opts.DontJustifyNumbers) item)
        (availableLineSpace opts pads (depth + 1) - (pads.CommaLen : Int))).1 = true := by
  unfold FormatContainerTable at h
  split at h
  · simp at h
  · rename_i h1
    dsimp only at h
    split at h
    · simp at h
    · rename_i h2
      split at h
      · simp at h
      · rename_i h3
        refine ⟨h1, ?_, by simpa using h3, ?_⟩
        · intro ch hch hnc
          by_contra hgt
          push_neg at hgt
          have : (item.Children.filter (fun ch => !isCommentOrBlankLine ch.type)).any
              (fun ch => decide ((ch.MinimumTotalLength : Int)
                > availableLineSpace opts pads (depth + 1) - (pads.CommaLen : Int)))
              = true := by
            rw [List.any_eq_true]
            refine ⟨ch, ?_, by simpa using hgt⟩
            rw [List.mem_filter]
            exact ⟨hch, by simp [hnc]⟩
          exact h2 this
        · split at h
          · rename_i heq
            simp at h
          · rename_i t2 heq
            rw [heq]
end FJson.V3

namespace FJson.V3

/-- C1: `FormatContainer` tries the layouts in the fixed order Inline,
MultilineCompact (arrays only), Table, Expanded and emits the first that
succeeds: Inline and MultilineCompact only above `AlwaysExpandDepth`,
Table at or above it, Expanded as the unconditional fallback; and Table
is selected only when the node's complexity is at most
`MaxTableRowComplexity + 1`, every non-comment child's minimum total
length fits in the available line space minus the comma width, the
template analyzer returns a row-data-compatible schema, and `TryToFit`
succeeds. -/
theorem format_selection (opts : FracturedJsonOptions) (pads : PaddedFormattingTokens)
    (fns : JsNumberFns) (item : JsonItem) (depth : Nat) (tc : Bool)
    (fmt : ContainerFormat) (out : List String)
    (h : FormatContainer opts pads fns item depth tc = .ok (fmt, out)) :
    ((fmt = .Inline ∨ fmt = .MultilineCompact) → (depth : Int) > opts.AlwaysExpandDepth)
    ∧ (fmt = .Inline → FormatContainerInline opts pads item depth tc = .ok (some out))
    ∧ (fmt = .MultilineCompact → item.type = .Array
        ∧ FormatContainerInline opts pads item depth tc = .ok none
        ∧ FormatContainerCompactMultiline opts pads fns item depth tc = .ok (some out))
    ∧ (fmt = .Table → (depth : Int) ≥ opts.AlwaysExpandDepth
        ∧ ((depth : Int) > opts.AlwaysExpandDepth →
            FormatContainerInline opts pads item depth tc = .ok none
            ∧ FormatContainerCompactMultiline opts pads fns item depth tc = .ok none)
        ∧ FormatContainerTable opts pads fns item depth tc = .ok (some out)
        ∧ ¬((item.Complexity : Int) > opts.MaxTableRowComplexity + 1)
        ∧ (∀ ch ∈ item.Children, isCommentOrBlankLine ch.type = false →
            (ch.MinimumTotalLength : Int)
              ≤ availableLineSpace opts pads (depth + 1) - (pads.CommaLen : Int))
        ∧ (MeasureTableRoot fns pads (!opts.DontJustifyNumbers) item).IsRowDataCompatible
            = true
        ∧ (TryToFit pads (MeasureTableRoot fns pads (!opts.DontJustifyNumbers) item)
            (availableLineSpace opts pads (depth + 1) - (pads.CommaLen : Int))).1 = true)
    ∧ (fmt = .Expanded → FormatContainerExpanded opts pads fns item depth tc = .ok out
        ∧ ((depth : Int) ≥ opts.AlwaysExpandDepth →
            FormatContainerTable opts pads fns item depth tc = .ok none)) := by
  have htoe : FormatContainerTableOrExpanded opts pads fns item depth tc = .ok (fmt, out) →
      (fmt = .Inline → False) ∧ (fmt = .MultilineCompact → False)
      ∧ (fmt = .Table → (depth : Int) ≥ opts.AlwaysExpandDepth
          ∧ FormatContainerTable opts pads fns item depth tc = .ok (some out))
      ∧ (fmt = .Expanded → FormatContainerExpanded opts pads fns item depth tc = .ok out
          ∧ ((depth : Int) ≥ opts.AlwaysExpandDepth →
              FormatContainerTable opts pads fns item depth tc = .ok none)) := by
    intro h2
    rw [FormatContainerTableOrExpanded] at h2
    by_cases hge : (depth : Int) ≥ opts.AlwaysExpandDepth
    · rw [if_pos hge] at h2
      cases hT : FormatContainerTable opts pads fns item depth tc with
      | error e => rw [hT] at h2; cases h2
      | ok oT =>
        rw [hT] at h2
        cases oT with
        | some o =>
          simp only [Except.ok.injEq, Prod.mk.injEq] at h2
          obtain ⟨rfl, rfl⟩ := h2
          exact ⟨(fun he => nomatch he), (fun he => nomatch he),
            fun _ => ⟨hge, rfl⟩, (fun he => nomatch he)⟩
        | none =>
          cases hE : FormatContainerExpanded opts pads fns item depth tc with
          | error e => rw [hE] at h2; cases h2
          | ok oE =>
            rw [hE] at h2
            simp only [Except.ok.injEq, Prod.mk.injEq] at h2
            obtain ⟨rfl, rfl⟩ := h2
            exact ⟨(fun he => nomatch he), (fun he => nomatch he), (fun he => nomatch he),
              fun _ => ⟨rfl, fun _ => rfl⟩⟩
    · rw [if_neg hge] at h2
      cases hE : FormatContainerExpanded opts pads fns item depth tc with
      | error e => rw [hE] at h2; cases h2
      | ok oE =>
        rw [hE] at h2
        simp only [Except.ok.injEq, Prod.mk.injEq] at h2
        obtain ⟨rfl, rfl⟩ := h2
        exact ⟨(fun he => nomatch he), (fun he => nomatch he), (fun he => nomatch he),
          fun _ => ⟨rfl, fun hg => absurd hg hge⟩⟩
  rw [FormatContainer] at h
  by_cases hd : (depth : Int) > opts.AlwaysExpandDepth
  · rw [if_pos hd] at h
    cases hI : FormatContainerInline opts pads item depth tc with
    | error e => rw [hI] at h; cases h
    | ok oI =>
      rw [hI] at h
      cases oI with
      | some o =>
        simp only [Except.ok.injEq, Prod.mk.injEq] at h
        obtain ⟨rfl, rfl⟩ := h
        refine ⟨fun _ => hd, fun _ => rfl, ?_, ?_, ?_⟩
        · intro he; exact absurd he (by decide)
        · intro he; exact absurd he (by decide)
        · intro he; exact absurd he (by decide)
      | none =>
        cases hC : FormatContainerCompactMultiline opts pads fns item depth tc with
        | error e => rw [hC] at h; cases h
        | ok oC =>
          rw [hC] at h
          cases oC with
          | some o =>
            simp only [Except.ok.injEq, Prod.mk.injEq] at h
            obtain ⟨rfl, rfl⟩ := h
            refine ⟨fun _ => hd, ?_, ?_, ?_, ?_⟩
            · intro he; exact absurd he (by decide)
            · exact fun _ => ⟨FCCM_some_array opts pads fns item depth tc _ hC, rfl, rfl⟩
            · intro he; exact absurd he (by decide)
            · intro he; exact absurd he (by decide)
          | none =>
            have hrest := htoe h
            refine ⟨?_, ?_, ?_, ?_, ?_⟩
            · rintro (he | he)
              · exact absurd he (by simpa using hrest.1)
              · exact absurd he (by simpa using hrest.2.1)
            · intro he; exact absurd he (by simpa using hrest.1)
            · intro he; exact absurd he (by simpa using hrest.2.1)
            · intro he
              obtain ⟨hge, hT⟩ := hrest.2.2.1 he
              have hg := FCT_some_guards opts pads fns item depth tc out hT
              exact ⟨hge, fun _ => ⟨rfl, rfl⟩, hT, hg.1, hg.2.1, hg.2.2.1, hg.2.2.2⟩
            · intro he
              exact hrest.2.2.2 he
  · rw [if_neg hd] at h
    have hrest := htoe h
    refine ⟨?_, ?_, ?_, ?_, ?_⟩
    · rintro (he | he)
      · exact absurd he (by simpa using hrest.1)
      · exact absurd he (by simpa using hrest.2.1)
    · intro he; exact absurd he (by simpa using hrest.1)
    · intro he; exact absurd he (by simpa using hrest.2.1)
    · intro he
      obtain ⟨hge, hT⟩ := hrest.2.2.1 he
      have hg := FCT_some_guards opts pads fns item depth tc out hT
      exact ⟨hge, fun hgt => absurd hgt hd, hT, hg.1, hg.2.1, hg.2.2.1, hg.2.2.2⟩
    · intro he
      exact hrest.2.2.2 he

end FJson.V3

namespace FJson.V3

/-- C1 witness: below `AlwaysExpandDepth` the empty array is emitted by
the expanded fallback. -/
theorem format_selection_witness :
    FormatContainerExpanded { AlwaysExpandDepth := 5 } FJson.padsD FJson.fnsId
        (FJson.containerItem .Array [] 0) 0 false
      = .ok ["", "", "[", "\n", "", "", "]", "\n"] :=
  ((format_selection { AlwaysExpandDepth := 5 } FJson.padsD FJson.fnsId
      (FJson.containerItem .Array [] 0) 0 false .Expanded
      ["", "", "[", "\n", "", "", "]", "\n"] fc_empty_eval).2.2.2.2 rfl).1

end FJson.V3

namespace FJson.V3

/-- `ComputeItemLengths` on the two-number array yields the measured tree
`twsRoot`. -/
theorem tws_measure : computeItemLengths padsD String.length exNumPair = twsRoot := by
  simp only [exNumPair, twsRoot, twsChild1, twsChild2, FJson.containerItem, FJson.simpleItem]
  simp only [computeItemLengths_mk, List.map_cons, List.map_nil]
  simp only [String.contains, String.any_eq]
  rfl

/-- Measuring the first row of the table. -/
theorem tws_seg1 : MeasureRowSegment fnsId (newTemplate true) twsChild1 = twsT1 := by
  rw [MeasureRowSegment]
  simp only [String.contains, String.any_eq]
  rfl

/-- Measuring the second row of the table. -/
theorem tws_seg2 : MeasureRowSegment fnsId twsT1 twsChild2 = twsT2 := by
  rw [MeasureRowSegment]
  simp only [String.contains, String.any_eq]
  rfl

/-- The final template is a plain number column. -/
theorem tws_gtc : GetTemplateComplexity twsT = 0 := by
  rw [GetTemplateComplexity]
  rfl

/-- `MeasureTableRoot` on the measured two-number array. -/
theorem tws_root : MeasureTableRoot fnsId padsD (!optsTbl.DontJustifyNumbers) twsRoot = twsT := by
  have har : (!optsTbl.DontJustifyNumbers) = true := rfl
  rw [har]
  unfold MeasureTableRoot
  have hch : twsRoot.Children = [twsChild1, twsChild2] := rfl
  rw [hch]
  simp only [List.foldl_cons, List.foldl_nil]
  simp only [tws_seg1, tws_seg2]
  have hbig : ¬ ((jsNumberMaxValue : Int) ≤ 0) := by
    have h0 : 0 < jsNumberMaxValue := by
      unfold jsNumberMaxValue
      exact Nat.mul_pos (by norm_num) (pow_pos (by norm_num) 971)
    intro hle
    omega
  have hP : PruneAndRecompute padsD twsT2 (jsNumberMaxValue : Int) = twsT := by
    rw [PruneAndRecompute]
    rw [if_neg hbig]
    rfl
  simp only [hP]
  rfl

/-- The one-character-wide template fits the available line space without
pruning. -/
theorem tws_fit :
    TryToFit padsD twsT (availableLineSpace optsTbl padsD (0 + 1) - (padsD.CommaLen : Int))
      = (true, twsT) := by
  unfold TryToFit
  rw [tws_gtc]
  rfl

/-- The first table row: `"1"` followed by the padded comma `", "` when a
comma is due, by the dummy comma `"  "` otherwise. -/
theorem tws_row1 (b : Bool) :
    InlineTableRowSegment padsD fnsId twsT twsChild1 b true
      = .ok (if b then ["1", ", "] else ["1", "  "]) := by
  cases b with
  | false =>
    rw [InlineTableRowSegment]
    rfl
  | true =>
    rw [InlineTableRowSegment]
    rfl

/-- The second table row. -/
theorem tws_row2 (b : Bool) :
    InlineTableRowSegment padsD fnsId twsT twsChild2 b true
      = .ok (if b then ["2", ", "] else ["2", "  "]) := by
  cases b with
  | false =>
    rw [InlineTableRowSegment]
    rfl
  | true =>
    rw [InlineTableRowSegment]
    rfl

/-- The emitted table rows: both end in whitespace right before the
terminator. -/
theorem tws_rows :
    TableRows optsTbl padsD fnsId twsT (StandardFormatStart optsTbl padsD twsRoot 0).2
        (indexOfLastElement twsRoot.Children) twsRoot.Children 0
      = .ok ["", "    ", "1", ", ", "\n", "", "    ", "2", "  ", "\n"] := by
  have h2 : (StandardFormatStart optsTbl padsD twsRoot 0).2 = 0 := rfl
  have hL : indexOfLastElement twsRoot.Children = 1 := rfl
  have hch : twsRoot.Children = [twsChild1, twsChild2] := rfl
  rw [h2, hL, hch]
  simp only [TableRows]
  rw [tws_row1, tws_row2]
  rfl

/-- The table layout succeeds on the measured two-number array and emits
`twsOut`. -/
theorem tws_table :
    FormatContainerTable optsTbl padsD fnsId twsRoot 0 false = .ok (some twsOut) := by
  unfold FormatContainerTable
  dsimp only
  rw [tws_root]
  rw [tws_fit]
  dsimp only
  rw [tws_rows]
  rfl

/-- C8 counterexample: the shipped formatter does emit trailing
whitespace.  Formatting the array `[1, 2]` with the inline and
compact-multiline layouts disabled selects the table layout, whose
written fragments join to the string `"[\n    1, \n    2  \n]\n"`: the
first data row ends with the padded comma `", "` and the second with the
dummy-comma alignment spaces `"  "` immediately before the line
terminator, so the output violates `NoTrailingWhitespace`. -/
theorem formatter_emits_trailing_whitespace :
    FormatContainer optsTbl padsD fnsId (computeItemLengths padsD String.length exNumPair)
        0 false
      = .ok (.Table, twsOut)
    ∧ ¬ FJson.SJB.NoTrailingWhitespace (String.join twsOut).toList := by
  constructor
  · rw [tws_measure]
    rw [FormatContainer]
    have hI : FormatContainerInline optsTbl padsD twsRoot 0 false = .ok none := rfl
    rw [hI]
    dsimp only
    have hCM : FormatContainerCompactMultiline optsTbl padsD fnsId twsRoot 0 false
        = .ok none := rfl
    rw [hCM]
    dsimp only
    rw [FormatContainerTableOrExpanded]
    rw [tws_table]
    rfl
  · intro h
    have h1 := h.1
    have hjoin : (String.join twsOut).toList
        = ['[', '\n', ' ', ' ', ' ', ' ', '1', ',', ' ', '\n',
           ' ', ' ', ' ', ' ', '2', ' ', ' ', '\n', ']', '\n'] := rfl
    rw [hjoin] at h1
    rw [List.chain'_iff_get] at h1
    have h2 := h1 8 (by norm_num)
    have h3 := h2 (by decide)
    exact absurd h3 (by decide)

end FJson.V3
